import Mathlib

/-!
# creek: a size-rotating log writer (vendor/github.com/beeker1121/creek/creek.go)

A shallow embedding of the `creek` logger used by gotodo as its log sink, and
theorems about it. The query building of the todos database
(database/todos/todos.go) follows in the namespace `Todos`.

## Modelling conventions

* Byte slices are `List Byte`; `len(p)` is `p.length`.
* `int64` values are integers. File sizes and slice lengths are far below
  `2^62` on every platform, so the additions on sizes cannot wrap and are taken
  in `Int`; the multiplication in `maxSize`, whose operand is chosen by the
  caller, is taken with 64-bit two's complement wrap-around (`wrap64`).
* The operating system is a state `OS`: regular files by path, directories by
  path, a set of inaccessible paths, and the list of goroutines started with
  `go compressLogFile(..)`. Starting a goroutine only records it: what a
  running `compressLogFile` does to the files is not part of a call of `Write`.
* `compressLogFile` is a function of its own on `OS`, with its own environment
  `CompressEnv`. The package `compress/gzip` is not part of the program: the
  codec is a parameter `Gzip`, and what is assumed of it is said where it is
  used. `WriteGo` is `Write` with the goroutine run to completion at the `go`
  statement.
* `os.Stat` is a function of the state: it reports the file, or "does not
  exist", or another error on an inaccessible path. The other path-based calls
  fail on an inaccessible path too, and may fail for reasons of their own.
* The log path is taken to name a regular file or nothing, not a directory.
* A Go `error` is `Option Error` (`none` is `nil`).
* What the environment decides during one call (the instant read by
  `time.Now()`, and whether a system call fails for a reason the state does not
  determine) is an explicit argument `Env`. Every system-call site of `Write`
  runs at most once per call, so `Env` has one field per site.
* An open `*os.File` is a `Handle` carrying the path it was opened on. The
  program renames the log path only after the handle on it has been closed, so
  a handle and its path always denote the same file.
* The mutex `mu` is not modelled: calls are taken one at a time.
-/

namespace Creek

/-! ## Bytes, integers, time -/

/-- A byte. -/
abbrev Byte := Fin 256

/-- Two's complement reduction of an integer to the `int64` range. -/
def wrap64 (x : Int) : Int := (x + 2 ^ 63) % 2 ^ 64 - 2 ^ 63

/-- A wall-clock reading in UTC, as produced by `time.Now().UTC()`. -/
structure Time where
  year : Nat
  month : Nat
  day : Nat
  hour : Nat
  minute : Nat
  second : Nat
  nano : Nat
deriving DecidableEq, Repr

/-- The decimal digit character of `n % 10`. -/
def digit (n : Nat) : Char := Char.ofNat (48 + n % 10)

/-- Two decimal digits, zero padded. -/
def pad2 (n : Nat) : List Char := [digit (n / 10), digit n]

/-- The decimal digits of `n` in front of `acc`, most significant first. -/
def decimalAux : Nat → Nat → List Char → List Char
  | 0, _, acc => acc
  | fuel + 1, n, acc =>
    if n < 10 then digit n :: acc else decimalAux fuel (n / 10) (digit n :: acc)

/-- At least four decimal digits, zero padded (Go pads years to width 4). -/
def pad4 (n : Nat) : List Char :=
  if n < 10000 then [digit (n / 1000), digit (n / 100), digit (n / 10), digit n]
  else decimalAux n n []

/-- The layout `time.RFC3339` ("2006-01-02T15:04:05Z07:00") applied to a UTC
time: seconds resolution, zone written `Z`. -/
def rfc3339 (t : Time) : List Char :=
  pad4 t.year ++ '-' :: pad2 t.month ++ '-' :: pad2 t.day ++ 'T' :: pad2 t.hour
    ++ ':' :: pad2 t.minute ++ ':' :: pad2 t.second ++ ['Z']

/-- The ranges of the fields of an instant whose year RFC 3339 can express in
four digits. -/
def Time.InRange (t : Time) : Prop :=
  t.year < 10000 ∧ 1 ≤ t.month ∧ t.month ≤ 12 ∧ 1 ≤ t.day ∧ t.day ≤ 31 ∧ t.hour < 24 ∧
    t.minute < 60 ∧ t.second < 60 ∧ t.nano < 1000000000

instance (t : Time) : Decidable t.InRange := by
  unfold Time.InRange
  infer_instance

/-! ## path/filepath on a Unix system -/

/-- The elements of a path between its slashes (`strings.Split(path, "/")`). -/
def comps : List Char → List (List Char)
  | [] => [[]]
  | c :: cs =>
    if c = '/' then [] :: comps cs
    else match comps cs with
      | [] => [[c]]
      | x :: xs => (c :: x) :: xs

/-- One element processed by `filepath.Clean`: empty and `.` elements are
dropped, `..` removes the previous element when there is one to remove, and is
kept at the front of a relative path otherwise. -/
def cleanStep (rooted : Bool) (st : List (List Char)) (c : List Char) : List (List Char) :=
  if c = [] ∨ c = ['.'] then st
  else if c = ['.', '.'] then
    if st = [] then (if rooted then [] else [c])
    else if st.getLast? = some ['.', '.'] then st ++ [c]
    else st.dropLast
  else st ++ [c]

/-- Elements joined with single slashes. -/
def joinSlash : List (List Char) → List Char
  | [] => []
  | [x] => x
  | x :: y :: xs => x ++ '/' :: joinSlash (y :: xs)

/-- Go `filepath.Clean` on a list of characters. -/
def cleanChars (path : List Char) : List Char :=
  if path = [] then ['.']
  else
    let rooted := path.head? = some '/'
    let body := joinSlash ((comps path).foldl (cleanStep rooted) [])
    if rooted then '/' :: body
    else if body = [] then ['.'] else body

/-- The part of a path up to and including its last slash (empty when there is
no slash). -/
def uptoLastSlash (path : List Char) : List Char :=
  (path.reverse.dropWhile (fun c => c ≠ '/')).reverse

/-- The part of a path after its last slash (all of it when there is no
slash). -/
def afterLastSlash (path : List Char) : List Char :=
  (path.reverse.takeWhile (fun c => c ≠ '/')).reverse

/-- Go `filepath.Dir` on a list of characters. -/
def dirChars (path : List Char) : List Char := cleanChars (uptoLastSlash path)

/-- Go `filepath.Base` on a list of characters. -/
def baseChars (path : List Char) : List Char :=
  if path = [] then ['.']
  else
    let p := (path.reverse.dropWhile (fun c => c = '/')).reverse
    let b := afterLastSlash p
    if b = [] then ['/'] else b

/-- The suffix of `rev.reverse` starting at its last dot, scanning `rev` (the
reversed path) and stopping at a slash; `acc` holds what has been scanned. -/
def extScan : List Char → List Char → List Char
  | [], _ => []
  | c :: rest, acc =>
    if c = '/' then []
    else if c = '.' then c :: acc
    else extScan rest (c :: acc)

/-- Go `filepath.Ext` on a list of characters. -/
def extChars (path : List Char) : List Char := extScan path.reverse []

/-- Go `filepath.Join` of two elements on lists of characters. -/
def joinChars (a b : List Char) : List Char :=
  if a = [] then (if b = [] then [] else cleanChars b)
  else cleanChars (a ++ '/' :: b)

/-- Go `filepath.Dir`. -/
def Dir (path : String) : String := String.mk (dirChars path.data)

/-! ## The operating system -/

/-- A regular file: its bytes and its permission bits. -/
structure File where
  content : List Byte
  mode : Nat
deriving DecidableEq, Repr

/-- The state of the operating system seen by the logger. -/
structure OS where
  /-- Regular files by path. -/
  files : String → Option File
  /-- Directories by path. -/
  dirs : String → Bool
  /-- Paths on which every path-based call fails with an error other than
  "does not exist" (for example a parent directory without search permission). -/
  denied : String → Bool
  /-- Arguments of the `compressLogFile` goroutines started so far, oldest first. -/
  spawned : List String

/-- An open file, identified with the path it was opened on. -/
structure Handle where
  name : String
deriving DecidableEq, Repr

/-- What the environment decides during one call of `Write`. -/
structure Env where
  /-- The instant returned by `time.Now().UTC()`. -/
  now : Time
  /-- `file.Close()` reports an error. -/
  closeErr : Bool
  /-- `os.MkdirAll` fails. -/
  mkdirErr : Bool
  /-- `os.Rename` fails. -/
  renameErr : Bool
  /-- `os.OpenFile` in append mode (resume) fails. -/
  openAppendErr : Bool
  /-- `os.OpenFile` with create and truncate (new file) fails. -/
  openNewErr : Bool
  /-- `file.Write` stops after at most this many bytes and reports an error. -/
  writeCut : Option Nat
deriving DecidableEq, Repr

/-- The errors `Write` can return, one per failing step. -/
inductive Error where
  /-- "Write length %d exceeds maximum file size %d". -/
  | tooLarge (writeLen max : Int)
  /-- "Error getting log file info: %s". -/
  | statInfo
  /-- "Could not create directories for new log file: %s". -/
  | mkdir
  /-- "Could not rename log file: %s". -/
  | rename
  /-- "Could not open new log file: %s". -/
  | openNew
  /-- The error of `file.Close()`. -/
  | close
  /-- The error of `file.Write(p)`. -/
  | write
deriving DecidableEq, Repr

/-- The outcome of `os.Stat`. -/
inductive StatResult where
  /-- The file exists: its size and mode. -/
  | ok (size : Int) (mode : Nat)
  /-- An error for which `os.IsNotExist` holds. -/
  | notExist
  /-- Any other error. -/
  | other
deriving DecidableEq, Repr

/-- A map changed at one key. -/
def setAt {α : Type} (f : String → α) (k : String) (v : α) : String → α :=
  fun x => if x = k then v else f x

/-- Go `os.Stat`. -/
def stat (os : OS) (name : String) : StatResult :=
  if os.denied name then StatResult.other
  else match os.files name with
    | some f => StatResult.ok f.content.length f.mode
    | none => StatResult.notExist

/-- The directory `d` and all its ancestors, found by repeating `Dir`. -/
def ancestors : Nat → String → List String
  | 0, d => [d]
  | n + 1, d => d :: (if Dir d = d then [] else ancestors n (Dir d))

/-- Go `os.MkdirAll`: `none` on failure, otherwise the state in which `d` and
its ancestors are directories. It fails when told to, when the path is
inaccessible, and when `d` or an ancestor is a regular file. -/
def mkdirAll (os : OS) (d : String) (fail : Bool) : Option OS :=
  if fail || os.denied d || (ancestors d.length d).any (fun a => (os.files a).isSome) then none
  else some { os with dirs := fun x => os.dirs x || decide (x ∈ ancestors d.length d) }

/-- Go `os.Rename`: `none` on failure, otherwise the state in which the file at
`old` is at `new` (replacing what was there). -/
def rename (os : OS) (old new : String) (fail : Bool) : Option OS :=
  if fail || os.denied old || os.denied new then none
  else match os.files old with
    | none => none
    | some f => some { os with files := setAt (setAt os.files old none) new (some f) }

/-- Go `os.OpenFile(name, O_APPEND|O_WRONLY, _)`: the file must exist. -/
def openAppend (os : OS) (name : String) (fail : Bool) : Option Handle :=
  if fail || os.denied name then none
  else match os.files name with
    | some _ => some ⟨name⟩
    | none => none

/-- Go `os.OpenFile(name, O_CREATE|O_WRONLY|O_TRUNC, mode)`: an existing file
is emptied and keeps its mode, a missing one is created with `mode` in an
existing directory. -/
def openCreateTrunc (os : OS) (name : String) (mode : Nat) (fail : Bool) : Option (Handle × OS) :=
  if fail || os.denied name || !os.dirs (Dir name) then none
  else
    let f : File := match os.files name with
      | some f => { f with content := [] }
      | none => { content := [], mode := mode }
    some (⟨name⟩, { os with files := setAt os.files name (some f) })

/-- Go `(*os.File).Write`: the bytes go to the end of the file; with
`cut = some k` at most `k` bytes are written and an error is reported. A handle
whose file is gone writes nothing and reports an error. -/
def fileWrite (os : OS) (h : Handle) (p : List Byte) (cut : Option Nat) : Nat × Option Error × OS :=
  match os.files h.name with
  | none => (0, some Error.write, os)
  | some f =>
    let n := match cut with
      | none => p.length
      | some k => min k p.length
    (n, if cut.isSome then some Error.write else none,
      { os with files := setAt os.files h.name (some { f with content := f.content ++ p.take n }) })

/-! ## The logger -/

/-- The Go struct `Logger` (without its mutex). -/
structure Logger where
  /-- The file to log to. -/
  Filename : String
  /-- Max file size in MB (an `int64`). -/
  MaxSize : Int
  file : Option Handle
  size : Int
deriving DecidableEq, Repr

/-- Go `New`. -/
def New (filename : String) (maxSize : Int) : Logger :=
  { Filename := filename, MaxSize := maxSize, file := none, size := 0 }

/-- Go `(*Logger).maxSize`: `l.MaxSize * megabyte` in `int64` arithmetic. -/
def Logger.maxSize (l : Logger) : Int :=
  let megabyte : Int := 1024 * 1024
  wrap64 (l.MaxSize * megabyte)

/-- Go `backupName`, the instant read by `time.Now()` made explicit. -/
def backupName (name : String) (now : Time) : String :=
  let dir := dirChars name.data
  let filename := baseChars name.data
  let ext := extChars filename
  let stem := filename.take (filename.length - ext.length)
  let timestamp := rfc3339 now
  String.mk (joinChars dir (stem ++ '-' :: timestamp ++ ext))

/-- Go `(*Logger).close`. -/
def Logger.close (l : Logger) (e : Env) : Logger × Option Error :=
  match l.file with
  | none => (l, none)
  | some _ => ({ l with file := none }, if e.closeErr then some Error.close else none)

/-- Go `(*Logger).openNew`. -/
def Logger.openNew (l : Logger) (os : OS) (e : Env) : Logger × OS × Option Error :=
  match mkdirAll os (Dir l.Filename) e.mkdirErr with
  | none => (l, os, some Error.mkdir)
  | some os1 =>
    let finish (os2 : OS) (mode : Nat) : Logger × OS × Option Error :=
      match openCreateTrunc os2 l.Filename mode e.openNewErr with
      | none => (l, os2, some Error.openNew)
      | some (file, os3) => ({ l with file := some file, size := 0 }, os3, none)
    match stat os1 l.Filename with
    | StatResult.ok _ mode =>
      let backup := backupName l.Filename e.now
      match rename os1 l.Filename backup e.renameErr with
      | none => (l, os1, some Error.rename)
      | some os2 => finish { os2 with spawned := os2.spawned ++ [backup] } mode
    | _ => finish os1 0o644

/-- Go `(*Logger).rotate`. -/
def Logger.rotate (l : Logger) (os : OS) (e : Env) : Logger × OS × Option Error :=
  match l.close e with
  | (l1, some err) => (l1, os, some err)
  | (l1, none) => l1.openNew os e

/-- Go `(*Logger).openExistingOrNew`. -/
def Logger.openExistingOrNew (l : Logger) (os : OS) (e : Env) (writeLen : Nat) :
    Logger × OS × Option Error :=
  match stat os l.Filename with
  | StatResult.notExist => l.openNew os e
  | StatResult.other => (l, os, some Error.statInfo)
  | StatResult.ok size _ =>
    if size + (writeLen : Int) ≥ l.maxSize then l.rotate os e
    else match openAppend os l.Filename e.openAppendErr with
      | none => l.openNew os e
      | some file => ({ l with file := some file, size := size }, os, none)

/-- Go `(*Logger).Write`: the returned count and error, then the logger and
the operating system after the call. -/
def Logger.Write (l : Logger) (os : OS) (e : Env) (p : List Byte) :
    (Nat × Option Error) × Logger × OS :=
  let writeLen : Int := p.length
  if writeLen > l.maxSize then ((0, some (Error.tooLarge writeLen l.maxSize)), l, os)
  else
    let write (l2 : Logger) (os2 : OS) : (Nat × Option Error) × Logger × OS :=
      let step (l3 : Logger) (os3 : OS) : (Nat × Option Error) × Logger × OS :=
        match l3.file with
        | none => ((0, some Error.write), l3, os3)
        | some file =>
          match fileWrite os3 file p e.writeCut with
          | (n, err, os4) => ((n, err), { l3 with size := l3.size + (n : Int) }, os4)
      if l2.size + writeLen > l2.maxSize then
        match l2.rotate os2 e with
        | (l3, os3, some err) => ((0, some err), l3, os3)
        | (l3, os3, none) => step l3 os3
      else step l2 os2
    match l.file with
    | none =>
      match l.openExistingOrNew os e p.length with
      | (l1, os1, some err) => ((0, some err), l1, os1)
      | (l1, os1, none) => write l1 os1
    | some _ => write l os

/-! ## The compression goroutine -/

/-- The part of `compress/gzip` the program uses. The package is not part of
the program: the codec is a parameter of the model. -/
structure Gzip where
  /-- The bytes a `gzip.Writer` has passed to the file below it when `io.Copy`
  of a content into it has returned. -/
  copied : List Byte → List Byte
  /-- The bytes `Close` of the `gzip.Writer` passes to the file below it: what
  was still buffered, and the trailer. -/
  closed : List Byte → List Byte
  /-- A `gzip.Reader` on a stream read to the end: the content, or `none` for
  an error. -/
  gunzip : List Byte → Option (List Byte)

/-- The complete gzip stream of a content. -/
def Gzip.stream (g : Gzip) (c : List Byte) : List Byte := g.copied c ++ g.closed c

/-- Reading a complete stream gives back the content. -/
def Gzip.Lossless (g : Gzip) : Prop := ∀ c, g.gunzip (g.stream c) = some c

/-- What the environment decides during one run of `compressLogFile`. -/
structure CompressEnv where
  /-- `os.Open(name)` fails. -/
  openErr : Bool
  /-- `os.OpenFile(name+".gz", ..)` fails. -/
  createErr : Bool
  /-- `io.Copy` fails; the bytes that have reached the `.gz` file by the time
  the function returns. -/
  copyErr : Option (List Byte)
  /-- `os.Remove(name)` fails. -/
  removeErr : Bool
  /-- The deferred `gz.Close()` fails after passing on at most this many of
  its bytes. Its error is not looked at. -/
  closeCut : Option Nat

/-- The messages `compressLogFile` prints to standard error. -/
inductive Diagnostic where
  /-- "Could not open log file for compression: %s". -/
  | openLog
  /-- "Could not create file for compression: %s". -/
  | createGz
  /-- "Error compressing log file: %s". -/
  | compress
  /-- "Error removing old log file: %s". -/
  | remove
deriving DecidableEq, Repr

/-- Go `os.Open`: the file to read, `none` on failure. -/
def openRead (os : OS) (name : String) (fail : Bool) : Option File :=
  if fail || os.denied name then none else os.files name

/-- Go `os.OpenFile(name, O_CREATE|O_WRONLY, mode)`, without `O_TRUNC`: an
existing file is opened as it is, a missing one is created empty with `mode` in
an existing directory. -/
def openCreate (os : OS) (name : String) (mode : Nat) (fail : Bool) : Option (Handle × OS) :=
  if fail || os.denied name || !os.dirs (Dir name) then none
  else match os.files name with
    | some _ => some (⟨name⟩, os)
    | none => some (⟨name⟩, { os with files := setAt os.files name (some ⟨[], mode⟩) })

/-- Go `(*os.File).Write` on a handle opened without `O_APPEND`, at offset
`off`: the bytes replace what is at that place and extend the file when they
reach beyond its end. -/
def writeAt (os : OS) (h : Handle) (off : Nat) (s : List Byte) : OS :=
  match os.files h.name with
  | none => os
  | some f =>
    let content := f.content.take off ++ s ++ f.content.drop (off + s.length)
    { os with files := setAt os.files h.name (some { f with content := content }) }

/-- Go `os.Remove` on a regular file: `none` on failure. -/
def remove (os : OS) (name : String) (fail : Bool) : Option OS :=
  if fail || os.denied name then none
  else match os.files name with
    | none => none
    | some _ => some { os with files := setAt os.files name none }

/-- Go `compressLogFile`: the operating system when the function has returned
(its deferred calls included) and the message printed, if any. The deferred
`gz.Close()` runs when the function returns, so after `os.Remove`. -/
def compressLogFile (g : Gzip) (os : OS) (ce : CompressEnv) (name : String) :
    OS × Option Diagnostic :=
  match openRead os name ce.openErr with
  | none => (os, some Diagnostic.openLog)
  | some file =>
    match openCreate os (name ++ ".gz") 0o644 ce.createErr with
    | none => (os, some Diagnostic.createGz)
    | some (filegz, os1) =>
      match ce.copyErr with
      | some reached => (writeAt os1 filegz 0 reached, some Diagnostic.compress)
      | none =>
        let os2 := writeAt os1 filegz 0 (g.copied file.content)
        let gzClose (os3 : OS) : OS :=
          writeAt os3 filegz (g.copied file.content).length
            (match ce.closeCut with
              | none => g.closed file.content
              | some k => (g.closed file.content).take k)
        match remove os2 name ce.removeErr with
        | none => (gzClose os2, some Diagnostic.remove)
        | some os3 => (gzClose os3, none)

/-! ## The logger with its goroutine run at the `go` statement

`Write` and the functions below it once more, with the goroutine started by
`go compressLogFile(backup)` run to completion at the `go` statement instead of
being left for later: `go os backup` is the operating system the goroutine
leaves of `os`. With `go` doing nothing these are the functions above. -/

/-- Go `(*Logger).openNew`, the goroutine run at once. -/
def Logger.openNewGo (go : OS → String → OS) (l : Logger) (os : OS) (e : Env) :
    Logger × OS × Option Error :=
  match mkdirAll os (Dir l.Filename) e.mkdirErr with
  | none => (l, os, some Error.mkdir)
  | some os1 =>
    let finish (os2 : OS) (mode : Nat) : Logger × OS × Option Error :=
      match openCreateTrunc os2 l.Filename mode e.openNewErr with
      | none => (l, os2, some Error.openNew)
      | some (file, os3) => ({ l with file := some file, size := 0 }, os3, none)
    match stat os1 l.Filename with
    | StatResult.ok _ mode =>
      let backup := backupName l.Filename e.now
      match rename os1 l.Filename backup e.renameErr with
      | none => (l, os1, some Error.rename)
      | some os2 => finish (go { os2 with spawned := os2.spawned ++ [backup] } backup) mode
    | _ => finish os1 0o644

/-- Go `(*Logger).rotate`, the goroutine run at once. -/
def Logger.rotateGo (go : OS → String → OS) (l : Logger) (os : OS) (e : Env) :
    Logger × OS × Option Error :=
  match l.close e with
  | (l1, some err) => (l1, os, some err)
  | (l1, none) => l1.openNewGo go os e

/-- Go `(*Logger).openExistingOrNew`, the goroutine run at once. -/
def Logger.openExistingOrNewGo (go : OS → String → OS) (l : Logger) (os : OS) (e : Env)
    (writeLen : Nat) : Logger × OS × Option Error :=
  match stat os l.Filename with
  | StatResult.notExist => l.openNewGo go os e
  | StatResult.other => (l, os, some Error.statInfo)
  | StatResult.ok size _ =>
    if size + (writeLen : Int) ≥ l.maxSize then l.rotateGo go os e
    else match openAppend os l.Filename e.openAppendErr with
      | none => l.openNewGo go os e
      | some file => ({ l with file := some file, size := size }, os, none)

/-- Go `(*Logger).Write`, the goroutine run at once. -/
def Logger.WriteGo (go : OS → String → OS) (l : Logger) (os : OS) (e : Env) (p : List Byte) :
    (Nat × Option Error) × Logger × OS :=
  let writeLen : Int := p.length
  if writeLen > l.maxSize then ((0, some (Error.tooLarge writeLen l.maxSize)), l, os)
  else
    let write (l2 : Logger) (os2 : OS) : (Nat × Option Error) × Logger × OS :=
      let step (l3 : Logger) (os3 : OS) : (Nat × Option Error) × Logger × OS :=
        match l3.file with
        | none => ((0, some Error.write), l3, os3)
        | some file =>
          match fileWrite os3 file p e.writeCut with
          | (n, err, os4) => ((n, err), { l3 with size := l3.size + (n : Int) }, os4)
      if l2.size + writeLen > l2.maxSize then
        match l2.rotateGo go os2 e with
        | (l3, os3, some err) => ((0, some err), l3, os3)
        | (l3, os3, none) => step l3 os3
      else step l2 os2
    match l.file with
    | none =>
      match l.openExistingOrNewGo go os e p.length with
      | (l1, os1, some err) => ((0, some err), l1, os1)
      | (l1, os1, none) => write l1 os1
    | some _ => write l os

/-! ## Runs of the logger -/

/-- The states a logger built by `New filename maxSize` can be in: the one
`New` returns, over any operating-system state, and every state a call of
`Write` leaves, whatever the environment decides and whether or not the call
succeeds. -/
inductive Reachable (filename : String) (maxSize : Int) : Logger → OS → Prop where
  | init (os : OS) : Reachable filename maxSize (New filename maxSize) os
  | write {l : Logger} {os : OS} (e : Env) (p : List Byte) :
      Reachable filename maxSize l os →
      Reachable filename maxSize (l.Write os e p).2.1 (l.Write os e p).2.2

/-- The logger's bookkeeping agrees with the disk: an open handle is on the
log path, the log file exists, and the tracked size is its length. -/
def Consistent (l : Logger) (os : OS) : Prop :=
  ∀ h, l.file = some h →
    h.name = l.Filename ∧ ∃ f, os.files l.Filename = some f ∧ (f.content.length : Int) = l.size

/-- A sequence of calls of `Write` on one logger, each with the environment of
its call: the results in order, then the logger and the operating system after
the last call. -/
def writeAll : Logger → OS → List (Env × List Byte) → List (Nat × Option Error) × Logger × OS
  | l, os, [] => ([], l, os)
  | l, os, (e, p) :: rest =>
    ((l.Write os e p).1 :: (writeAll (l.Write os e p).2.1 (l.Write os e p).2.2 rest).1,
      (writeAll (l.Write os e p).2.1 (l.Write os e p).2.2 rest).2)

/-- The number of bytes submitted by a sequence of writes. -/
def totalLength (steps : List (Env × List Byte)) : Nat :=
  (steps.map (fun s => s.2.length)).sum

/-- The bytes submitted by a sequence of writes, in order. -/
def allBytes (steps : List (Env × List Byte)) : List Byte :=
  (steps.map (fun s => s.2)).flatten

/-- The size of the file at `x`, 0 when there is none. -/
def sizeAt (os : OS) (x : String) : Nat :=
  match os.files x with
  | some f => f.content.length
  | none => 0

/-- The bytes a logger on `name` holds on disk: the size of the active file
plus the sizes of the backups made so far, each backup name counted once. -/
def diskBytes (os : OS) (name : String) : Nat :=
  sizeAt os name + ((os.spawned.dedup).map (sizeAt os)).sum

/-! ## Outcomes of a call of `Write` -/

/-- From `os` to `os1` the file `f` at `name` got the bytes `p` appended and
nothing else changed. -/
def Appended (os os1 : OS) (name : String) (f : File) (p : List Byte) : Prop :=
  os.files name = some f ∧ os1.spawned = os.spawned ∧ os1.denied = os.denied ∧
  os1.dirs = os.dirs ∧
  ∀ x, os1.files x = if x = name then some ⟨f.content ++ p, f.mode⟩ else os.files x

/-- From `os` to `os1` the missing file `name` was created with content `c`
and mode 0644, its directory and the ancestors of it were made, and nothing
else changed. -/
def Created (os os1 : OS) (name : String) (c : List Byte) : Prop :=
  os.files name = none ∧ os1.spawned = os.spawned ∧ os1.denied = os.denied ∧
  (∀ x, os1.dirs x = (os.dirs x || decide (x ∈ ancestors (Dir name).length (Dir name)))) ∧
  ∀ x, os1.files x = if x = name then some ⟨c, 0o644⟩ else os.files x

/-- From `os` to `os1` the file `f` at `name` was moved to `backup`, a
`compressLogFile` goroutine was started on `backup`, a new file with content
`c` and the mode of `f` was created at `name`, and nothing else changed (apart
from the directories `MkdirAll` makes). -/
def Rotated (os os1 : OS) (name backup : String) (f : File) (c : List Byte) : Prop :=
  os.files name = some f ∧ os1.spawned = os.spawned ++ [backup] ∧ os1.denied = os.denied ∧
  (∀ x, os1.dirs x = (os.dirs x || decide (x ∈ ancestors (Dir name).length (Dir name)))) ∧
  ∀ x, os1.files x =
    if x = name then some ⟨c, f.mode⟩ else if x = backup then some f else os.files x

/-- Either no goroutine was started from `os` to `os1`, or the file `f` found at
`name` was moved to `backup` and one goroutine was started on it. -/
def BackedUp (os os1 : OS) (name backup : String) : Prop :=
  os1.spawned = os.spawned ∨
    ∃ f, os.files name = some f ∧ os1.spawned = os.spawned ++ [backup] ∧
      os1.files backup = some f

/-- What is known after a call of `Write` on a consistent logger. -/
def WritePost (l : Logger) (p : List Byte) (r : (Nat × Option Error) × Logger × OS) : Prop :=
  r.2.1.Filename = l.Filename ∧ r.2.1.MaxSize = l.MaxSize ∧ Consistent r.2.1 r.2.2 ∧
  (r.1.2 = none → r.1.1 = p.length ∧ r.2.1.file = some ⟨l.Filename⟩ ∧ r.2.1.size ≤ l.maxSize)

/-! ## Cleaned paths -/

/-- The result of `filepath.Clean` assembled from its elements: a leading slash
for a rooted path, the elements joined by slashes, and `.` for an empty
relative path. -/
def render (rooted : Bool) (st : List (List Char)) : List Char :=
  if rooted then '/' :: joinSlash st
  else if joinSlash st = [] then ['.'] else joinSlash st

/-- The element lists `filepath.Clean` produces: no element is empty, `.` or
contains a slash, and `..` occurs only at the front of a relative path. -/
inductive Normal (rooted : Bool) : List (List Char) → Prop where
  | nil : Normal rooted []
  | snoc (st : List (List Char)) (c : List Char) : Normal rooted st → c ≠ [] → c ≠ ['.'] →
      '/' ∉ c → (c = ['.', '.'] → rooted = false ∧ (st = [] ∨ st.getLast? = some ['.', '.'])) →
      Normal rooted (st ++ [c])

/-- The part of a cleaned path in front of its last element. -/
def front (r : Bool) (st : List (List Char)) : List Char :=
  (if r then ['/'] else []) ++ (if st = [] then [] else joinSlash st ++ ['/'])

/-! ## Concrete states used in examples -/

/-- The instant 2020-01-02T03:04:05Z. -/
def demoTime : Time := ⟨2020, 1, 2, 3, 4, 5, 0⟩

/-- An environment in which no system call fails, at `demoTime`. -/
def quietEnv : Env :=
  { now := demoTime, closeErr := false, mkdirErr := false, renameErr := false,
    openAppendErr := false, openNewErr := false, writeCut := none }

/-- An environment in which the underlying write stops after `k` bytes and
reports an error, and nothing else fails. -/
def cutEnv (k : Nat) : Env := { quietEnv with writeCut := some k }

/-- An operating system with no file, no directory and no goroutine. -/
def emptyOS : OS :=
  { files := fun _ => none, dirs := fun _ => false, denied := fun _ => false, spawned := [] }

/-- An operating system whose only file is `f` at `name`, in its directory. -/
def oneFileOS (name : String) (f : File) : OS :=
  { files := fun x => if x = name then some f else none, dirs := fun x => x = Dir name,
    denied := fun _ => false, spawned := [] }

/-- A file of `n` bytes `b` with mode 0644. -/
def fillFile (n : Nat) (b : Byte) : File := ⟨List.replicate n b, 0o644⟩

/-- The payload of the rotation examples: 1048576 bytes of value 1, as many as
the capacity for `MaxSize = 1`. -/
def demoBytes : List Byte := List.replicate 1048576 1

/-- The first scenario of the rotation test: 1048576 writes of the byte 1. -/
def megabyteOfOnes : List (Env × Byte) := List.replicate 1048576 (quietEnv, 1)

/-- Nothing is inaccessible and there are no regular files other than the log
file `d/test.log` and its backup made at `demoTime`. -/
def OnlyLogs (os : OS) : Prop :=
  (∀ x, os.denied x = false) ∧
  ∀ x, x ≠ "d/test.log" → x ≠ "d/test-2020-01-02T03:04:05Z.log" → os.files x = none

/-- A stand-in for gzip in the examples: a two-byte magic number, the content
as it is, and a one-byte trailer written by `Close`. -/
def demoGzip : Gzip :=
  { copied := fun c => 31 :: 139 :: c,
    closed := fun _ => [0],
    gunzip := fun s =>
      match s with
      | 31 :: 139 :: rest => if rest.getLast? = some 0 then some rest.dropLast else none
      | _ => none }

/-- A run of `compressLogFile` in which nothing fails. -/
def quietCompress : CompressEnv :=
  { openErr := false, createErr := false, copyErr := none, removeErr := false, closeCut := none }

/-- An operating system in which `d/test.log` holds "ABC" and an earlier
`d/test.log.gz` of 40 bytes of value 9 is in its directory. -/
def staleGzOS : OS :=
  { files := fun x => if x = "d/test.log" then some ⟨[65, 66, 67], 0o644⟩
      else if x = "d/test.log.gz" then some ⟨List.replicate 40 9, 0o644⟩ else none,
    dirs := fun x => x = "d", denied := fun _ => false, spawned := [] }

end Creek

/-! # todos: the query of `(*Database).Get` (database/todos/todos.go) -/

namespace Todos

/-- A value bound to a placeholder of the query (an `interface{}` holding an
`int`, a `time.Time` or a `bool`). -/
inductive Value where
  | int (n : Int)
  | time (t : Creek.Time)
  | bool (b : Bool)
deriving DecidableEq, Repr

/-- Go `GetParams`: a nil pointer is `none`. -/
structure GetParams where
  ID : Option Int
  MemberID : Option Int
  Created : Option Creek.Time
  Completed : Option Bool
  Offset : Int
  Limit : Int
deriving DecidableEq, Repr

/-- A run-time panic. -/
inductive Panic where
  /-- "invalid memory address or nil pointer dereference". -/
  | nilDereference
deriving DecidableEq, Repr

/-- Go `(*Database).Get` up to the point where the query is built (lines 131 to
182): `queryFields` and `queryValues`, or the panic of dereferencing a nil
pointer. Running the query on the database is not modelled. -/
def Get (params : GetParams) : Except Panic (String × List Value) :=
  let s0 : String × List Value := ("", [])
  -- Handle ID field.
  let s1 : String × List Value :=
    match params.ID with
    | some id => (if s0.1 = "" then "WHERE id=?" else s0.1 ++ " AND id=?", s0.2 ++ [Value.int id])
    | none => s0
  -- Handle member ID field.
  let s2 : String × List Value :=
    match params.MemberID with
    | some mid =>
      (if s1.1 = "" then "WHERE member_id=?" else s1.1 ++ " AND member_id=?",
        s1.2 ++ [Value.int mid])
    | none => s1
  -- Handle created field.
  let s3 : String × List Value :=
    match params.Created with
    | some t =>
      (if s2.1 = "" then "WHERE created=?" else s2.1 ++ " AND created=?", s2.2 ++ [Value.time t])
    | none => s2
  -- Handle completed field: the value appended is `*params.Created`.
  match params.Completed with
  | some _ =>
    match params.Created with
    | some t =>
      Except.ok (if s3.1 = "" then "WHERE completed=?" else s3.1 ++ " AND completed=?",
        s3.2 ++ [Value.time t])
    | none => Except.error Panic.nilDereference
  | none => Except.ok s3

/-- The number of `?` placeholders of a clause. -/
def placeholders (clause : String) : Nat := clause.data.count '?'

end Todos

namespace Creek

/-! ## Theorems -/

theorem fillFile_length (n : Nat) (b : Byte) : (fillFile n b).content.length = n :=
  List.length_replicate n b

/-! ### Paths -/

theorem digit_ne_slash (n : Nat) : digit n ≠ '/' := by
  unfold digit
  have h : ∀ k : Fin 10, Char.ofNat (48 + k.val) ≠ '/' := by decide
  exact h ⟨n % 10, Nat.mod_lt _ (by norm_num)⟩

theorem decimalAux_noSlash (fuel n : Nat) (acc : List Char) (h : '/' ∉ acc) :
    '/' ∉ decimalAux fuel n acc := by
  induction fuel generalizing n acc with
  | zero => simpa [decimalAux] using h
  | succ k ih =>
    unfold decimalAux
    split
    · simp [h, (digit_ne_slash n).symm]
    · exact ih _ _ (by simp [h, (digit_ne_slash n).symm])

theorem rfc3339_noSlash (t : Time) : '/' ∉ rfc3339 t := by
  have hd := fun n => (digit_ne_slash n).symm
  have h4 : '/' ∉ pad4 t.year := by
    unfold pad4
    split
    · simp [hd]
    · exact decimalAux_noSlash _ _ _ (by simp)
  simp [rfc3339, pad2, hd, h4]

theorem comps_ne_nil (s : List Char) : comps s ≠ [] := by
  cases s with
  | nil => simp [comps]
  | cons c cs =>
    unfold comps
    split
    · simp
    · split <;> simp

theorem comps_append_slash (d y : List Char) : comps (d ++ '/' :: y) = comps d ++ comps y := by
  induction d with
  | nil => simp [comps]
  | cons c cs ih =>
    have e : (c :: cs) ++ '/' :: y = c :: (cs ++ '/' :: y) := rfl
    rw [e]
    by_cases hc : c = '/'
    · simp only [comps, hc, if_true, ih, List.cons_append]
    · cases hcs : comps cs with
      | nil => exact absurd hcs (comps_ne_nil cs)
      | cons x xs => simp only [comps, hc, if_false, ih, hcs, List.cons_append]

theorem comps_noSlash (y : List Char) (h : '/' ∉ y) : comps y = [y] := by
  induction y with
  | nil => simp [comps]
  | cons c cs ih =>
    simp only [List.mem_cons, not_or] at h
    unfold comps
    simp only [Ne.symm h.1, if_false, ih h.2]

theorem comps_noSlash_mem (s : List Char) : ∀ c ∈ comps s, '/' ∉ c := by
  induction s with
  | nil => simp [comps]
  | cons a cs ih =>
    unfold comps
    by_cases ha : a = '/'
    · simp only [ha, if_true, List.mem_cons]
      rintro c (rfl | hc)
      · simp
      · exact ih c hc
    · simp only [ha, if_false]
      cases hcs : comps cs with
      | nil => exact absurd hcs (comps_ne_nil cs)
      | cons x xs =>
        rw [hcs] at ih
        simp only [List.mem_cons]
        rintro c (rfl | hc)
        · simp only [List.mem_cons, not_or]
          exact ⟨fun h => ha h.symm, ih x (by simp)⟩
        · exact ih c (by simp [hc])

theorem normal_dropLast {r : Bool} {st : List (List Char)} (h : Normal r st) :
    Normal r st.dropLast := by
  cases h with
  | nil => exact Normal.nil
  | snoc st c hst _ _ _ _ => simpa using hst

theorem normal_unrooted_of_last {r : Bool} {st : List (List Char)} (h : Normal r st)
    (hl : st.getLast? = some ['.', '.']) : r = false := by
  cases h with
  | nil => simp at hl
  | snoc st c hst _ _ _ hdd =>
    rw [List.getLast?_concat] at hl
    exact (hdd (Option.some.inj hl)).1

theorem cleanStep_normal {r : Bool} {st : List (List Char)} (h : Normal r st) (c : List Char)
    (hc : '/' ∉ c) : Normal r (cleanStep r st c) := by
  unfold cleanStep
  split
  · exact h
  · rename_i h1
    simp only [not_or] at h1
    split
    · rename_i hdd
      split
      · rename_i hnil
        cases r with
        | true => exact Normal.nil
        | false =>
          have := @Normal.snoc false [] c Normal.nil h1.1 h1.2 hc (fun _ => ⟨rfl, Or.inl rfl⟩)
          simpa using this
      · split
        · rename_i hl
          exact Normal.snoc st c h h1.1 h1.2 hc (fun _ => ⟨normal_unrooted_of_last h hl, Or.inr hl⟩)
        · exact normal_dropLast h
    · rename_i hdd
      exact Normal.snoc st c h h1.1 h1.2 hc (fun hh => absurd hh hdd)

theorem foldl_cleanStep_normal (r : Bool) (cs : List (List Char)) (hcs : ∀ c ∈ cs, '/' ∉ c)
    (st : List (List Char)) (h : Normal r st) : Normal r (cs.foldl (cleanStep r) st) := by
  induction cs generalizing st with
  | nil => exact h
  | cons c cs ih =>
    simp only [List.foldl_cons]
    exact ih (fun x hx => hcs x (by simp [hx])) _ (cleanStep_normal h c (hcs c (by simp)))

theorem cleanStep_snoc {r : Bool} {st : List (List Char)} {c : List Char} (h1 : c ≠ [])
    (h2 : c ≠ ['.'])
    (hdd : c = ['.', '.'] → r = false ∧ (st = [] ∨ st.getLast? = some ['.', '.'])) :
    cleanStep r st c = st ++ [c] := by
  unfold cleanStep
  simp only [h1, h2, or_self, if_false]
  split
  · rename_i hc
    obtain ⟨hr, hst⟩ := hdd hc
    rcases hst with hst | hst
    · simp [hst, hr]
    · have hne : st ≠ [] := by rintro rfl; simp at hst
      simp [hne, hst]
  · rfl

theorem joinSlash_snoc (st : List (List Char)) (c : List Char) :
    joinSlash (st ++ [c]) = if st = [] then c else joinSlash st ++ '/' :: c := by
  induction st with
  | nil => simp [joinSlash]
  | cons x xs ih =>
    cases xs with
    | nil => simp [joinSlash]
    | cons y ys =>
      have e : (x :: y :: ys) ++ [c] = x :: y :: (ys ++ [c]) := rfl
      rw [e]
      simp only [joinSlash]
      have e2 : y :: (ys ++ [c]) = (y :: ys) ++ [c] := rfl
      rw [e2, ih]
      simp

/-- Cleaning is idempotent on element lists. -/
theorem foldl_comps_joinSlash {r : Bool} {st : List (List Char)} (h : Normal r st) :
    (comps (joinSlash st)).foldl (cleanStep r) [] = st := by
  induction h with
  | nil => simp [joinSlash, comps, cleanStep]
  | snoc st c hst h1 h2 h3 hdd ih =>
    rw [joinSlash_snoc]
    by_cases hnil : st = []
    · subst hnil
      simp only [if_true, comps_noSlash c h3, List.foldl_cons, List.foldl_nil]
      exact cleanStep_snoc h1 h2 hdd
    · simp only [hnil, if_false, comps_append_slash, comps_noSlash c h3, List.foldl_append, ih,
        List.foldl_cons, List.foldl_nil]
      exact cleanStep_snoc h1 h2 hdd

theorem normal_mem {r : Bool} {st : List (List Char)} (h : Normal r st) :
    ∀ c ∈ st, c ≠ [] ∧ '/' ∉ c := by
  induction h with
  | nil => simp
  | snoc st c _ h1 _ h3 _ ih =>
    intro x hx
    rcases List.mem_append.mp hx with hx | hx
    · exact ih x hx
    · simp only [List.mem_singleton] at hx
      subst hx
      exact ⟨h1, h3⟩

theorem joinSlash_cons_head (x : List Char) (xs : List (List Char)) (hx : x ≠ []) :
    (joinSlash (x :: xs)).head? = x.head? := by
  cases xs with
  | nil => rfl
  | cons y ys =>
    simp only [joinSlash]
    cases x with
    | nil => exact absurd rfl hx
    | cons a as => rfl

/-- The joined elements of a non-empty normal list start with a character that
is not a slash. -/
theorem joinSlash_head {r : Bool} {st : List (List Char)} (h : Normal r st) (hne : st ≠ []) :
    ∃ a, (joinSlash st).head? = some a ∧ a ≠ '/' := by
  cases st with
  | nil => exact absurd rfl hne
  | cons x xs =>
    obtain ⟨hx1, hx2⟩ := normal_mem h x (by simp)
    rw [joinSlash_cons_head x xs hx1]
    cases x with
    | nil => exact absurd rfl hx1
    | cons a as =>
      refine ⟨a, rfl, ?_⟩
      rintro rfl
      exact hx2 (by simp)

theorem render_ne_nil (r : Bool) (st : List (List Char)) : render r st ≠ [] := by
  unfold render
  cases r with
  | true => simp
  | false =>
    simp only [Bool.false_eq_true, if_false]
    split
    · simp
    · assumption

theorem render_rooted {r : Bool} {st : List (List Char)} (h : Normal r st) :
    decide ((render r st).head? = some '/') = r := by
  unfold render
  cases r with
  | true => simp
  | false =>
    simp only [Bool.false_eq_true, if_false]
    split
    · simp
    · rename_i hj
      have hne : st ≠ [] := by rintro rfl; simp [joinSlash] at hj
      obtain ⟨a, ha1, ha2⟩ := joinSlash_head h hne
      simp [ha1, ha2]

theorem foldl_comps_render {r : Bool} {st : List (List Char)} (h : Normal r st) :
    (comps (render r st)).foldl (cleanStep r) [] = st := by
  unfold render
  cases r with
  | true =>
    simp only [if_true, comps, List.foldl_cons]
    have : cleanStep true [] [] = [] := by simp [cleanStep]
    rw [this]
    exact foldl_comps_joinSlash h
  | false =>
    simp only [Bool.false_eq_true, if_false]
    split
    · rename_i hj
      have hnil : st = [] := by
        by_contra hne
        obtain ⟨a, ha1, _⟩ := joinSlash_head h hne
        simp [hj] at ha1
      subst hnil
      simp [comps, cleanStep]
    · exact foldl_comps_joinSlash h

/-- Cleaning a path written `s/Y`, where `Y` is an ordinary element, appends
`Y` to the elements of the cleaned `s`. -/
theorem cleanChars_snoc {r : Bool} {st : List (List Char)} {s Y : List Char}
    (hs : s ≠ []) (hr : decide (s.head? = some '/') = r)
    (hf : (comps s).foldl (cleanStep r) [] = st)
    (h1 : Y ≠ []) (h2 : Y ≠ ['.']) (h3 : Y ≠ ['.', '.']) (h4 : '/' ∉ Y) :
    cleanChars (s ++ '/' :: Y) = render r (st ++ [Y]) := by
  have hhead : (s ++ '/' :: Y).head? = s.head? := by
    cases s with
    | nil => exact absurd rfl hs
    | cons a as => rfl
  unfold cleanChars render
  have hne : s ++ '/' :: Y ≠ [] := by simp
  simp only [hne, if_false, hhead, comps_append_slash, comps_noSlash Y h4, List.foldl_append,
    List.foldl_cons, List.foldl_nil]
  have hrr : (s.head? = some '/') ↔ r = true := by
    rw [← hr]; simp
  have hstep : ∀ b : Bool, b = r →
      cleanStep b ((comps s).foldl (cleanStep b) []) Y = st ++ [Y] := by
    rintro b rfl
    rw [hf]
    exact cleanStep_snoc h1 h2 (fun h => absurd h h3)
  rw [hstep _ hr]
  have hj : joinSlash (st ++ [Y]) ≠ [] := by
    rw [joinSlash_snoc]
    split
    · exact h1
    · simp
  cases r with
  | true => simp [hrr.mpr rfl]
  | false =>
    have : ¬ (s.head? = some '/') := fun h => by simpa using hrr.mp h
    simp [this, hj]

theorem render_snoc (r : Bool) (st : List (List Char)) (Y : List Char) (h1 : Y ≠ []) :
    render r (st ++ [Y]) = front r st ++ Y := by
  have hj : joinSlash (st ++ [Y]) ≠ [] := by
    rw [joinSlash_snoc]
    split
    · exact h1
    · simp
  unfold render front
  cases r with
  | true =>
    simp only [if_true, joinSlash_snoc]
    split <;> simp
  | false =>
    simp only [Bool.false_eq_true, if_false, hj, joinSlash_snoc]
    split <;> simp

theorem front_ends (r : Bool) (st : List (List Char)) :
    front r st = [] ∨ ∃ q, front r st = q ++ ['/'] := by
  unfold front
  by_cases hst : st = []
  · cases r with
    | true => right; exact ⟨[], by simp [hst]⟩
    | false => left; simp [hst]
  · right
    exact ⟨(if r = true then ['/'] else []) ++ joinSlash st, by simp [hst]⟩

theorem uptoLastSlash_append (q Y : List Char) (hq : q = [] ∨ ∃ q0, q = q0 ++ ['/'])
    (hY : '/' ∉ Y) : uptoLastSlash (q ++ Y) = q := by
  unfold uptoLastSlash
  rw [List.reverse_append, List.dropWhile_append_of_pos]
  · rcases hq with rfl | ⟨q0, rfl⟩
    · simp
    · simp
  · intro a ha
    have : a ≠ '/' := by
      rintro rfl
      exact hY (List.mem_reverse.mp ha)
    simpa using this

theorem afterLastSlash_append (q Y : List Char) (hq : q = [] ∨ ∃ q0, q = q0 ++ ['/'])
    (hY : '/' ∉ Y) : afterLastSlash (q ++ Y) = Y := by
  unfold afterLastSlash
  rw [List.reverse_append, List.takeWhile_append_of_pos]
  · rcases hq with rfl | ⟨q0, rfl⟩
    · simp
    · simp
  · intro a ha
    have : a ≠ '/' := by
      rintro rfl
      exact hY (List.mem_reverse.mp ha)
    simpa using this

theorem baseChars_append (q Y : List Char) (hq : q = [] ∨ ∃ q0, q = q0 ++ ['/'])
    (h1 : Y ≠ []) (hY : '/' ∉ Y) : baseChars (q ++ Y) = Y := by
  unfold baseChars
  have hne : q ++ Y ≠ [] := by simp [h1]
  have hdrop : ((q ++ Y).reverse.dropWhile (fun c => decide (c = '/'))) = (q ++ Y).reverse := by
    rw [List.reverse_append]
    cases hrev : Y.reverse with
    | nil => simp at hrev; exact absurd hrev h1
    | cons a as =>
      have ha : a ≠ '/' := by
        rintro rfl
        have : '/' ∈ Y.reverse := by rw [hrev]; simp
        exact hY (List.mem_reverse.mp this)
      simp [List.dropWhile_cons, ha]
  simp only [hne, if_false, hdrop, List.reverse_reverse, afterLastSlash_append q Y hq hY, h1]

theorem cleanChars_front {r : Bool} {st : List (List Char)} (h : Normal r st) :
    cleanChars (front r st) = render r st := by
  by_cases hst : st = []
  · subst hst
    cases r with
    | true => decide
    | false => decide
  · have hf : front r st = render r st ++ '/' :: [] := by
      unfold front render
      have hj : joinSlash st ≠ [] := by
        obtain ⟨a, ha, _⟩ := joinSlash_head h hst
        intro hj; simp [hj] at ha
      cases r with
      | true => simp [hst]
      | false => simp [hst, hj]
    have hhead : (render r st ++ '/' :: []).head? = (render r st).head? := by
      cases hrs : render r st with
      | nil => exact absurd hrs (render_ne_nil r st)
      | cons a as => rfl
    rw [hf]
    unfold cleanChars
    have hne : render r st ++ '/' :: [] ≠ [] := by simp
    simp only [hne, if_false, hhead, comps_append_slash, List.foldl_append]
    have hrr := render_rooted h
    have hstep : ∀ b : Bool, b = r →
        (comps []).foldl (cleanStep b) ((comps (render r st)).foldl (cleanStep b) []) = st := by
      rintro b rfl
      rw [foldl_comps_render h]
      simp [comps, cleanStep]
    rw [hstep _ hrr]
    cases r with
    | true =>
      have : (render true st).head? = some '/' := by simpa using hrr
      rw [if_pos this]
      simp [render]
    | false =>
      have : ¬ (render false st).head? = some '/' := by simpa using hrr
      rw [if_neg this]
      simp [render]

theorem normal_foldl_comps (r : Bool) (s : List Char) :
    Normal r ((comps s).foldl (cleanStep r) []) :=
  foldl_cleanStep_normal r (comps s) (comps_noSlash_mem s) [] Normal.nil

/-- Every result of `filepath.Clean` is the rendering of a normal element
list. -/
theorem cleanChars_normal (s : List Char) :
    ∃ r st, Normal r st ∧ cleanChars s = render r st := by
  by_cases hs : s = []
  · exact ⟨false, [], Normal.nil, by simp [hs, cleanChars, render, joinSlash]⟩
  · refine ⟨decide (s.head? = some '/'), _, normal_foldl_comps _ s, ?_⟩
    unfold cleanChars render
    simp only [hs, if_false, decide_eq_true_eq]

theorem afterLastSlash_noSlash (s : List Char) : '/' ∉ afterLastSlash s := by
  unfold afterLastSlash
  intro h
  have := List.mem_takeWhile_imp (List.mem_reverse.mp h)
  simp at this

theorem baseChars_cases (s : List Char) :
    baseChars s = ['/'] ∨ (baseChars s ≠ [] ∧ '/' ∉ baseChars s) := by
  unfold baseChars
  split
  · right; simp
  · simp only []
    split
    · left; rfl
    · rename_i h
      right
      exact ⟨h, afterLastSlash_noSlash _⟩

theorem extScan_mem (rev acc : List Char) : ∀ c ∈ extScan rev acc, c ∈ rev ∨ c ∈ acc := by
  induction rev generalizing acc with
  | nil => simp [extScan]
  | cons a as ih =>
    intro c hc
    unfold extScan at hc
    split at hc
    · simp at hc
    · split at hc
      · simp only [List.mem_cons] at hc ⊢
        rcases hc with hc | hc
        · exact Or.inl (Or.inl hc)
        · exact Or.inr hc
      · rcases ih _ c hc with h | h
        · exact Or.inl (by simp [h])
        · simp only [List.mem_cons] at h ⊢
          rcases h with h | h
          · exact Or.inl (Or.inl h)
          · exact Or.inr h

theorem extScan_length (rev acc : List Char) :
    (extScan rev acc).length ≤ rev.length + acc.length := by
  induction rev generalizing acc with
  | nil => simp [extScan]
  | cons a as ih =>
    unfold extScan
    split
    · simp
    · split
      · simp only [List.length_cons]
        omega
      · have := ih (a :: acc)
        simp only [List.length_cons] at this ⊢
        omega

theorem extChars_length (s : List Char) : (extChars s).length ≤ s.length := by
  have := extScan_length s.reverse []
  simpa [extChars] using this

theorem extChars_noSlash (s : List Char) (h : '/' ∉ s) : '/' ∉ extChars s := by
  intro hc
  rcases extScan_mem s.reverse [] _ hc with h1 | h1
  · exact h (List.mem_reverse.mp h1)
  · simp at h1

/-- The shape of a backup name: the cleaned directory of the log path followed
by one new last element, which is not the last element of the log path. -/
theorem backupName_shape (name : String) (now : Time) :
    ∃ r st Y, Normal r st ∧ dirChars name.data = render r st ∧
      (backupName name now).data = front r st ++ Y ∧
      Y ≠ [] ∧ '/' ∉ Y ∧ Y ≠ baseChars name.data := by
  obtain ⟨r, st, hn, hd⟩ := cleanChars_normal (uptoLastSlash name.data)
  have hdne : dirChars name.data ≠ [] := by
    unfold dirChars; rw [hd]; exact render_ne_nil r st
  have hdd : dirChars name.data = render r st := hd
  have hts := rfc3339_noSlash now
  rcases baseChars_cases name.data with hb | ⟨hb1, hb2⟩
  · refine ⟨r, st, '-' :: rfc3339 now, hn, hdd, ?_, by simp, ?_, ?_⟩
    · have hX : (List.take ((baseChars name.data).length - (extChars (baseChars name.data)).length)
          (baseChars name.data)) ++ '-' :: rfc3339 now ++ extChars (baseChars name.data)
          = '/' :: '-' :: rfc3339 now := by
        rw [hb]
        simp [extChars, extScan]
      unfold backupName
      simp only [hX, joinChars, hdne, if_false]
      have e : dirChars name.data ++ '/' :: '/' :: '-' :: rfc3339 now
          = (dirChars name.data ++ ['/']) ++ '/' :: ('-' :: rfc3339 now) := by simp
      rw [e, hdd]
      have hhead : (render r st ++ ['/']).head? = (render r st).head? := by
        cases hrs : render r st with
        | nil => exact absurd hrs (render_ne_nil r st)
        | cons a as => rfl
      rw [@cleanChars_snoc r st _ _ (by simp) (by rw [hhead]; exact render_rooted hn)
        (by
          have e2 : render r st ++ ['/'] = render r st ++ '/' :: [] := rfl
          rw [e2, comps_append_slash, List.foldl_append, foldl_comps_render hn]
          simp [comps, cleanStep])
        (by simp) (by simp) (by simp) (by simp [hts])]
      exact render_snoc r st _ (by simp)
    · simp [hts]
    · rw [hb]; simp
  · have hext := extChars_noSlash _ hb2
    have hlen := extChars_length (baseChars name.data)
    refine ⟨r, st, (List.take ((baseChars name.data).length - (extChars (baseChars name.data)).length)
          (baseChars name.data)) ++ '-' :: rfc3339 now ++ extChars (baseChars name.data),
      hn, hdd, ?_, by simp, ?_, ?_⟩
    · have hY : '/' ∉ (List.take ((baseChars name.data).length - (extChars (baseChars name.data)).length)
          (baseChars name.data)) ++ '-' :: rfc3339 now ++ extChars (baseChars name.data) := by
        simp only [List.mem_append, List.mem_cons, not_or]
        exact ⟨⟨fun h => hb2 (List.mem_of_mem_take h), by decide, hts⟩, hext⟩
      have hmem : '-' ∈ (List.take ((baseChars name.data).length - (extChars (baseChars name.data)).length)
          (baseChars name.data)) ++ '-' :: rfc3339 now ++ extChars (baseChars name.data) := by simp
      unfold backupName
      simp only [joinChars, hdne, if_false]
      rw [hdd, @cleanChars_snoc r st _ _ (render_ne_nil r st) (render_rooted hn)
        (foldl_comps_render hn) (by simp)
        (by intro h; rw [h] at hmem; simp at hmem)
        (by intro h; rw [h] at hmem; simp at hmem) hY]
      exact render_snoc r st _ (by simp)
    · simp only [List.mem_append, List.mem_cons, not_or]
      exact ⟨⟨fun h => hb2 (List.mem_of_mem_take h), by decide, hts⟩, hext⟩
    · intro h
      have := congrArg List.length h
      simp only [List.length_append, List.length_cons, List.length_take] at this
      omega

/-- A backup name is never the log path itself. -/
theorem backupName_ne (name : String) (now : Time) : backupName name now ≠ name := by
  obtain ⟨r, st, Y, _, _, hb, h1, h2, h3⟩ := backupName_shape name now
  intro h
  rw [h] at hb
  exact h3 (by rw [hb]; exact (baseChars_append _ _ (front_ends r st) h1 h2).symm)

/-- A backup name lies in the directory `filepath.Dir` gives for the log path. -/
theorem Dir_backupName (name : String) (now : Time) : Dir (backupName name now) = Dir name := by
  obtain ⟨r, st, Y, hn, hd, hb, _, h2, _⟩ := backupName_shape name now
  unfold Dir
  congr 1
  rw [hd]
  unfold dirChars
  rw [hb, uptoLastSlash_append _ _ (front_ends r st) h2]
  exact cleanChars_front hn

theorem extScan_suffix (rev acc : List Char) :
    extScan rev acc = [] ∨ ∃ s, s ++ extScan rev acc = rev.reverse ++ acc := by
  induction rev generalizing acc with
  | nil => left; rfl
  | cons a as ih =>
    unfold extScan
    split
    · left; rfl
    · split
      · right
        exact ⟨as.reverse, by simp⟩
      · rcases ih (a :: acc) with h | ⟨s, hs⟩
        · left; exact h
        · right
          exact ⟨s, by rw [hs]; simp⟩

/-- The extension is the end of the name: the name is its stem followed by its
extension. -/
theorem extChars_split (s : List Char) :
    s.take (s.length - (extChars s).length) ++ extChars s = s := by
  rcases extScan_suffix s.reverse [] with h | ⟨q, hq⟩
  · have h0 : extChars s = [] := h
    simp [h0]
  · have hq2 : q ++ extChars s = s := by simpa [extChars] using hq
    have hl : s.length - (extChars s).length = q.length := by
      have := congrArg List.length hq2
      simp only [List.length_append] at this
      omega
    rw [hl]
    generalize extChars s = x at hq2
    subst hq2
    simp

/-- The parts of a backup name: the cleaned directory of the log path, then one
last element made of a part `A` that does not depend on the instant, the
timestamp, and a part `B` that does not depend on the instant. -/
theorem backupName_parts (name : String) :
    ∃ r st A B, Normal r st ∧ dirChars name.data = render r st ∧ '/' ∉ A ∧ '/' ∉ B ∧
      (baseChars name.data).length ≤ A.length + B.length ∧
      ∀ now, (backupName name now).data = front r st ++ (A ++ rfc3339 now ++ B) := by
  obtain ⟨r, st, hn, hd⟩ := cleanChars_normal (uptoLastSlash name.data)
  have hdne : dirChars name.data ≠ [] := by
    unfold dirChars; rw [hd]; exact render_ne_nil r st
  have hdd : dirChars name.data = render r st := hd
  rcases baseChars_cases name.data with hb | ⟨hb1, hb2⟩
  · refine ⟨r, st, ['-'], [], hn, hdd, by simp, by simp, by rw [hb]; simp, fun now => ?_⟩
    have hts := rfc3339_noSlash now
    have hX : (List.take ((baseChars name.data).length - (extChars (baseChars name.data)).length)
        (baseChars name.data)) ++ '-' :: rfc3339 now ++ extChars (baseChars name.data)
        = '/' :: '-' :: rfc3339 now := by
      rw [hb]
      simp [extChars, extScan]
    unfold backupName
    simp only [hX, joinChars, hdne, if_false]
    have e : dirChars name.data ++ '/' :: '/' :: '-' :: rfc3339 now
        = (dirChars name.data ++ ['/']) ++ '/' :: ('-' :: rfc3339 now) := by simp
    rw [e, hdd]
    have hhead : (render r st ++ ['/']).head? = (render r st).head? := by
      cases hrs : render r st with
      | nil => exact absurd hrs (render_ne_nil r st)
      | cons a as => rfl
    rw [@cleanChars_snoc r st _ _ (by simp) (by rw [hhead]; exact render_rooted hn)
      (by
        have e2 : render r st ++ ['/'] = render r st ++ '/' :: [] := rfl
        rw [e2, comps_append_slash, List.foldl_append, foldl_comps_render hn]
        simp [comps, cleanStep])
      (by simp) (by simp) (by simp) (by simp [hts])]
    rw [render_snoc r st _ (by simp)]
    simp
  · have hext := extChars_noSlash _ hb2
    have hlen := extChars_length (baseChars name.data)
    refine ⟨r, st, (List.take ((baseChars name.data).length - (extChars (baseChars name.data)).length)
          (baseChars name.data)) ++ ['-'], extChars (baseChars name.data),
      hn, hdd, ?_, hext, ?_, fun now => ?_⟩
    · simp only [List.mem_append, List.mem_singleton, not_or]
      exact ⟨fun h => hb2 (List.mem_of_mem_take h), by decide⟩
    · simp only [List.length_append, List.length_take, List.length_singleton]
      omega
    · have hts := rfc3339_noSlash now
      have hY : '/' ∉ (List.take ((baseChars name.data).length - (extChars (baseChars name.data)).length)
          (baseChars name.data)) ++ '-' :: rfc3339 now ++ extChars (baseChars name.data) := by
        simp only [List.mem_append, List.mem_cons, not_or]
        exact ⟨⟨fun h => hb2 (List.mem_of_mem_take h), by decide, hts⟩, hext⟩
      have hmem : '-' ∈ (List.take ((baseChars name.data).length - (extChars (baseChars name.data)).length)
          (baseChars name.data)) ++ '-' :: rfc3339 now ++ extChars (baseChars name.data) := by simp
      unfold backupName
      simp only [joinChars, hdne, if_false]
      rw [hdd, @cleanChars_snoc r st _ _ (render_ne_nil r st) (render_rooted hn)
        (foldl_comps_render hn) (by simp)
        (by intro h; rw [h] at hmem; simp at hmem)
        (by intro h; rw [h] at hmem; simp at hmem) hY]
      rw [render_snoc r st _ (by simp)]
      simp

/-- Two backup names of one log path are equal only if the timestamps are. -/
theorem backupName_inj (name : String) (t1 t2 : Time)
    (h : backupName name t1 = backupName name t2) : rfc3339 t1 = rfc3339 t2 := by
  obtain ⟨r, st, A, B, -, -, -, -, -, hb⟩ := backupName_parts name
  have h1 := hb t1
  rw [h, hb t2] at h1
  have h2 := List.append_cancel_left h1
  have h3 := List.append_cancel_right h2
  exact (List.append_cancel_left h3).symm

/-- The name the compressed backup is written to is never the log path. -/
theorem backupName_gz_ne (name : String) (now : Time) :
    backupName name now ++ ".gz" ≠ name := by
  obtain ⟨r, st, A, B, hn, -, hA, hB, hlen, hb⟩ := backupName_parts name
  intro h
  have hd : name.data = front r st ++ (A ++ rfc3339 now ++ B ++ ['.', 'g', 'z']) := by
    rw [← h, String.data_append, hb now]
    simp
  have hts := rfc3339_noSlash now
  have hbase := baseChars_append (front r st) (A ++ rfc3339 now ++ B ++ ['.', 'g', 'z'])
    (front_ends r st) (by simp)
    (by simp only [List.mem_append, List.mem_cons, not_or]
        exact ⟨⟨⟨hA, hts⟩, hB⟩, by decide, by decide, by decide, List.not_mem_nil _⟩)
  rw [← hd] at hbase
  rw [hbase] at hlen
  simp only [List.length_append, List.length_cons, List.length_nil] at hlen
  omega

theorem digit_inj (a b : Nat) (h : digit a = digit b) : a % 10 = b % 10 := by
  unfold digit at h
  have key : ∀ i j : Fin 10, Char.ofNat (48 + i.val) = Char.ofNat (48 + j.val) → i = j := by
    decide
  have := key ⟨a % 10, Nat.mod_lt _ (by norm_num)⟩ ⟨b % 10, Nat.mod_lt _ (by norm_num)⟩ h
  exact congrArg Fin.val this

theorem pad2_inj (a b : Nat) (ha : a < 100) (hb : b < 100) (h : pad2 a = pad2 b) : a = b := by
  unfold pad2 at h
  simp only [List.cons.injEq, and_true] at h
  have h1 := digit_inj _ _ h.1
  have h2 := digit_inj _ _ h.2
  omega

theorem pad4_inj (a b : Nat) (ha : a < 10000) (hb : b < 10000) (h : pad4 a = pad4 b) : a = b := by
  unfold pad4 at h
  simp only [ha, hb, if_true, List.cons.injEq, and_true] at h
  have h1 := digit_inj _ _ h.1
  have h2 := digit_inj _ _ h.2.1
  have h3 := digit_inj _ _ h.2.2.1
  have h4 := digit_inj _ _ h.2.2.2
  omega

/-- The timestamp shows every field of an instant down to the second. -/
theorem rfc3339_inj (t1 t2 : Time) (h1 : t1.InRange) (h2 : t2.InRange)
    (h : rfc3339 t1 = rfc3339 t2) :
    t1.year = t2.year ∧ t1.month = t2.month ∧ t1.day = t2.day ∧ t1.hour = t2.hour ∧
      t1.minute = t2.minute ∧ t1.second = t2.second := by
  obtain ⟨y1, -, m1, -, d1, hh1, mi1, s1, -⟩ := h1
  obtain ⟨y2, -, m2, -, d2, hh2, mi2, s2, -⟩ := h2
  unfold rfc3339 at h
  have e4 : ∀ n, n < 10000 → pad4 n = [digit (n / 1000), digit (n / 100), digit (n / 10), digit n] := by
    intro n hn
    simp [pad4, hn]
  have hy : pad4 t1.year = pad4 t2.year := by
    rw [e4 _ y1, e4 _ y2] at h ⊢
    simp only [pad2, List.cons_append, List.nil_append, List.cons.injEq] at h
    simp only [List.cons.injEq, and_true]
    exact ⟨h.1, h.2.1, h.2.2.1, h.2.2.2.1⟩
  rw [e4 _ y1, e4 _ y2] at h
  simp only [pad2, List.cons_append, List.nil_append, List.cons.injEq, true_and, and_true] at h
  obtain ⟨-, -, -, -, a1, a2, b1, b2, c1, c2, f1, f2, g1, g2⟩ := h
  refine ⟨pad4_inj _ _ y1 y2 hy, pad2_inj _ _ (by omega) (by omega) ?_,
    pad2_inj _ _ (by omega) (by omega) ?_, pad2_inj _ _ (by omega) (by omega) ?_,
    pad2_inj _ _ (by omega) (by omega) ?_, pad2_inj _ _ (by omega) (by omega) ?_⟩ <;>
  simp [pad2, *]

theorem dropWhile_head_false {α : Type} (p : α → Bool) (L : List α) (a : α) (as : List α)
    (h : L.dropWhile p = a :: as) : p a = false := by
  induction L with
  | nil => simp at h
  | cons x xs ih =>
    rw [List.dropWhile_cons] at h
    by_cases hx : p x = true
    · rw [if_pos hx] at h
      exact ih h
    · rw [if_neg hx] at h
      simp only [List.cons.injEq] at h
      rw [← h.1]
      simpa using hx

theorem upto_after (s : List Char) : uptoLastSlash s ++ afterLastSlash s = s := by
  unfold uptoLastSlash afterLastSlash
  rw [← List.reverse_append, List.takeWhile_append_dropWhile, List.reverse_reverse]

theorem uptoLastSlash_ends (s : List Char) :
    uptoLastSlash s = [] ∨ ∃ q0, uptoLastSlash s = q0 ++ ['/'] := by
  unfold uptoLastSlash
  cases h : s.reverse.dropWhile (fun c => decide (c ≠ '/')) with
  | nil => left; rfl
  | cons a as =>
    right
    have ha : a = '/' := by
      have := dropWhile_head_false (fun c => decide (c ≠ '/')) s.reverse a as h
      simpa using this
    subst ha
    exact ⟨as.reverse, by simp⟩

/-- Two lists of elements of cleaned paths that are written the same are the
same. -/
theorem render_inj {r : Bool} {st st2 : List (List Char)} (h1 : Normal r st)
    (h2 : Normal r st2) (h : render r st = render r st2) : st = st2 := by
  rw [← foldl_comps_render h1, ← foldl_comps_render h2, h]

/-- Cleaning a path is cleaning its directory part and then taking the step of
its last element. -/
theorem cleanChars_last (s : List Char) :
    ∃ r st, Normal r st ∧ dirChars s = render r st ∧
      cleanChars s = render r (cleanStep r st (afterLastSlash s)) := by
  have hb := afterLastSlash_noSlash s
  have hsplit := upto_after s
  rcases uptoLastSlash_ends s with hq | ⟨q0, hq⟩
  · refine ⟨false, [], Normal.nil, by simp [dirChars, hq, cleanChars, render, joinSlash], ?_⟩
    rw [hq, List.nil_append] at hsplit
    rw [hsplit] at hb ⊢
    by_cases hs : s = []
    · subst hs
      simp [cleanChars, cleanStep, render, joinSlash]
    · have hhead : ¬ (s.head? = some '/') := by
        intro hh
        cases s with
        | nil => exact hs rfl
        | cons a as =>
          simp only [List.head?_cons, Option.some.injEq] at hh
          subst hh
          exact hb (by simp)
      unfold cleanChars render
      simp only [hs, if_false, hhead, decide_False, Bool.false_eq_true, comps_noSlash s hb,
        List.foldl_cons, List.foldl_nil]
  · have hqne : uptoLastSlash s ≠ [] := by rw [hq]; simp
    have hsne : s ≠ [] := by
      intro h
      subst h
      exact hqne (by simp [uptoLastSlash])
    have hhead : s.head? = (uptoLastSlash s).head? := by
      have key : ∀ q b : List Char, q ≠ [] → (q ++ b).head? = q.head? := by
        intro q b hne
        cases q with
        | nil => exact absurd rfl hne
        | cons a as => rfl
      calc s.head? = (uptoLastSlash s ++ afterLastSlash s).head? := by rw [hsplit]
        _ = (uptoLastSlash s).head? := key _ _ hqne
    have hcq : comps (uptoLastSlash s) = comps q0 ++ [[]] := by
      rw [hq]
      have e : q0 ++ ['/'] = q0 ++ '/' :: [] := rfl
      rw [e, comps_append_slash]
      rfl
    have hcs : comps s = comps q0 ++ [afterLastSlash s] := by
      have e : s = q0 ++ '/' :: afterLastSlash s := by
        have := hsplit
        rw [hq] at this
        simpa using this.symm
      conv_lhs => rw [e]
      rw [comps_append_slash, comps_noSlash _ hb]
    have hstep : ∀ (r : Bool) (st : List (List Char)), cleanStep r st [] = st := by
      intro r st
      simp [cleanStep]
    refine ⟨decide ((uptoLastSlash s).head? = some '/'), _,
      normal_foldl_comps _ (uptoLastSlash s), ?_, ?_⟩
    · unfold dirChars cleanChars render
      simp only [hqne, if_false, decide_eq_true_eq]
    · unfold cleanChars render
      simp only [hsne, if_false, decide_eq_true_eq, hhead, hcs, hcq, List.foldl_append,
        List.foldl_cons, List.foldl_nil, hstep]

theorem rfc3339_mem_Z (t : Time) : 'Z' ∈ rfc3339 t := by
  simp [rfc3339]

/-- A backup name is never the cleaned log path. -/
theorem backupName_ne_clean (name : String) (now : Time) :
    (backupName name now).data ≠ cleanChars name.data := by
  obtain ⟨r, st, A, B, hn, hd, hA, hB, hlen, hb⟩ := backupName_parts name
  obtain ⟨r2, st2, hn2, hd2, hc⟩ := cleanChars_last name.data
  have hr : r2 = r := by
    rw [← render_rooted hn2, ← render_rooted hn, ← hd2, hd]
  subst hr
  have hst : st2 = st := render_inj hn2 hn (by rw [← hd2, hd])
  subst hst
  have hts := rfc3339_noSlash now
  have hZ := rfc3339_mem_Z now
  have hYZ : 'Z' ∈ A ++ rfc3339 now ++ B := by simp [hZ]
  have hY1 : A ++ rfc3339 now ++ B ≠ [] := by
    intro h; rw [h] at hYZ; simp at hYZ
  have hY2 : A ++ rfc3339 now ++ B ≠ ['.'] := by
    intro h; rw [h] at hYZ; simp at hYZ
  have hY3 : A ++ rfc3339 now ++ B ≠ ['.', '.'] := by
    intro h; rw [h] at hYZ; simp at hYZ
  have hY4 : '/' ∉ A ++ rfc3339 now ++ B := by
    simp only [List.mem_append, not_or]
    exact ⟨⟨hA, hts⟩, hB⟩
  have hnY : Normal r2 (st2 ++ [A ++ rfc3339 now ++ B]) :=
    Normal.snoc st2 _ hn hY1 hY2 hY4 (fun h => absurd h hY3)
  have hb2 := afterLastSlash_noSlash name.data
  have hnC := cleanStep_normal hn (afterLastSlash name.data) hb2
  intro h
  rw [hb now, ← render_snoc r2 st2 _ hY1, hc] at h
  have hstack := render_inj hnY hnC h
  unfold cleanStep at hstack
  split at hstack
  · have := congrArg List.length hstack
    simp at this
  · rename_i hbne
    simp only [not_or] at hbne
    split at hstack
    · split at hstack
      · rename_i hnil
        subst hnil
        split at hstack
        · simp at hstack
        · simp only [List.nil_append, List.cons.injEq, and_true] at hstack
          rename_i hdd _
          rw [hdd] at hstack
          exact hY3 hstack
      · split at hstack
        · have := List.append_cancel_left hstack
          simp only [List.cons.injEq, and_true] at this
          rename_i hdd _ _
          rw [hdd] at this
          exact hY3 this
        · have := congrArg List.length hstack
          simp only [List.length_append, List.length_singleton, List.length_dropLast] at this
          omega
    · have hYb := List.append_cancel_left hstack
      simp only [List.cons.injEq, and_true] at hYb
      have hbase := baseChars_append (uptoLastSlash name.data) (afterLastSlash name.data)
        (uptoLastSlash_ends name.data) hbne.1 hb2
      rw [upto_after] at hbase
      rw [hbase, ← hYb] at hlen
      have hpos : 0 < (rfc3339 now).length := List.length_pos_of_mem hZ
      simp only [List.length_append] at hlen
      omega

/-! ### System calls and the steps of `Write` -/

theorem setAt_same {α : Type} (f : String → α) (k : String) (v : α) : setAt f k v k = v := by
  simp [setAt]

theorem setAt_other {α : Type} (f : String → α) (k x : String) (v : α) (h : x ≠ k) :
    setAt f k v x = f x := by
  simp [setAt, h]

/-- A successful create-and-truncate open leaves an empty file at the path. -/
theorem openCreateTrunc_some {os os1 : OS} {name : String} {mode : Nat} {fail : Bool}
    {h : Handle} (ho : openCreateTrunc os name mode fail = some (h, os1)) :
    h = ⟨name⟩ ∧ (∃ f, os1.files name = some f ∧ f.content = []) ∧
      (∀ x, x ≠ name → os1.files x = os.files x) ∧ os1.spawned = os.spawned ∧
      os1.dirs = os.dirs ∧ os1.denied = os.denied := by
  unfold openCreateTrunc at ho
  split at ho
  · simp at ho
  · simp only [Option.some.injEq, Prod.mk.injEq] at ho
    obtain ⟨rfl, rfl⟩ := ho
    refine ⟨rfl, ⟨_, setAt_same _ _ _, ?_⟩, fun x hx => setAt_other _ _ _ _ hx, rfl, rfl, rfl⟩
    split <;> rfl

/-- The outcome of `openNew`: the configuration is kept; on success the logger
holds a handle on the log path, its size is 0 and the log file is empty; on
failure the logger is as before. -/
theorem openNew_summary (l : Logger) (os : OS) (e : Env) :
    (l.openNew os e).1.Filename = l.Filename ∧ (l.openNew os e).1.MaxSize = l.MaxSize ∧
    ((l.openNew os e).2.2 = none →
      (l.openNew os e).1.file = some ⟨l.Filename⟩ ∧ (l.openNew os e).1.size = 0 ∧
      ∃ f, (l.openNew os e).2.1.files l.Filename = some f ∧ f.content = []) ∧
    ((l.openNew os e).2.2 ≠ none → (l.openNew os e).1 = l) := by
  have tail : ∀ (os2 : OS) (mode : Nat),
      let r : Logger × OS × Option Error :=
        match openCreateTrunc os2 l.Filename mode e.openNewErr with
        | none => (l, os2, some Error.openNew)
        | some (file, os3) => ({ l with file := some file, size := 0 }, os3, none)
      r.1.Filename = l.Filename ∧ r.1.MaxSize = l.MaxSize ∧
      (r.2.2 = none → r.1.file = some ⟨l.Filename⟩ ∧ r.1.size = 0 ∧
        ∃ f, r.2.1.files l.Filename = some f ∧ f.content = []) ∧
      (r.2.2 ≠ none → r.1 = l) := by
    intro os2 mode
    cases ho : openCreateTrunc os2 l.Filename mode e.openNewErr with
    | none => simp
    | some r =>
      obtain ⟨h, os3⟩ := r
      obtain ⟨rfl, hf, -⟩ := openCreateTrunc_some ho
      simpa using hf
  unfold Logger.openNew
  cases hm : mkdirAll os (Dir l.Filename) e.mkdirErr with
  | none => simp
  | some os1 =>
    simp only []
    cases hs : stat os1 l.Filename with
    | ok sz mode =>
      simp only []
      cases hr : rename os1 l.Filename (backupName l.Filename e.now) e.renameErr with
      | none => simp
      | some os2 => exact tail _ _
    | notExist => exact tail _ _
    | other => exact tail _ _

/-- The outcome of `rotate`: as `openNew`, and a failed rotation leaves the
logger closed or as it was. -/
theorem rotate_summary (l : Logger) (os : OS) (e : Env) :
    (l.rotate os e).1.Filename = l.Filename ∧ (l.rotate os e).1.MaxSize = l.MaxSize ∧
    ((l.rotate os e).2.2 = none →
      (l.rotate os e).1.file = some ⟨l.Filename⟩ ∧ (l.rotate os e).1.size = 0 ∧
      ∃ f, (l.rotate os e).2.1.files l.Filename = some f ∧ f.content = []) ∧
    ((l.rotate os e).2.2 ≠ none → (l.rotate os e).1.file = none) := by
  unfold Logger.rotate Logger.close
  cases hf : l.file with
  | none =>
    simp only []
    have h := openNew_summary l os e
    refine ⟨h.1, h.2.1, h.2.2.1, fun hne => ?_⟩
    rw [h.2.2.2 hne]; exact hf
  | some h0 =>
    simp only []
    by_cases hc : e.closeErr = true
    · simp [hc]
    · simp only [hc, if_false, Bool.false_eq_true]
      have h := openNew_summary { l with file := none } os e
      refine ⟨h.1, h.2.1, h.2.2.1, fun hne => ?_⟩
      rw [h.2.2.2 hne]

/-- The outcome of `openExistingOrNew` on a closed logger. -/
theorem openExistingOrNew_summary (l : Logger) (os : OS) (e : Env) (n : Nat) (hf : l.file = none) :
    (l.openExistingOrNew os e n).1.Filename = l.Filename ∧
    (l.openExistingOrNew os e n).1.MaxSize = l.MaxSize ∧
    ((l.openExistingOrNew os e n).2.2 = none →
      (l.openExistingOrNew os e n).1.file = some ⟨l.Filename⟩ ∧
      (∃ f, (l.openExistingOrNew os e n).2.1.files l.Filename = some f ∧
        (f.content.length : Int) = (l.openExistingOrNew os e n).1.size) ∧
      ((l.openExistingOrNew os e n).1.size = 0 ∨
        (l.openExistingOrNew os e n).1.size + (n : Int) < l.maxSize)) ∧
    ((l.openExistingOrNew os e n).2.2 ≠ none → (l.openExistingOrNew os e n).1.file = none) := by
  have hnew : ∀ r : Logger × OS × Option Error,
      (r.1.Filename = l.Filename ∧ r.1.MaxSize = l.MaxSize ∧
        (r.2.2 = none → r.1.file = some ⟨l.Filename⟩ ∧ r.1.size = 0 ∧
          ∃ f, r.2.1.files l.Filename = some f ∧ f.content = []) ∧
        (r.2.2 ≠ none → r.1.file = none)) →
      r.1.Filename = l.Filename ∧ r.1.MaxSize = l.MaxSize ∧
      (r.2.2 = none → r.1.file = some ⟨l.Filename⟩ ∧
        (∃ f, r.2.1.files l.Filename = some f ∧ (f.content.length : Int) = r.1.size) ∧
        (r.1.size = 0 ∨ r.1.size + (n : Int) < l.maxSize)) ∧
      (r.2.2 ≠ none → r.1.file = none) := by
    rintro r ⟨h1, h2, h3, h4⟩
    refine ⟨h1, h2, fun hr => ?_, h4⟩
    obtain ⟨a, b, f, c, d⟩ := h3 hr
    exact ⟨a, ⟨f, c, by simp [d, b]⟩, Or.inl b⟩
  have hopen : ∀ (l0 : Logger), l0 = l →
      (l0.openNew os e).1.Filename = l.Filename ∧ (l0.openNew os e).1.MaxSize = l.MaxSize ∧
        ((l0.openNew os e).2.2 = none → (l0.openNew os e).1.file = some ⟨l.Filename⟩ ∧
          (l0.openNew os e).1.size = 0 ∧
          ∃ f, (l0.openNew os e).2.1.files l.Filename = some f ∧ f.content = []) ∧
        ((l0.openNew os e).2.2 ≠ none → (l0.openNew os e).1.file = none) := by
    rintro l0 rfl
    have h := openNew_summary l0 os e
    refine ⟨h.1, h.2.1, h.2.2.1, fun hne => ?_⟩
    rw [h.2.2.2 hne]; exact hf
  unfold Logger.openExistingOrNew
  cases hs : stat os l.Filename with
  | notExist => exact hnew _ (hopen l rfl)
  | other => simp [hf]
  | ok size mode =>
    simp only []
    split
    · exact hnew _ (rotate_summary l os e)
    · rename_i hlt
      cases ho : openAppend os l.Filename e.openAppendErr with
      | none => exact hnew _ (hopen l rfl)
      | some file =>
        simp only []
        have hfile : file = ⟨l.Filename⟩ ∧ ∃ f, os.files l.Filename = some f ∧
            (f.content.length : Int) = size := by
          unfold openAppend at ho
          unfold stat at hs
          split at ho
          · simp at ho
          · rename_i hd
            simp only [Bool.or_eq_true, not_or, Bool.not_eq_true] at hd
            simp only [hd.2, Bool.false_eq_true, if_false] at hs
            cases hfl : os.files l.Filename with
            | none => simp [hfl] at ho
            | some f =>
              simp only [hfl, Option.some.injEq] at ho hs
              simp only [StatResult.ok.injEq] at hs
              exact ⟨ho.symm, f, rfl, hs.1⟩
        refine ⟨trivial, trivial, fun _ => ⟨by simp [hfile.1], hfile.2, Or.inr (by simpa using hlt)⟩, by simp⟩

theorem maxSize_congr {l1 l2 : Logger} (h : l1.MaxSize = l2.MaxSize) : l1.maxSize = l2.maxSize := by
  unfold Logger.maxSize; rw [h]

/-- The underlying write (lines 57 to 61 of `Write`) on a logger that is open
on its log file with room for `p`. -/
theorem write_step_post (l : Logger) (e : Env) (p : List Byte) (l3 : Logger) (os3 : OS)
    (hF : l3.Filename = l.Filename) (hM : l3.MaxSize = l.MaxSize)
    (hh : l3.file = some ⟨l.Filename⟩)
    (hf : ∃ f, os3.files l.Filename = some f ∧ (f.content.length : Int) = l3.size)
    (hroom : l3.size + (p.length : Int) ≤ l.maxSize) :
    WritePost l p
      (match l3.file with
        | none => ((0, some Error.write), l3, os3)
        | some file =>
          match fileWrite os3 file p e.writeCut with
          | (n, err, os4) => ((n, err), { l3 with size := l3.size + (n : Int) }, os4)) := by
  obtain ⟨f, hf1, hf2⟩ := hf
  rw [hh]
  simp only [fileWrite, hf1]
  refine ⟨hF, hM, ?_, ?_⟩
  · intro h hh2
    simp only [hh, Option.some.injEq] at hh2
    subst hh2
    refine ⟨hF.symm, ?_⟩
    simp only [hF]
    refine ⟨_, setAt_same _ _ _, ?_⟩
    simp only [List.length_append, List.length_take, Nat.cast_add, hf2]
    cases e.writeCut <;> simp
  · intro hn
    cases hc : e.writeCut with
    | some k => simp [hc] at hn
    | none => simp [hh]; exact hroom

/-- Lines 50 to 61 of `Write` on a logger that is open on its log file. -/
theorem write_body_post (l : Logger) (e : Env) (p : List Byte) (hp : (p.length : Int) ≤ l.maxSize)
    (l2 : Logger) (os2 : OS)
    (hF : l2.Filename = l.Filename) (hM : l2.MaxSize = l.MaxSize)
    (hh : l2.file = some ⟨l.Filename⟩)
    (hf : ∃ f, os2.files l.Filename = some f ∧ (f.content.length : Int) = l2.size) :
    WritePost l p
      (if l2.size + (p.length : Int) > l2.maxSize then
        match l2.rotate os2 e with
        | (l3, os3, some err) => ((0, some err), l3, os3)
        | (l3, os3, none) =>
          match l3.file with
          | none => ((0, some Error.write), l3, os3)
          | some file =>
            match fileWrite os3 file p e.writeCut with
            | (n, err, os4) => ((n, err), { l3 with size := l3.size + (n : Int) }, os4)
      else
        match l2.file with
        | none => ((0, some Error.write), l2, os2)
        | some file =>
          match fileWrite os2 file p e.writeCut with
          | (n, err, os4) => ((n, err), { l2 with size := l2.size + (n : Int) }, os4)) := by
  split
  · have hr := rotate_summary l2 os2 e
    rcases hrot : l2.rotate os2 e with ⟨l3, os3, err⟩
    rw [hrot] at hr
    simp only at hr
    cases err with
    | some er =>
      simp only []
      refine ⟨hr.1.trans hF, hr.2.1.trans hM, ?_, by simp⟩
      intro h hh2
      simp [hr.2.2.2 (by simp)] at hh2
    | none =>
      simp only []
      obtain ⟨h1, h2, f, h3, h4⟩ := hr.2.2.1 rfl
      rw [hF] at h1 h3
      exact write_step_post l e p l3 os3 (hr.1.trans hF) (hr.2.1.trans hM) h1
        ⟨f, h3, by simp [h4, h2]⟩ (by rw [h2]; simpa using hp)
  · rename_i hle
    rw [maxSize_congr hM] at hle
    exact write_step_post l e p l2 os2 hF hM hh hf (by simpa using hle)

/-- The outcome of `Write` on a consistent logger: the configuration is kept,
the logger stays consistent with the disk, and after a success the whole of `p`
was written, the logger is open on the log path and its tracked size is within
the capacity. -/
theorem Write_post (l : Logger) (os : OS) (e : Env) (p : List Byte) (hc : Consistent l os) :
    WritePost l p (l.Write os e p) := by
  unfold Logger.Write
  simp only []
  split
  · exact ⟨rfl, rfl, hc, by simp⟩
  · rename_i hle
    have hp : (p.length : Int) ≤ l.maxSize := by simpa using hle
    cases hfile : l.file with
    | none =>
      simp only []
      have ho := openExistingOrNew_summary l os e p.length hfile
      rcases hoe : l.openExistingOrNew os e p.length with ⟨l1, os1, err⟩
      rw [hoe] at ho
      simp only at ho
      cases err with
      | some er =>
        simp only []
        refine ⟨ho.1, ho.2.1, ?_, by simp⟩
        intro h hh2
        simp [ho.2.2.2 (by simp)] at hh2
      | none =>
        simp only []
        obtain ⟨h1, h2, h3⟩ := ho.2.2.1 rfl
        have hroom : ¬ (l1.size + (p.length : Int) > l1.maxSize) := by
          rw [maxSize_congr ho.2.1]
          rcases h3 with h3 | h3
          · rw [h3]; simpa using hp
          · exact not_lt.mpr (le_of_lt h3)
        have := write_body_post l e p hp l1 os1 ho.1 ho.2.1 h1 h2
        exact this
    | some h0 =>
      simp only []
      obtain ⟨hn, hf⟩ := hc h0 hfile
      have hh : l.file = some ⟨l.Filename⟩ := by rw [hfile, ← hn]
      have := write_body_post l e p hp l os rfl rfl hh hf
      rw [hfile] at this
      exact this

theorem consistent_of_reachable {filename : String} {maxSize : Int} {l : Logger} {os : OS}
    (h : Reachable filename maxSize l os) :
    Consistent l os ∧ l.Filename = filename ∧ l.MaxSize = maxSize := by
  induction h with
  | init os => exact ⟨fun h hh => by simp [New] at hh, rfl, rfl⟩
  | write e p _ ih =>
    have := Write_post _ _ e p ih.1
    exact ⟨this.2.2.1, this.1.trans ih.2.1, this.2.1.trans ih.2.2⟩

theorem wrap64_le_self (x : Int) (hx : 0 ≤ x) : wrap64 x ≤ x := by
  unfold wrap64
  omega

theorem mkdirAll_some {os os1 : OS} {d : String} {fail : Bool} (h : mkdirAll os d fail = some os1) :
    fail = false ∧ os1.files = os.files ∧ os1.denied = os.denied ∧ os1.spawned = os.spawned ∧
      (∀ x, os1.dirs x = (os.dirs x || decide (x ∈ ancestors d.length d))) := by
  unfold mkdirAll at h
  split at h
  · simp at h
  · rename_i hc
    simp only [Option.some.injEq] at h
    subst h
    simp only [Bool.or_eq_true, not_or, Bool.not_eq_true] at hc
    exact ⟨hc.1.1, rfl, rfl, rfl, fun _ => rfl⟩

theorem rename_some {os os1 : OS} {old new : String} {fail : Bool} (h : rename os old new fail = some os1) :
    fail = false ∧ os.denied new = false ∧ (∃ f, os.files old = some f ∧
      os1.files = setAt (setAt os.files old none) new (some f)) ∧ os1.denied = os.denied ∧
      os1.spawned = os.spawned ∧ os1.dirs = os.dirs := by
  unfold rename at h
  split at h
  · simp at h
  · rename_i hc
    simp only [Bool.or_eq_true, not_or, Bool.not_eq_true] at hc
    cases hf : os.files old with
    | none => simp [hf] at h
    | some f =>
      simp only [hf, Option.some.injEq] at h
      subst h
      exact ⟨hc.1.1, hc.2, ⟨f, rfl, rfl⟩, rfl, rfl, rfl⟩

theorem openCreateTrunc_some_full {os os1 : OS} {name : String} {mode : Nat} {fail : Bool}
    {h : Handle} (ho : openCreateTrunc os name mode fail = some (h, os1)) :
    fail = false ∧ os.denied name = false ∧ h = ⟨name⟩ ∧
      os1.files = setAt os.files name (some (match os.files name with
        | some f => { f with content := [] }
        | none => { content := [], mode := mode })) ∧
      os1.spawned = os.spawned ∧ os1.dirs = os.dirs ∧ os1.denied = os.denied := by
  unfold openCreateTrunc at ho
  split at ho
  · simp at ho
  · rename_i hc
    simp only [Bool.or_eq_true, not_or, Bool.not_eq_true] at hc
    simp only [Option.some.injEq, Prod.mk.injEq] at ho
    obtain ⟨rfl, rfl⟩ := ho
    exact ⟨hc.1.1, hc.1.2, rfl, rfl, rfl, rfl, rfl⟩

/-- A successful `openNew`, step by step: no step failed, the log path is
accessible, the logger is open on the log path with size 0, and either there
was no log file and an empty one was created, or the log file was moved to the
backup name, a goroutine was started on it, and an empty file with the same
mode was created at the log path. -/
theorem openNew_ok (l : Logger) (os : OS) (e : Env) (h : (l.openNew os e).2.2 = none) :
    (l.openNew os e).1 = { l with file := some ⟨l.Filename⟩, size := 0 } ∧
    e.mkdirErr = false ∧ e.openNewErr = false ∧ os.denied l.Filename = false ∧
    (l.openNew os e).2.1.denied = os.denied ∧
    (∀ x, (l.openNew os e).2.1.dirs x =
      (os.dirs x || decide (x ∈ ancestors (Dir l.Filename).length (Dir l.Filename)))) ∧
    ((os.files l.Filename = none ∧ (l.openNew os e).2.1.spawned = os.spawned ∧
        ∀ x, (l.openNew os e).2.1.files x =
          if x = l.Filename then some ⟨[], 0o644⟩ else os.files x) ∨
     (∃ f, os.files l.Filename = some f ∧ e.renameErr = false ∧
        os.denied (backupName l.Filename e.now) = false ∧
        (l.openNew os e).2.1.spawned = os.spawned ++ [backupName l.Filename e.now] ∧
        ∀ x, (l.openNew os e).2.1.files x =
          if x = l.Filename then some ⟨[], f.mode⟩
          else if x = backupName l.Filename e.now then some f else os.files x)) := by
  unfold Logger.openNew at h ⊢
  cases hm : mkdirAll os (Dir l.Filename) e.mkdirErr with
  | none => simp [hm] at h
  | some os1 =>
    obtain ⟨hm1, hm2, hm3, hm4, hm5⟩ := mkdirAll_some hm
    simp only [hm] at h ⊢
    cases hs : stat os1 l.Filename with
    | ok sz mode =>
      simp only [hs] at h ⊢
      cases hr : rename os1 l.Filename (backupName l.Filename e.now) e.renameErr with
      | none => simp [hr] at h
      | some os2 =>
        obtain ⟨hr1, hr2, ⟨f, hr3, hr4⟩, hr5, hr6, hr7⟩ := rename_some hr
        simp only [hr] at h ⊢
        cases ho : openCreateTrunc { os2 with spawned := os2.spawned ++ [backupName l.Filename e.now] }
            l.Filename mode e.openNewErr with
        | none => simp [ho] at h
        | some r =>
          obtain ⟨hd, os3⟩ := r
          obtain ⟨ho1, ho2, ho3, ho4, ho5, ho6, ho7⟩ := openCreateTrunc_some_full ho
          simp only at ho2 ho4 ho5 ho6 ho7
          have hmode : mode = f.mode := by
            unfold stat at hs
            rw [hm2] at hr3
            split at hs
            · simp at hs
            · simp only [hm2, hr3, StatResult.ok.injEq] at hs
              exact hs.2.symm
          refine ⟨by simp [ho3], hm1, ho1, by rw [← hm3, ← hr5]; exact ho2,
            by simp only [ho7, hr5, hm3], fun x => by simp only [ho6, hr7, hm5], Or.inr ⟨f, ?_⟩⟩
          refine ⟨by rw [← hm2]; exact hr3, hr1, by rw [← hm3]; exact hr2,
            by simp only [ho5, hr6, hm4], fun x => ?_⟩
          simp only [ho4, hr4, hm2, hmode]
          by_cases hx : x = l.Filename
          · subst hx
            simp only [setAt_same, if_true]
            by_cases hb : l.Filename = backupName l.Filename e.now
            · rw [← hb, setAt_same]
            · rw [setAt_other _ _ _ _ hb, setAt_same]
          · simp only [setAt_other _ _ _ _ hx, hx, if_false]
            by_cases hb : x = backupName l.Filename e.now
            · simp [hb, setAt_same]
            · simp [hb, setAt_other, hx]
    | notExist =>
      simp only [hs] at h ⊢
      cases ho : openCreateTrunc os1 l.Filename 0o644 e.openNewErr with
      | none => simp [ho] at h
      | some r =>
        obtain ⟨hd, os3⟩ := r
        obtain ⟨ho1, ho2, ho3, ho4, ho5, ho6, ho7⟩ := openCreateTrunc_some_full ho
        have hnone : os.files l.Filename = none := by
          unfold stat at hs
          rw [hm3] at ho2
          simp only [ho2, hm3, Bool.false_eq_true, if_false, hm2] at hs
          cases hf : os.files l.Filename with
          | none => rfl
          | some f => simp [hf] at hs
        refine ⟨by simp [ho3], hm1, ho1, by rw [← hm3]; exact ho2,
          by simp only [ho7, hm3], fun x => by simp only [ho6, hm5], Or.inl ⟨hnone, ?_, fun x => ?_⟩⟩
        · simp only [ho5, hm4]
        · simp only [ho4, hm2, hnone, setAt]
    | other =>
      simp only [hs] at h ⊢
      cases ho : openCreateTrunc os1 l.Filename 0o644 e.openNewErr with
      | none => simp [ho] at h
      | some r =>
        obtain ⟨hd, os3⟩ := r
        obtain ⟨ho1, ho2, ho3, ho4, ho5, ho6, ho7⟩ := openCreateTrunc_some_full ho
        exfalso
        unfold stat at hs
        simp only [ho2, Bool.false_eq_true, if_false] at hs
        cases hf : os1.files l.Filename <;> simp [hf] at hs

/-- A successful `openNew` in terms of the change to the operating system. -/
theorem openNew_ok_shape (l : Logger) (os : OS) (e : Env) (h : (l.openNew os e).2.2 = none) :
    (l.openNew os e).1 = { l with file := some ⟨l.Filename⟩, size := 0 } ∧
    (Created os (l.openNew os e).2.1 l.Filename [] ∨
      ∃ f, Rotated os (l.openNew os e).2.1 l.Filename (backupName l.Filename e.now) f []) := by
  obtain ⟨h1, -, -, -, h5, h6, h7⟩ := openNew_ok l os e h
  refine ⟨h1, ?_⟩
  rcases h7 with ⟨a, b, c⟩ | ⟨f, a, -, -, b, c⟩
  · exact Or.inl ⟨a, b, h5, h6, c⟩
  · exact Or.inr ⟨f, a, b, h5, h6, c⟩

/-- A successful `rotate` in terms of the change to the operating system. -/
theorem rotate_ok_shape (l : Logger) (os : OS) (e : Env) (h : (l.rotate os e).2.2 = none) :
    (l.rotate os e).1 = { l with file := some ⟨l.Filename⟩, size := 0 } ∧
    (Created os (l.rotate os e).2.1 l.Filename [] ∨
      ∃ f, Rotated os (l.rotate os e).2.1 l.Filename (backupName l.Filename e.now) f []) := by
  unfold Logger.rotate Logger.close at h ⊢
  cases hf : l.file with
  | none =>
    simp only [hf] at h ⊢
    have := openNew_ok_shape l os e h
    refine ⟨?_, this.2⟩
    rw [this.1]
  | some h0 =>
    simp only [hf] at h ⊢
    by_cases hc : e.closeErr = true
    · simp [hc] at h
    · simp only [hc, Bool.false_eq_true, if_false] at h ⊢
      have := openNew_ok_shape { l with file := none } os e h
      exact ⟨this.1, this.2⟩

/-- The underlying write (lines 57 to 61 of `Write`) when it reports no error:
all of `p` went to the end of the file the logger is open on. -/
theorem write_step_ok (e : Env) (p : List Byte) (l3 : Logger) (os3 : OS) (name : String) (f3 : File)
    (hh : l3.file = some ⟨name⟩) (hf : os3.files name = some f3)
    (h : (match l3.file with
        | none => ((0, some Error.write), l3, os3)
        | some file =>
          match fileWrite os3 file p e.writeCut with
          | (n, err, os4) => ((n, err), { l3 with size := l3.size + (n : Int) }, os4)).1.2 = none) :
    e.writeCut = none ∧
    (match l3.file with
        | none => ((0, some Error.write), l3, os3)
        | some file =>
          match fileWrite os3 file p e.writeCut with
          | (n, err, os4) => ((n, err), { l3 with size := l3.size + (n : Int) }, os4))
      = ((p.length, none), { l3 with size := l3.size + (p.length : Int) },
          { os3 with files := setAt os3.files name (some ⟨f3.content ++ p, f3.mode⟩) }) := by
  rw [hh] at h ⊢
  simp only [fileWrite, hf] at h ⊢
  cases hc : e.writeCut with
  | some k => simp [hc] at h
  | none => simp

theorem appended_intro (os : OS) (name : String) (f : File) (p : List Byte)
    (hf : os.files name = some f) :
    Appended os { os with files := setAt os.files name (some ⟨f.content ++ p, f.mode⟩) } name f p :=
  ⟨hf, rfl, rfl, rfl, fun _ => rfl⟩

theorem created_write {os os1 : OS} {name : String} (p : List Byte)
    (h : Created os os1 name []) :
    ∃ f1, os1.files name = some f1 ∧ f1.content = [] ∧
      Created os { os1 with files := setAt os1.files name (some ⟨f1.content ++ p, f1.mode⟩) } name p := by
  obtain ⟨h1, h2, h3, h4, h5⟩ := h
  refine ⟨⟨[], 0o644⟩, by simp [h5], rfl, h1, h2, h3, h4, fun x => ?_⟩
  simp only [setAt, h5]
  split <;> simp

theorem rotated_write {os os1 : OS} {name backup : String} {f : File} (p : List Byte)
    (h : Rotated os os1 name backup f []) :
    ∃ f1, os1.files name = some f1 ∧ f1.content = [] ∧
      Rotated os { os1 with files := setAt os1.files name (some ⟨f1.content ++ p, f1.mode⟩) }
        name backup f p := by
  obtain ⟨h1, h2, h3, h4, h5⟩ := h
  refine ⟨⟨[], f.mode⟩, by simp [h5], rfl, h1, h2, h3, h4, fun x => ?_⟩
  simp only [setAt, h5]
  split <;> simp

/-- Lines 50 to 61 of `Write`, on a logger open on its log file, when they
report no error: either the bytes were appended without rotation, or the file
was rotated first. -/
theorem write_body_ok (e : Env) (p : List Byte) (l2 : Logger) (os2 : OS) (f2 : File)
    (hh : l2.file = some ⟨l2.Filename⟩) (hf : os2.files l2.Filename = some f2)
    (r : (Nat × Option Error) × Logger × OS)
    (hr : r = (if l2.size + (p.length : Int) > l2.maxSize then
        match l2.rotate os2 e with
        | (l3, os3, some err) => ((0, some err), l3, os3)
        | (l3, os3, none) =>
          match l3.file with
          | none => ((0, some Error.write), l3, os3)
          | some file =>
            match fileWrite os3 file p e.writeCut with
            | (n, err, os4) => ((n, err), { l3 with size := l3.size + (n : Int) }, os4)
      else
        match l2.file with
        | none => ((0, some Error.write), l2, os2)
        | some file =>
          match fileWrite os2 file p e.writeCut with
          | (n, err, os4) => ((n, err), { l2 with size := l2.size + (n : Int) }, os4)))
    (h : r.1.2 = none) :
    r.1.1 = p.length ∧ e.writeCut = none ∧
    ((l2.size + (p.length : Int) ≤ l2.maxSize ∧ Appended os2 r.2.2 l2.Filename f2 p ∧
        r.2.1 = { l2 with size := l2.size + (p.length : Int) }) ∨
     (l2.maxSize < l2.size + (p.length : Int) ∧
        Rotated os2 r.2.2 l2.Filename (backupName l2.Filename e.now) f2 p ∧
        r.2.1 = { l2 with file := some ⟨l2.Filename⟩, size := p.length })) := by
  by_cases hgt : l2.size + (p.length : Int) > l2.maxSize
  · rw [if_pos hgt] at hr
    rcases hrot : l2.rotate os2 e with ⟨l3, os3, err⟩
    rw [hrot] at hr
    cases err with
    | some er => simp [hr] at h
    | none =>
      simp only at hr
      have hro := rotate_ok_shape l2 os2 e (by rw [hrot])
      rw [hrot] at hro
      simp only at hro
      obtain ⟨hl3, hsh⟩ := hro
      have hrot2 : Rotated os2 os3 l2.Filename (backupName l2.Filename e.now) f2 [] := by
        rcases hsh with hcr | ⟨f, hrt⟩
        · rw [hcr.1] at hf; simp at hf
        · have : f = f2 := by
            have := hrt.1
            rw [hf] at this
            exact (Option.some.inj this).symm
          rw [← this]; exact hrt
      obtain ⟨f1, hf1, hf1c, hfin⟩ := rotated_write p hrot2
      have hh3 : l3.file = some ⟨l2.Filename⟩ := by rw [hl3]
      have hstep := write_step_ok e p l3 os3 l2.Filename f1 hh3 hf1 (by rw [← hr]; exact h)
      rw [← hr] at hstep
      refine ⟨by rw [hstep.2], hstep.1, Or.inr ⟨by simpa using hgt, ?_, ?_⟩⟩
      · rw [hstep.2]; exact hfin
      · rw [hstep.2, hl3]; simp
  · rw [if_neg hgt] at hr
    have hstep := write_step_ok e p l2 os2 l2.Filename f2 hh hf (by rw [← hr]; exact h)
    rw [← hr] at hstep
    refine ⟨by rw [hstep.2], hstep.1, Or.inl ⟨by simpa using hgt, ?_, ?_⟩⟩
    · rw [hstep.2]; exact appended_intro os2 _ f2 p hf
    · rw [hstep.2]

theorem created_appended {os os1 os2 : OS} {name : String} {c p : List Byte} {f1 : File}
    (h : Created os os1 name c) (ha : Appended os1 os2 name f1 p) :
    Created os os2 name (c ++ p) := by
  obtain ⟨h1, h2, h3, h4, h5⟩ := h
  obtain ⟨a1, a2, a3, a4, a5⟩ := ha
  have hf1 : f1 = ⟨c, 0o644⟩ := by
    have := h5 name
    rw [a1] at this
    simpa using this
  refine ⟨h1, a2.trans h2, a3.trans h3, fun x => by rw [a4]; exact h4 x, fun x => ?_⟩
  rw [a5 x, h5 x, hf1]
  split <;> simp_all

theorem rotated_appended {os os1 os2 : OS} {name backup : String} {f : File} {c p : List Byte}
    {f1 : File} (h : Rotated os os1 name backup f c) (ha : Appended os1 os2 name f1 p) :
    Rotated os os2 name backup f (c ++ p) := by
  obtain ⟨h1, h2, h3, h4, h5⟩ := h
  obtain ⟨a1, a2, a3, a4, a5⟩ := ha
  have hf1 : f1 = ⟨c, f.mode⟩ := by
    have := h5 name
    rw [a1] at this
    simpa using this
  refine ⟨h1, a2.trans h2, a3.trans h3, fun x => by rw [a4]; exact h4 x, fun x => ?_⟩
  rw [a5 x, h5 x, hf1]
  split <;> simp_all

theorem stat_ok_iff {os : OS} {name : String} {size : Int} {mode : Nat}
    (h : stat os name = StatResult.ok size mode) :
    os.denied name = false ∧ ∃ f, os.files name = some f ∧ (f.content.length : Int) = size ∧
      f.mode = mode := by
  unfold stat at h
  split at h
  · simp at h
  · rename_i hd
    cases hf : os.files name with
    | none => simp [hf] at h
    | some f =>
      simp only [hf, StatResult.ok.injEq] at h
      exact ⟨by simpa using hd, f, rfl, h.1, h.2⟩

theorem stat_notExist_iff {os : OS} {name : String} (h : stat os name = StatResult.notExist) :
    os.denied name = false ∧ os.files name = none := by
  unfold stat at h
  split at h
  · simp at h
  · rename_i hd
    cases hf : os.files name with
    | none => exact ⟨by simpa using hd, rfl⟩
    | some f => simp [hf] at h

/-- A successful `openExistingOrNew` on a closed logger: a fresh file was
created, or the existing file was resumed, or it was rotated. -/
theorem openExistingOrNew_ok (l : Logger) (os : OS) (e : Env) (n : Nat)
    (h : (l.openExistingOrNew os e n).2.2 = none) :
    os.denied l.Filename = false ∧
    ((os.files l.Filename = none ∧ Created os (l.openExistingOrNew os e n).2.1 l.Filename [] ∧
        (l.openExistingOrNew os e n).1 = { l with file := some ⟨l.Filename⟩, size := 0 }) ∨
     (∃ f, os.files l.Filename = some f ∧ (f.content.length : Int) + n < l.maxSize ∧
        e.openAppendErr = false ∧ (l.openExistingOrNew os e n).2.1 = os ∧
        (l.openExistingOrNew os e n).1 =
          { l with file := some ⟨l.Filename⟩, size := f.content.length }) ∨
     (∃ f, os.files l.Filename = some f ∧
        (l.maxSize ≤ (f.content.length : Int) + n ∨ e.openAppendErr = true) ∧
        Rotated os (l.openExistingOrNew os e n).2.1 l.Filename (backupName l.Filename e.now) f [] ∧
        (l.openExistingOrNew os e n).1 = { l with file := some ⟨l.Filename⟩, size := 0 })) := by
  unfold Logger.openExistingOrNew at h ⊢
  cases hs : stat os l.Filename with
  | notExist =>
    simp only [hs] at h ⊢
    obtain ⟨hd, hnone⟩ := stat_notExist_iff hs
    obtain ⟨h1, h2⟩ := openNew_ok_shape l os e h
    refine ⟨hd, Or.inl ⟨hnone, ?_, h1⟩⟩
    rcases h2 with h2 | ⟨f, h2⟩
    · exact h2
    · rw [h2.1] at hnone; simp at hnone
  | other => simp [hs] at h
  | ok size mode =>
    simp only [hs] at h ⊢
    obtain ⟨hd, f, hf, hsz, -⟩ := stat_ok_iff hs
    refine ⟨hd, Or.inr ?_⟩
    have hrotated : ∀ os1, (Created os os1 l.Filename [] ∨
        ∃ f0, Rotated os os1 l.Filename (backupName l.Filename e.now) f0 []) →
        Rotated os os1 l.Filename (backupName l.Filename e.now) f [] := by
      rintro os1 (hcr | ⟨f0, hrt⟩)
      · rw [hcr.1] at hf; simp at hf
      · have : f0 = f := by
          have := hrt.1
          rw [hf] at this
          exact (Option.some.inj this).symm
        rw [← this]; exact hrt
    by_cases hge : size + (n : Int) ≥ l.maxSize
    · simp only [hge, if_true] at h ⊢
      obtain ⟨h1, h2⟩ := rotate_ok_shape l os e h
      exact Or.inr ⟨f, hf, Or.inl (by rw [hsz]; exact hge), hrotated _ h2, h1⟩
    · simp only [hge, if_false] at h ⊢
      cases ho : openAppend os l.Filename e.openAppendErr with
      | none =>
        simp only [ho] at h ⊢
        obtain ⟨h1, h2⟩ := openNew_ok_shape l os e h
        have herr : e.openAppendErr = true := by
          unfold openAppend at ho
          by_contra hne
          simp [hne, hd, hf] at ho
        exact Or.inr ⟨f, hf, Or.inr herr, hrotated _ h2, h1⟩
      | some file =>
        simp only [ho] at h ⊢
        have hfile : file = ⟨l.Filename⟩ ∧ e.openAppendErr = false := by
          unfold openAppend at ho
          split at ho
          · simp at ho
          · rename_i hc
            simp only [hf, Option.some.injEq] at ho
            simp only [Bool.or_eq_true, not_or, Bool.not_eq_true] at hc
            exact ⟨ho.symm, hc.1⟩
        refine Or.inl ⟨f, hf, by rw [hsz]; exact not_le.mp hge, hfile.2, trivial, ?_⟩
        rw [hfile.1, hsz]

/-- A successful `Write` on an open, consistent logger: all of `p` was written,
appended to the log file when it fits in the remaining room, after a rotation
otherwise. -/
theorem Write_ok_open (l : Logger) (os : OS) (e : Env) (p : List Byte) (hopen : l.file ≠ none)
    (hc : Consistent l os) (h : (l.Write os e p).1.2 = none) :
    (l.Write os e p).1.1 = p.length ∧ e.writeCut = none ∧ (p.length : Int) ≤ l.maxSize ∧
    ∃ f, os.files l.Filename = some f ∧ (f.content.length : Int) = l.size ∧
      ((l.size + (p.length : Int) ≤ l.maxSize ∧ Appended os (l.Write os e p).2.2 l.Filename f p ∧
          (l.Write os e p).2.1 = { l with size := l.size + (p.length : Int) }) ∨
       (l.maxSize < l.size + (p.length : Int) ∧
          Rotated os (l.Write os e p).2.2 l.Filename (backupName l.Filename e.now) f p ∧
          (l.Write os e p).2.1 = { l with file := some ⟨l.Filename⟩, size := p.length })) := by
  obtain ⟨h0, hfile⟩ := Option.ne_none_iff_exists'.mp hopen
  · obtain ⟨hn, f, hf, hsz⟩ := hc h0 hfile
    have hh : l.file = some ⟨l.Filename⟩ := by rw [hfile, ← hn]
    by_cases hbig : (p.length : Int) > l.maxSize
    · simp [Logger.Write, hbig] at h
    · have hr : l.Write os e p = (if l.size + (p.length : Int) > l.maxSize then
          match l.rotate os e with
          | (l3, os3, some err) => ((0, some err), l3, os3)
          | (l3, os3, none) =>
            match l3.file with
            | none => ((0, some Error.write), l3, os3)
            | some file =>
              match fileWrite os3 file p e.writeCut with
              | (n, err, os4) => ((n, err), { l3 with size := l3.size + (n : Int) }, os4)
        else
          match l.file with
          | none => ((0, some Error.write), l, os)
          | some file =>
            match fileWrite os file p e.writeCut with
            | (n, err, os4) => ((n, err), { l with size := l.size + (n : Int) }, os4)) := by
        unfold Logger.Write
        simp only [hbig, if_false, hfile]
      have hbody := write_body_ok e p l os f hh hf (l.Write os e p) hr h
      exact ⟨hbody.1, hbody.2.1, not_lt.mp hbig, f, hf, hsz, hbody.2.2⟩

/-- A successful `Write` on a closed logger: all of `p` was written, to a file
created for it, or appended to the resumed log file, or after rotating it. -/
theorem Write_ok_closed (l : Logger) (os : OS) (e : Env) (p : List Byte) (hfile : l.file = none)
    (h : (l.Write os e p).1.2 = none) :
    (l.Write os e p).1.1 = p.length ∧ e.writeCut = none ∧ (p.length : Int) ≤ l.maxSize ∧
    os.denied l.Filename = false ∧
    ((os.files l.Filename = none ∧ Created os (l.Write os e p).2.2 l.Filename p ∧
        (l.Write os e p).2.1 = { l with file := some ⟨l.Filename⟩, size := p.length }) ∨
     (∃ f, os.files l.Filename = some f ∧ (f.content.length : Int) + p.length < l.maxSize ∧
        e.openAppendErr = false ∧ Appended os (l.Write os e p).2.2 l.Filename f p ∧
        (l.Write os e p).2.1 =
          { l with file := some ⟨l.Filename⟩, size := (f.content.length : Int) + p.length }) ∨
     (∃ f, os.files l.Filename = some f ∧
        (l.maxSize ≤ (f.content.length : Int) + p.length ∨ e.openAppendErr = true) ∧
        Rotated os (l.Write os e p).2.2 l.Filename (backupName l.Filename e.now) f p ∧
        (l.Write os e p).2.1 = { l with file := some ⟨l.Filename⟩, size := p.length })) := by
  by_cases hbig : (p.length : Int) > l.maxSize
  · simp [Logger.Write, hbig] at h
  · have hp : (p.length : Int) ≤ l.maxSize := not_lt.mp hbig
    rcases hoe : l.openExistingOrNew os e p.length with ⟨l1, os1, err⟩
    have hr : l.Write os e p = (match err with
        | some er => ((0, some er), l1, os1)
        | none => (if l1.size + (p.length : Int) > l1.maxSize then
          match l1.rotate os1 e with
          | (l3, os3, some err) => ((0, some err), l3, os3)
          | (l3, os3, none) =>
            match l3.file with
            | none => ((0, some Error.write), l3, os3)
            | some file =>
              match fileWrite os3 file p e.writeCut with
              | (n, err, os4) => ((n, err), { l3 with size := l3.size + (n : Int) }, os4)
        else
          match l1.file with
          | none => ((0, some Error.write), l1, os1)
          | some file =>
            match fileWrite os1 file p e.writeCut with
            | (n, err, os4) => ((n, err), { l1 with size := l1.size + (n : Int) }, os4))) := by
      unfold Logger.Write
      simp only [hbig, if_false, hfile, hoe]
      cases err <;> rfl
    cases err with
    | some er => rw [hr] at h; simp at h
    | none =>
      have hopen := openExistingOrNew_ok l os e p.length (by rw [hoe])
      rw [hoe] at hopen
      simp only at hopen hr
      obtain ⟨hd, hcases⟩ := hopen
      -- the state after opening: open on the log path with room for `p`
      have key : ∀ (f1 : File), l1.file = some ⟨l1.Filename⟩ → l1.Filename = l.Filename →
          l1.MaxSize = l.MaxSize → os1.files l1.Filename = some f1 →
          l1.size + (p.length : Int) ≤ l.maxSize →
          (l.Write os e p).1.1 = p.length ∧ e.writeCut = none ∧
            Appended os1 (l.Write os e p).2.2 l.Filename f1 p ∧
            (l.Write os e p).2.1 = { l1 with size := l1.size + (p.length : Int) } := by
        intro f1 hh1 hF1 hM1 hf1 hroom
        have hbody := write_body_ok e p l1 os1 f1 hh1 hf1 (l.Write os e p) hr h
        refine ⟨hbody.1, hbody.2.1, ?_⟩
        rcases hbody.2.2 with ⟨-, ha, hl⟩ | ⟨hlt, -, -⟩
        · rw [hF1] at ha
          exact ⟨ha, hl⟩
        · rw [maxSize_congr hM1] at hlt
          exact absurd hroom (not_le.mpr hlt)
      rcases hcases with ⟨hnone, hcr, hl1⟩ | ⟨f, hf, hlt, herr, hos, hl1⟩ | ⟨f, hf, hcond, hrt, hl1⟩
      · have hf1 : os1.files l.Filename = some ⟨[], 0o644⟩ := by simp [hcr.2.2.2.2 l.Filename]
        obtain ⟨k1, k2, k3, k4⟩ := key ⟨[], 0o644⟩ (by rw [hl1]) (by rw [hl1]) (by rw [hl1])
          (by rw [hl1]; exact hf1) (by rw [hl1]; simpa using hp)
        refine ⟨k1, k2, hp, hd, Or.inl ⟨hnone, ?_, ?_⟩⟩
        · simpa using created_appended hcr k3
        · rw [k4, hl1]; simp
      · subst hos
        obtain ⟨k1, k2, k3, k4⟩ := key f (by rw [hl1]) (by rw [hl1]) (by rw [hl1])
          (by rw [hl1]; exact hf) (by rw [hl1]; exact le_of_lt hlt)
        refine ⟨k1, k2, hp, hd, Or.inr (Or.inl ⟨f, hf, hlt, herr, k3, ?_⟩)⟩
        rw [k4, hl1]
      · have hf1 : os1.files l.Filename = some ⟨[], f.mode⟩ := by simp [hrt.2.2.2.2 l.Filename]
        obtain ⟨k1, k2, k3, k4⟩ := key ⟨[], f.mode⟩ (by rw [hl1]) (by rw [hl1]) (by rw [hl1])
          (by rw [hl1]; exact hf1) (by rw [hl1]; simpa using hp)
        refine ⟨k1, k2, hp, hd, Or.inr (Or.inr ⟨f, hf, hcond, ?_, ?_⟩)⟩
        · simpa using rotated_appended hrt k3
        · rw [k4, hl1]; simp

/-- The conditions under which `openNew` succeeds: the directory can be made,
the log path is accessible, the create-and-truncate open does not fail and,
when a log file exists, neither does the rename to the backup name. -/
theorem openNew_succeeds (l : Logger) (os : OS) (e : Env)
    (hm : (mkdirAll os (Dir l.Filename) e.mkdirErr).isSome = true)
    (ho : e.openNewErr = false) (hd : os.denied l.Filename = false)
    (hr : os.files l.Filename ≠ none →
      e.renameErr = false ∧ os.denied (backupName l.Filename e.now) = false) :
    (l.openNew os e).2.2 = none := by
  unfold Logger.openNew
  cases hmk : mkdirAll os (Dir l.Filename) e.mkdirErr with
  | none => simp [hmk] at hm
  | some os1 =>
    obtain ⟨-, hm2, hm3, -, hm5⟩ := mkdirAll_some hmk
    have hdir : os1.dirs (Dir l.Filename) = true := by
      rw [hm5]
      have : Dir l.Filename ∈ ancestors (Dir l.Filename).length (Dir l.Filename) := by
        cases (Dir l.Filename).length <;> simp [ancestors]
      simp [this]
    simp only []
    cases hs : stat os1 l.Filename with
    | ok sz mode =>
      obtain ⟨-, f, hf, -, -⟩ := stat_ok_iff hs
      rw [hm2] at hf
      obtain ⟨hr1, hr2⟩ := hr (by rw [hf]; simp)
      simp only [rename, hr1, hm3, hd, hr2, hm2, hf, openCreateTrunc, ho, hdir]
      simp [hd, hdir]
    | notExist => simp [openCreateTrunc, ho, hm3, hd, hdir]
    | other => simp [openCreateTrunc, ho, hm3, hd, hdir]

theorem rotate_succeeds (l : Logger) (os : OS) (e : Env)
    (hc : l.file ≠ none → e.closeErr = false)
    (hm : (mkdirAll os (Dir l.Filename) e.mkdirErr).isSome = true)
    (ho : e.openNewErr = false) (hd : os.denied l.Filename = false)
    (hr : os.files l.Filename ≠ none →
      e.renameErr = false ∧ os.denied (backupName l.Filename e.now) = false) :
    (l.rotate os e).2.2 = none := by
  unfold Logger.rotate Logger.close
  cases hf : l.file with
  | none => exact openNew_succeeds l os e hm ho hd hr
  | some h0 =>
    simp only [hc (by simp [hf]), Bool.false_eq_true, if_false]
    exact openNew_succeeds { l with file := none } os e hm ho hd hr

theorem rotate_ok_close (l : Logger) (os : OS) (e : Env) (h : (l.rotate os e).2.2 = none)
    (hopen : l.file ≠ none) : e.closeErr = false := by
  unfold Logger.rotate Logger.close at h
  obtain ⟨h0, hfile⟩ := Option.ne_none_iff_exists'.mp hopen
  by_contra hc
  simp [hfile, hc] at h

/-- No step of `Write` on an open logger with room for `p` can fail before the
underlying write: the result is that of the underlying write. -/
theorem Write_open_room (l : Logger) (os : OS) (e : Env) (p : List Byte) (f : File)
    (hh : l.file = some ⟨l.Filename⟩) (hf : os.files l.Filename = some f)
    (hsz : 0 ≤ l.size) (hroom : l.size + (p.length : Int) ≤ l.maxSize) :
    l.Write os e p =
      ((match e.writeCut with
          | none => p.length
          | some k => min k p.length,
        if e.writeCut.isSome then some Error.write else none),
       { l with size := l.size + ((match e.writeCut with
          | none => p.length
          | some k => min k p.length : Nat) : Int) },
       { os with files := setAt os.files l.Filename (some ⟨f.content ++ p.take (match e.writeCut with
          | none => p.length
          | some k => min k p.length), f.mode⟩) }) := by
  have hp : ¬ ((p.length : Int) > l.maxSize) := by omega
  have hr : ¬ (l.size + (p.length : Int) > l.maxSize) := by omega
  unfold Logger.Write
  simp only [hp, hr, if_false, hh, fileWrite, hf]

/-- On a closed logger, once `openExistingOrNew` has succeeded, `Write`
continues as a `Write` on the logger it opened. -/
theorem Write_closed_eq (l : Logger) (os : OS) (e : Env) (p : List Byte) (hfile : l.file = none)
    (hp : (p.length : Int) ≤ l.maxSize) (ho : (l.openExistingOrNew os e p.length).2.2 = none) :
    l.Write os e p =
      (l.openExistingOrNew os e p.length).1.Write (l.openExistingOrNew os e p.length).2.1 e p := by
  have hs := openExistingOrNew_summary l os e p.length hfile
  rcases hoe : l.openExistingOrNew os e p.length with ⟨l1, os1, err⟩
  rw [hoe] at hs ho
  simp only at hs ho
  subst ho
  obtain ⟨hF, hM, hok, -⟩ := hs
  obtain ⟨h1, ⟨f, h2, h3⟩, h4⟩ := hok rfl
  have hbig : ¬ ((p.length : Int) > l.maxSize) := not_lt.mpr hp
  have hbig1 : ¬ ((p.length : Int) > l1.maxSize) := by rw [maxSize_congr hM]; exact hbig
  unfold Logger.Write
  simp only [hbig, hbig1, if_false, hfile, hoe, h1]

/-- On an open logger without room for `p`, once `rotate` has succeeded,
`Write` continues as a `Write` on the rotated logger. -/
theorem Write_rotate_eq (l : Logger) (os : OS) (e : Env) (p : List Byte) (hopen : l.file ≠ none)
    (hp : (p.length : Int) ≤ l.maxSize) (hgt : l.maxSize < l.size + (p.length : Int))
    (ho : (l.rotate os e).2.2 = none) :
    l.Write os e p = (l.rotate os e).1.Write (l.rotate os e).2.1 e p := by
  have hs := rotate_summary l os e
  rcases hoe : l.rotate os e with ⟨l1, os1, err⟩
  rw [hoe] at hs ho
  simp only at hs ho
  subst ho
  obtain ⟨hF, hM, hok, -⟩ := hs
  obtain ⟨h1, h2, -⟩ := hok rfl
  obtain ⟨h0, hfile⟩ := Option.ne_none_iff_exists'.mp hopen
  have hbig : ¬ ((p.length : Int) > l.maxSize) := not_lt.mpr hp
  have hbig1 : ¬ ((p.length : Int) > l1.maxSize) := by rw [maxSize_congr hM]; exact hbig
  have hr1 : ¬ (l1.size + (p.length : Int) > l1.maxSize) := by
    rw [maxSize_congr hM, h2]; simpa using hp
  have hgt2 : l.size + (p.length : Int) > l.maxSize := hgt
  unfold Logger.Write
  simp only [hbig, hbig1, if_false, hfile, hoe, h1, hgt2, if_true, hr1]

theorem openExistingOrNew_succeeds (l : Logger) (os : OS) (e : Env) (n : Nat)
    (hfile : l.file = none)
    (hm : (mkdirAll os (Dir l.Filename) e.mkdirErr).isSome = true)
    (ho : e.openNewErr = false) (hd : os.denied l.Filename = false)
    (hr : os.files l.Filename ≠ none →
      e.renameErr = false ∧ os.denied (backupName l.Filename e.now) = false) :
    (l.openExistingOrNew os e n).2.2 = none := by
  unfold Logger.openExistingOrNew
  cases hs : stat os l.Filename with
  | notExist => exact openNew_succeeds l os e hm ho hd hr
  | other =>
    exfalso
    simp only [stat, hd, Bool.false_eq_true, if_false] at hs
    cases hf : os.files l.Filename <;> simp [hf] at hs
  | ok size mode =>
    simp only []
    split
    · exact rotate_succeeds l os e (fun h => absurd hfile h) hm ho hd hr
    · cases hop : openAppend os l.Filename e.openAppendErr with
      | none => exact openNew_succeeds l os e hm ho hd hr
      | some file => rfl

/-- A `Write` on a closed logger succeeds when `p` fits the capacity, the log
path is accessible, its directory can be made, and neither the opening of the
new file, nor the rename of an existing log file, nor the underlying write
fails. -/
theorem Write_closed_succeeds (l : Logger) (os : OS) (e : Env) (p : List Byte)
    (hfile : l.file = none) (hp : (p.length : Int) ≤ l.maxSize)
    (hm : (mkdirAll os (Dir l.Filename) e.mkdirErr).isSome = true)
    (ho : e.openNewErr = false) (hd : os.denied l.Filename = false)
    (hr : os.files l.Filename ≠ none →
      e.renameErr = false ∧ os.denied (backupName l.Filename e.now) = false)
    (hw : e.writeCut = none) :
    (l.Write os e p).1.2 = none := by
  have hopen := openExistingOrNew_succeeds l os e p.length hfile hm ho hd hr
  rw [Write_closed_eq l os e p hfile hp hopen]
  obtain ⟨hF, hM, hok, -⟩ := openExistingOrNew_summary l os e p.length hfile
  obtain ⟨h1, ⟨f, h2, h3⟩, h4⟩ := hok hopen
  rw [← hF] at h1 h2
  have hsz : 0 ≤ (l.openExistingOrNew os e p.length).1.size := by rw [← h3]; positivity
  have hroom : (l.openExistingOrNew os e p.length).1.size + (p.length : Int)
      ≤ (l.openExistingOrNew os e p.length).1.maxSize := by
    rw [maxSize_congr hM]
    rcases h4 with h4 | h4
    · rw [h4]; simpa using hp
    · exact le_of_lt h4
  rw [Write_open_room _ _ e p f h1 h2 hsz hroom]
  simp [hw]

/-- A `Write` on an open, consistent logger without room for `p` succeeds when
`p` fits the capacity, the log path is accessible, its directory can be made,
and neither the close, nor the rename, nor the opening of the new file, nor the
underlying write fails. -/
theorem Write_rotate_succeeds (l : Logger) (os : OS) (e : Env) (p : List Byte)
    (hopen : l.file ≠ none) (hp : (p.length : Int) ≤ l.maxSize)
    (hgt : l.maxSize < l.size + (p.length : Int))
    (hc : e.closeErr = false)
    (hm : (mkdirAll os (Dir l.Filename) e.mkdirErr).isSome = true)
    (ho : e.openNewErr = false) (hd : os.denied l.Filename = false)
    (hr : os.files l.Filename ≠ none →
      e.renameErr = false ∧ os.denied (backupName l.Filename e.now) = false)
    (hw : e.writeCut = none) :
    (l.Write os e p).1.2 = none := by
  have hrot := rotate_succeeds l os e (fun _ => hc) hm ho hd hr
  rw [Write_rotate_eq l os e p hopen hp hgt hrot]
  obtain ⟨hF, hM, hok, -⟩ := rotate_summary l os e
  obtain ⟨h1, h2, f, h3, h4⟩ := hok hrot
  rw [← hF] at h1 h3
  have hroom : (l.rotate os e).1.size + (p.length : Int) ≤ (l.rotate os e).1.maxSize := by
    rw [maxSize_congr hM, h2]; simpa using hp
  rw [Write_open_room _ _ e p f h1 h3 (by rw [h2]) hroom]
  simp [hw]

/-- A successful `Write` on a closed logger over a log file that `p` would fill
to the capacity or beyond: the file was rotated. -/
theorem Write_closed_full (l : Logger) (os : OS) (e : Env) (p : List Byte)
    (f : File) (hfile : l.file = none) (hf : os.files l.Filename = some f)
    (hge : l.maxSize ≤ (f.content.length : Int) + p.length)
    (hok : (l.Write os e p).1.2 = none) :
    (l.Write os e p).1 = (p.length, none) ∧
    (l.Write os e p).2.1.file = some ⟨l.Filename⟩ ∧
    (l.Write os e p).2.1.size = p.length ∧
    (l.Write os e p).2.2.files l.Filename = some ⟨p, f.mode⟩ ∧
    backupName l.Filename e.now ≠ l.Filename ∧
    (l.Write os e p).2.2.files (backupName l.Filename e.now) = some f ∧
    (l.Write os e p).2.2.spawned = os.spawned ++ [backupName l.Filename e.now] ∧
    (∀ x, x ≠ l.Filename → x ≠ backupName l.Filename e.now →
      (l.Write os e p).2.2.files x = os.files x) := by
  obtain ⟨hn, -, -, -, hcases⟩ := Write_ok_closed l os e p hfile hok
  have hne := backupName_ne l.Filename e.now
  rcases hcases with ⟨hnone, -, -⟩ | ⟨f1, hf1, hlt, -, -, -⟩ | ⟨f1, hf1, -, hrt, hl⟩
  · rw [hf] at hnone; simp at hnone
  · rw [hf] at hf1
    obtain rfl := Option.some.inj hf1
    exact absurd hge (not_le.mpr hlt)
  · rw [hf] at hf1
    obtain rfl := Option.some.inj hf1
    obtain ⟨-, r2, -, -, r5⟩ := hrt
    refine ⟨Prod.ext hn hok, by rw [hl], by rw [hl], by simp [r5], hne, by simp [r5, hne], r2,
      fun x hx hb => by simp [r5, hx, hb]⟩

/-- When a `Write` on an open logger without room for `p` returns a nil error,
its `rotate` returned a nil error. -/
theorem Write_rotate_ok (l : Logger) (os : OS) (e : Env) (p : List Byte) (hopen : l.file ≠ none)
    (hgt : l.maxSize < l.size + (p.length : Int)) (hok : (l.Write os e p).1.2 = none) :
    (l.rotate os e).2.2 = none := by
  obtain ⟨h0, hfile⟩ := Option.ne_none_iff_exists'.mp hopen
  by_cases hbig : (p.length : Int) > l.maxSize
  · simp [Logger.Write, hbig] at hok
  · have hgt2 : l.size + (p.length : Int) > l.maxSize := hgt
    rcases hrot : l.rotate os e with ⟨l3, os3, err⟩
    cases err with
    | none => rfl
    | some er =>
      unfold Logger.Write at hok
      simp only [hbig, if_false, hfile, hgt2, if_true, hrot] at hok
      simp at hok

/-- A successful `Write` on an open, consistent logger without room for `p`:
the steps of the rotation and the state afterwards. -/
theorem Write_open_full (l : Logger) (os : OS) (e : Env) (p : List Byte)
    (hopen : l.file ≠ none) (hc : Consistent l os)
    (hgt : l.maxSize < l.size + (p.length : Int))
    (hok : (l.Write os e p).1.2 = none) :
    ∃ f, os.files l.Filename = some f ∧ (f.content.length : Int) = l.size ∧
      e.closeErr = false ∧ (l.rotate os e).2.2 = none ∧
      (l.rotate os e).1.file = some ⟨l.Filename⟩ ∧ (l.rotate os e).1.size = 0 ∧
      (l.rotate os e).2.1.files l.Filename = some ⟨[], f.mode⟩ ∧
      (l.rotate os e).2.1.files (backupName l.Filename e.now) = some f ∧
      (l.rotate os e).2.1.spawned = os.spawned ++ [backupName l.Filename e.now] ∧
      (l.Write os e p).1 = (p.length, none) ∧
      (l.Write os e p).2.1.file = some ⟨l.Filename⟩ ∧
      (l.Write os e p).2.1.size = p.length ∧
      (l.Write os e p).2.2.files l.Filename = some ⟨p, f.mode⟩ ∧
      (l.Write os e p).2.2.files (backupName l.Filename e.now) = some f ∧
      (l.Write os e p).2.2.spawned = os.spawned ++ [backupName l.Filename e.now] ∧
      backupName l.Filename e.now ≠ l.Filename ∧
      Dir (backupName l.Filename e.now) = Dir l.Filename := by
  obtain ⟨hn, -, -, f, hf, hsz, hcases⟩ := Write_ok_open l os e p hopen hc hok
  have hne := backupName_ne l.Filename e.now
  have hrot := Write_rotate_ok l os e p hopen hgt hok
  obtain ⟨hl1, hsh⟩ := rotate_ok_shape l os e hrot
  have hrt0 : Rotated os (l.rotate os e).2.1 l.Filename (backupName l.Filename e.now) f [] := by
    rcases hsh with hcr | ⟨f0, hrt⟩
    · rw [hcr.1] at hf; simp at hf
    · have : f0 = f := by
        have := hrt.1
        rw [hf] at this
        exact (Option.some.inj this).symm
      rw [← this]; exact hrt
  rcases hcases with ⟨hle, -, -⟩ | ⟨-, hrt, hl⟩
  · exact absurd hgt (not_lt.mpr hle)
  · obtain ⟨-, r2, -, -, r5⟩ := hrt
    obtain ⟨-, q2, -, -, q5⟩ := hrt0
    exact ⟨f, hf, hsz, rotate_ok_close l os e hrot hopen, hrot, by rw [hl1], by rw [hl1],
      by simp [q5], by simp [q5, hne], q2, Prod.ext hn hok, by rw [hl], by rw [hl],
      by simp [r5], by simp [r5, hne], r2, hne, Dir_backupName _ _⟩

/-- The logger of the rotation test after 1048576 one-byte writes: open on
`d/test.log` with a tracked size equal to the capacity. -/
theorem fullLogger_consistent :
    Consistent ⟨"d/test.log", 1, some ⟨"d/test.log"⟩, 1048576⟩
      (oneFileOS "d/test.log" (fillFile 1048576 1)) := by
  intro h hh
  simp only [Option.some.injEq] at hh
  subst hh
  refine ⟨rfl, fillFile 1048576 1, by simp [oneFileOS], ?_⟩
  rw [fillFile_length]
  rfl

/-- Whatever `openNew` returns, a backup it made holds the file that was at the
log path. -/
theorem openNew_backedUp (l : Logger) (os : OS) (e : Env) :
    BackedUp os (l.openNew os e).2.1 l.Filename (backupName l.Filename e.now) := by
  have hne := backupName_ne l.Filename e.now
  unfold Logger.openNew
  cases hm : mkdirAll os (Dir l.Filename) e.mkdirErr with
  | none => exact Or.inl rfl
  | some os1 =>
    obtain ⟨-, hm2, -, hm4, -⟩ := mkdirAll_some hm
    simp only []
    have tail : ∀ mode, BackedUp os
        (match openCreateTrunc os1 l.Filename mode e.openNewErr with
          | none => (l, os1, some Error.openNew)
          | some (file, os3) =>
            (({ l with file := some file, size := 0 } : Logger), os3, (none : Option Error))).2.1
        l.Filename (backupName l.Filename e.now) := by
      intro mode
      cases ho : openCreateTrunc os1 l.Filename mode e.openNewErr with
      | none => exact Or.inl hm4
      | some r =>
        obtain ⟨hd, os3⟩ := r
        obtain ⟨-, -, -, -, ho5, -, -⟩ := openCreateTrunc_some_full ho
        exact Or.inl (ho5.trans hm4)
    cases hs : stat os1 l.Filename with
    | ok sz mode =>
      simp only []
      cases hr : rename os1 l.Filename (backupName l.Filename e.now) e.renameErr with
      | none => exact Or.inl hm4
      | some os2 =>
        obtain ⟨-, -, ⟨f, hr3, hr4⟩, -, hr6, -⟩ := rename_some hr
        rw [hm2] at hr3
        have hb2 : os2.files (backupName l.Filename e.now) = some f := by
          rw [hr4, setAt_same]
        simp only []
        cases ho : openCreateTrunc { os2 with spawned := os2.spawned ++ [backupName l.Filename e.now] }
            l.Filename mode e.openNewErr with
        | none => exact Or.inr ⟨f, hr3, by simp [hr6, hm4], hb2⟩
        | some r =>
          obtain ⟨hd, os3⟩ := r
          obtain ⟨-, -, -, ho4, ho5, -, -⟩ := openCreateTrunc_some_full ho
          refine Or.inr ⟨f, hr3, by simp [ho5, hr6, hm4], ?_⟩
          simp only [ho4, setAt_other _ _ _ _ hne]
          exact hb2
    | notExist => exact tail _
    | other => exact tail _

theorem rotate_backedUp (l : Logger) (os : OS) (e : Env) :
    BackedUp os (l.rotate os e).2.1 l.Filename (backupName l.Filename e.now) := by
  unfold Logger.rotate Logger.close
  cases hf : l.file with
  | none => exact openNew_backedUp l os e
  | some h0 =>
    by_cases hc : e.closeErr = true
    · simp only [hc, if_true]; exact Or.inl rfl
    · simp only [hc, Bool.false_eq_true, if_false]
      exact openNew_backedUp { l with file := none } os e

theorem openExistingOrNew_backedUp (l : Logger) (os : OS) (e : Env) (n : Nat) :
    BackedUp os (l.openExistingOrNew os e n).2.1 l.Filename (backupName l.Filename e.now) := by
  unfold Logger.openExistingOrNew
  cases hs : stat os l.Filename with
  | notExist => exact openNew_backedUp l os e
  | other => exact Or.inl rfl
  | ok size mode =>
    simp only []
    split
    · exact rotate_backedUp l os e
    · cases ho : openAppend os l.Filename e.openAppendErr with
      | none => exact openNew_backedUp l os e
      | some file => exact Or.inl rfl

/-- The underlying write keeps what is known about a backup, provided it does
not go to the backup itself. -/
theorem write_step_backedUp (os : OS) (name backup : String) (e : Env) (p : List Byte)
    (l3 : Logger) (os3 : OS)
    (hh : os3.spawned = os.spawned ∨ l3.file = some ⟨name⟩) (hne : backup ≠ name)
    (hb : BackedUp os os3 name backup) :
    BackedUp os
      (match l3.file with
        | none => ((0, some Error.write), l3, os3)
        | some file =>
          match fileWrite os3 file p e.writeCut with
          | (n, err, os4) => ((n, err), { l3 with size := l3.size + (n : Int) }, os4)).2.2
      name backup := by
  cases hfile : l3.file with
  | none => exact hb
  | some file =>
    simp only [fileWrite]
    cases hf : os3.files file.name with
    | none => exact hb
    | some f3 =>
      simp only []
      rcases hh with hh | hh
      · exact Or.inl hh
      · rw [hfile] at hh
        obtain rfl := Option.some.inj hh
        rcases hb with hb | ⟨f, h1, h2, h3⟩
        · exact Or.inl hb
        · exact Or.inr ⟨f, h1, h2, by simp only [setAt_other _ _ _ _ hne]; exact h3⟩

/-- Whatever a call of `Write` does and returns, if it started a goroutine then
the file that was at the log path is now at the backup name. -/
theorem Write_backedUp (l : Logger) (os : OS) (e : Env) (p : List Byte) :
    BackedUp os (l.Write os e p).2.2 l.Filename (backupName l.Filename e.now) := by
  have hne := backupName_ne l.Filename e.now
  unfold Logger.Write
  simp only []
  split
  · exact Or.inl rfl
  · rename_i hbig
    have hp : (p.length : Int) ≤ l.maxSize := not_lt.mp hbig
    have body : ∀ (l2 : Logger) (os2 : OS), l2.Filename = l.Filename →
        (os2.spawned = os.spawned ∨ l2.file = some ⟨l.Filename⟩) →
        BackedUp os os2 l.Filename (backupName l.Filename e.now) →
        (l2.size + (p.length : Int) > l2.maxSize → os2 = os) →
        BackedUp os
          (if l2.size + (p.length : Int) > l2.maxSize then
            match l2.rotate os2 e with
            | (l3, os3, some err) => ((0, some err), l3, os3)
            | (l3, os3, none) =>
              match l3.file with
              | none => ((0, some Error.write), l3, os3)
              | some file =>
                match fileWrite os3 file p e.writeCut with
                | (n, err, os4) => ((n, err), { l3 with size := l3.size + (n : Int) }, os4)
          else
            match l2.file with
            | none => ((0, some Error.write), l2, os2)
            | some file =>
              match fileWrite os2 file p e.writeCut with
              | (n, err, os4) => ((n, err), { l2 with size := l2.size + (n : Int) }, os4)).2.2
          l.Filename (backupName l.Filename e.now) := by
      intro l2 os2 hF hh hb hsame
      split
      · rename_i hgt
        obtain rfl := hsame hgt
        have hr := rotate_backedUp l2 os2 e
        have hs := rotate_summary l2 os2 e
        rw [hF] at hr hs
        have hr2 : BackedUp os2 (l2.rotate os2 e).2.1 l.Filename (backupName l.Filename e.now) := hr
        rcases hrot : l2.rotate os2 e with ⟨l3, os3, err⟩
        rw [hrot] at hr2 hs
        simp only at hr2 hs
        cases err with
        | some er => exact hr2
        | none =>
          exact write_step_backedUp os2 l.Filename _ e p l3 os3 (Or.inr (hs.2.2.1 rfl).1) hne hr2
      · exact write_step_backedUp os l.Filename _ e p l2 os2 hh hne hb
    cases hfile : l.file with
    | none =>
      simp only []
      have hb := openExistingOrNew_backedUp l os e p.length
      have hs := openExistingOrNew_summary l os e p.length hfile
      rcases hoe : l.openExistingOrNew os e p.length with ⟨l1, os1, err⟩
      rw [hoe] at hb hs
      simp only at hb hs
      cases err with
      | some er => exact hb
      | none =>
        obtain ⟨h1, -, h3⟩ := hs.2.2.1 rfl
        have hroom : ¬ (l1.size + (p.length : Int) > l1.maxSize) := by
          rw [maxSize_congr hs.2.1]
          rcases h3 with h3 | h3
          · rw [h3]; simpa using hp
          · exact not_lt.mpr (le_of_lt h3)
        exact body l1 os1 hs.1 (Or.inr h1) hb (fun h => absurd h hroom)
    | some h0 =>
      simp only []
      have := body l os rfl (Or.inl rfl) (Or.inl rfl) (fun _ => rfl)
      rw [hfile] at this
      exact this

/-- Writes that fit in the remaining room of an open logger, none of them cut
short: each returns its length, the bytes are appended in order, and nothing
else changes. -/
theorem writeAll_room (steps : List (Env × List Byte)) :
    ∀ (l : Logger) (os : OS) (f : File), l.file = some ⟨l.Filename⟩ →
      os.files l.Filename = some f → (f.content.length : Int) = l.size →
      (∀ s ∈ steps, s.1.writeCut = none) →
      l.size + (totalLength steps : Int) ≤ l.maxSize →
      (writeAll l os steps).1 = steps.map (fun s => (s.2.length, none)) ∧
      (writeAll l os steps).2.1 = { l with size := l.size + (totalLength steps : Int) } ∧
      (writeAll l os steps).2.2.files l.Filename = some ⟨f.content ++ allBytes steps, f.mode⟩ ∧
      (∀ x, x ≠ l.Filename → (writeAll l os steps).2.2.files x = os.files x) ∧
      (writeAll l os steps).2.2.spawned = os.spawned ∧
      (writeAll l os steps).2.2.dirs = os.dirs ∧
      (writeAll l os steps).2.2.denied = os.denied := by
  induction steps with
  | nil =>
    intro l os f _ hf _ _ _
    simp [writeAll, totalLength, allBytes, hf]
  | cons s rest ih =>
    intro l os f hh hf hsz hq hroom
    obtain ⟨e, p⟩ := s
    have hcut : e.writeCut = none := hq (e, p) (by simp)
    have htot : (totalLength ((e, p) :: rest) : Int) = (p.length : Int) + totalLength rest := by
      simp [totalLength]
    have hnn : (0 : Int) ≤ (totalLength rest : Int) := by positivity
    have hsz0 : 0 ≤ l.size := by rw [← hsz]; positivity
    have hw := Write_open_room l os e p f hh hf hsz0 (by rw [htot] at hroom; omega)
    simp only [hcut, List.take_length] at hw
    have ih' := ih (l.Write os e p).2.1 (l.Write os e p).2.2 ⟨f.content ++ p, f.mode⟩
      (by rw [hw]; exact hh) (by rw [hw]; simp [setAt])
      (by rw [hw]; simp [hsz]) (fun s hs => hq s (by simp [hs]))
      (by
        rw [hw]
        have hm : ({ l with size := l.size + (p.length : Int) } : Logger).maxSize = l.maxSize :=
          maxSize_congr rfl
        simp only [hm]
        rw [htot] at hroom
        omega)
    have hF : (l.Write os e p).2.1.Filename = l.Filename := by rw [hw]
    rw [hF] at ih'
    obtain ⟨i1, i2, i3, i4, i5, i6, i7⟩ := ih'
    simp only [writeAll]
    refine ⟨?_, ?_, ?_, ?_, ?_, ?_, ?_⟩
    · rw [i1, hw]; simp
    · rw [i2, hw, htot]; simp; ring
    · rw [i3]; simp [allBytes]
    · intro x hx
      rw [i4 x hx, hw]
      simp [setAt, hx]
    · rw [i5, hw]
    · rw [i6, hw]
    · rw [i7, hw]

theorem mem_ancestors_self (n : Nat) (d : String) : d ∈ ancestors n d := by
  cases n <;> simp [ancestors]

/-- A run of writes on a fresh logger over a missing log file, all fitting
together within the capacity and none hitting a failing system call. -/
theorem writeAll_fresh (filename : String) (maxSize : Int) (os : OS) (e1 : Env) (p1 : List Byte)
    (rest : List (Env × List Byte))
    (hnofile : os.files filename = none) (hacc : os.denied filename = false)
    (hdir : (mkdirAll os (Dir filename) false).isSome = true)
    (hquiet : ∀ s ∈ (e1, p1) :: rest,
      s.1.mkdirErr = false ∧ s.1.openNewErr = false ∧ s.1.writeCut = none)
    (hfit : (totalLength ((e1, p1) :: rest) : Int) ≤ (New filename maxSize).maxSize) :
    (writeAll (New filename maxSize) os ((e1, p1) :: rest)).1
      = ((e1, p1) :: rest).map (fun s => (s.2.length, none)) ∧
    Created os ((New filename maxSize).Write os e1 p1).2.2 filename p1 ∧
    (writeAll (New filename maxSize) os ((e1, p1) :: rest)).2.1
      = (⟨filename, maxSize, some ⟨filename⟩, (totalLength ((e1, p1) :: rest) : Int)⟩ : Logger) ∧
    (writeAll (New filename maxSize) os ((e1, p1) :: rest)).2.2.files filename
      = some ⟨allBytes ((e1, p1) :: rest), 0o644⟩ ∧
    (∀ x, x ≠ filename →
      (writeAll (New filename maxSize) os ((e1, p1) :: rest)).2.2.files x = os.files x) ∧
    (writeAll (New filename maxSize) os ((e1, p1) :: rest)).2.2.spawned = os.spawned := by
  obtain ⟨q1, q2, q3⟩ := hquiet (e1, p1) (by simp)
  simp only at q1 q2 q3
  have htot : (totalLength ((e1, p1) :: rest) : Int) = (p1.length : Int) + totalLength rest := by
    simp [totalLength]
  have hnn : (0 : Int) ≤ (totalLength rest : Int) := by positivity
  have hp : (p1.length : Int) ≤ (New filename maxSize).maxSize := by omega
  have hok : ((New filename maxSize).Write os e1 p1).1.2 = none :=
    Write_closed_succeeds (New filename maxSize) os e1 p1 rfl hp (by rw [q1]; exact hdir) q2 hacc
      (fun h => absurd hnofile h) q3
  obtain ⟨hn, -, -, -, hcases⟩ := Write_ok_closed (New filename maxSize) os e1 p1 rfl hok
  have hF : (New filename maxSize).Filename = filename := rfl
  rw [hF] at hcases
  have hcr : Created os ((New filename maxSize).Write os e1 p1).2.2 filename p1 ∧
      ((New filename maxSize).Write os e1 p1).2.1
        = (⟨filename, maxSize, some ⟨filename⟩, (p1.length : Int)⟩ : Logger) := by
    rcases hcases with ⟨-, hc, hl⟩ | ⟨f, hf, -⟩ | ⟨f, hf, -⟩
    · exact ⟨hc, hl⟩
    · rw [hnofile] at hf; simp at hf
    · rw [hnofile] at hf; simp at hf
  obtain ⟨hc, hl⟩ := hcr
  have hf1 : ((New filename maxSize).Write os e1 p1).2.2.files filename = some ⟨p1, 0o644⟩ := by
    simp [hc.2.2.2.2 filename]
  have hroom := writeAll_room rest ((New filename maxSize).Write os e1 p1).2.1
    ((New filename maxSize).Write os e1 p1).2.2 ⟨p1, 0o644⟩ (by rw [hl]) (by rw [hl]; exact hf1)
    (by rw [hl]) (fun s hs => (hquiet s (by simp [hs])).2.2)
    (by
      rw [hl]
      have hm : (⟨filename, maxSize, some ⟨filename⟩, (p1.length : Int)⟩ : Logger).maxSize = (New filename maxSize).maxSize :=
        maxSize_congr rfl
      simp only [hm]
      omega)
  have hF1 : ((New filename maxSize).Write os e1 p1).2.1.Filename = filename := by rw [hl]
  rw [hF1] at hroom
  obtain ⟨r1, r2, r3, r4, r5, -, -⟩ := hroom
  simp only [writeAll]
  refine ⟨?_, hc, ?_, ?_, ?_, ?_⟩
  · rw [r1]
    simp only [List.map_cons, List.cons.injEq, and_true]
    exact Prod.ext hn hok
  · rw [r2, hl, htot]
  · rw [r3]; simp [allBytes]
  · intro x hx
    rw [r4 x hx]
    simp [hc.2.2.2.2 x, hx]
  · rw [r5]; exact hc.2.1

theorem totalLength_singletons (bs : List (Env × Byte)) :
    totalLength (bs.map (fun s => (s.1, [s.2]))) = bs.length := by
  induction bs with
  | nil => rfl
  | cons b bs ih =>
    simp only [totalLength, List.map_cons, List.sum_cons, List.length_cons, List.length_nil] at ih ⊢
    omega

theorem allBytes_singletons (bs : List (Env × Byte)) :
    allBytes (bs.map (fun s => (s.1, [s.2]))) = bs.map (fun s => s.2) := by
  induction bs with
  | nil => rfl
  | cons b bs ih =>
    simp only [allBytes, List.map_cons, List.flatten_cons] at ih ⊢
    rw [ih]
    rfl

/-- Writing one byte at a time to a fresh logger, as many bytes as the
capacity: every write returns `(1, nil)`, no goroutine is started, and the log
file, of exactly the capacity, is the only file of its directory. -/
theorem writeAll_bytewise (filename : String) (maxSize : Int) (os : OS) (bs : List (Env × Byte))
    (hempty : ∀ x, Dir x = Dir filename → os.files x = none)
    (hacc : os.denied filename = false)
    (hdir : (mkdirAll os (Dir filename) false).isSome = true)
    (hquiet : ∀ s ∈ bs, s.1.mkdirErr = false ∧ s.1.openNewErr = false ∧ s.1.writeCut = none)
    (hne : bs ≠ []) (hlen : (bs.length : Int) = (New filename maxSize).maxSize) :
    (writeAll (New filename maxSize) os (bs.map (fun s => (s.1, [s.2])))).1
      = bs.map (fun _ => (1, none)) ∧
    (writeAll (New filename maxSize) os (bs.map (fun s => (s.1, [s.2])))).2.2.files filename
      = some ⟨bs.map (fun s => s.2), 0o644⟩ ∧
    (((bs.map (fun s => s.2)).length : Nat) : Int) = (New filename maxSize).maxSize ∧
    (writeAll (New filename maxSize) os (bs.map (fun s => (s.1, [s.2])))).2.2.spawned
      = os.spawned ∧
    (∀ x, Dir x = Dir filename →
      ((writeAll (New filename maxSize) os (bs.map (fun s => (s.1, [s.2])))).2.2.files x ≠ none
        ↔ x = filename)) := by
  cases bs with
  | nil => exact absurd rfl hne
  | cons b rest =>
    have hmap : (b :: rest).map (fun s => (s.1, [s.2]))
        = (b.1, [b.2]) :: rest.map (fun s => (s.1, [s.2])) := rfl
    have hq : ∀ s ∈ (b.1, [b.2]) :: rest.map (fun s => (s.1, [s.2])),
        s.1.mkdirErr = false ∧ s.1.openNewErr = false ∧ s.1.writeCut = none := by
      intro s hs
      rw [← hmap] at hs
      obtain ⟨s0, hs0, rfl⟩ := List.mem_map.mp hs
      exact hquiet s0 hs0
    have hfit : (totalLength ((b.1, [b.2]) :: rest.map (fun s => (s.1, [s.2]))) : Int)
        ≤ (New filename maxSize).maxSize := by
      rw [← hmap, totalLength_singletons, hlen]
    obtain ⟨h1, -, -, h4, h5, h6⟩ := writeAll_fresh filename maxSize os b.1 [b.2]
      (rest.map (fun s => (s.1, [s.2]))) (hempty filename rfl) hacc hdir hq hfit
    rw [← hmap] at h1 h4 h5 h6
    refine ⟨?_, ?_, by simpa using hlen, h6, fun x hx => ?_⟩
    · rw [h1, List.map_map]; rfl
    · rw [h4, allBytes_singletons]
    · by_cases hxf : x = filename
      · rw [hxf, h4]
        simp
      · rw [h5 x hxf, hempty x hx]
        simp [hxf]

theorem megabyteOfOnes_length : megabyteOfOnes.length = 1048576 :=
  List.length_replicate _ _

theorem megabyteOfOnes_quiet : ∀ s ∈ megabyteOfOnes,
    s.1.mkdirErr = false ∧ s.1.openNewErr = false ∧ s.1.writeCut = none := by
  intro s hs
  rw [List.eq_of_mem_replicate hs]
  exact ⟨rfl, rfl, rfl⟩

theorem megabyteOfOnes_ne_nil : megabyteOfOnes ≠ [] := by
  intro h
  have := megabyteOfOnes_length
  rw [h] at this
  exact absurd this (by decide)

/-- A write longer than the capacity is rejected before anything is touched. -/
theorem Write_too_large (l : Logger) (os : OS) (e : Env) (p : List Byte)
    (h : l.maxSize < (p.length : Int)) :
    l.Write os e p = ((0, some (Error.tooLarge p.length l.maxSize)), l, os) := by
  unfold Logger.Write
  simp only [gt_iff_lt, h, if_true]

/-- On a closed logger, when `openExistingOrNew` fails, `Write` returns its
error with a count of zero and leaves the logger and the operating system as
`openExistingOrNew` left them. -/
theorem Write_closed_fail (l : Logger) (os : OS) (e : Env) (p : List Byte) (hfile : l.file = none)
    (hp : (p.length : Int) ≤ l.maxSize) (err : Error)
    (ho : (l.openExistingOrNew os e p.length).2.2 = some err) :
    l.Write os e p = ((0, some err), (l.openExistingOrNew os e p.length).1,
      (l.openExistingOrNew os e p.length).2.1) := by
  have hbig : ¬ ((p.length : Int) > l.maxSize) := not_lt.mpr hp
  rcases hoe : l.openExistingOrNew os e p.length with ⟨l1, os1, er⟩
  rw [hoe] at ho
  simp only at ho
  subst ho
  unfold Logger.Write
  simp only [hbig, if_false, hfile, hoe]

/-- On an open logger without room for `p`, when `rotate` fails, `Write`
returns its error with a count of zero and leaves the logger and the operating
system as `rotate` left them. -/
theorem Write_rotate_fail (l : Logger) (os : OS) (e : Env) (p : List Byte) (hopen : l.file ≠ none)
    (hp : (p.length : Int) ≤ l.maxSize) (hgt : l.maxSize < l.size + (p.length : Int))
    (err : Error) (ho : (l.rotate os e).2.2 = some err) :
    l.Write os e p = ((0, some err), (l.rotate os e).1, (l.rotate os e).2.1) := by
  have hbig : ¬ ((p.length : Int) > l.maxSize) := not_lt.mpr hp
  have hgt2 : l.size + (p.length : Int) > l.maxSize := hgt
  obtain ⟨h0, hfile⟩ := Option.ne_none_iff_exists'.mp hopen
  rcases hoe : l.rotate os e with ⟨l1, os1, er⟩
  rw [hoe] at ho
  simp only at ho
  subst ho
  unfold Logger.Write
  simp only [hbig, if_false, hfile, hgt2, if_true, hoe]

/-- The count the underlying write returns under the environment `e`. -/
theorem written_le (e : Env) (p : List Byte) :
    (match e.writeCut with
      | none => p.length
      | some k => min k p.length) ≤ p.length := by
  cases e.writeCut with
  | none => exact le_refl _
  | some k => exact Nat.min_le_right _ _

/-- The size accounting of one call of `Write` on a consistent logger: if the
logger is open after the call, its tracked size is the size it had (same
handle), or 0 (new or rotated file), or the size of the resumed file, plus the
count the call returns. -/
theorem Write_size (l : Logger) (os : OS) (e : Env) (p : List Byte) (hc : Consistent l os)
    (hafter : (l.Write os e p).2.1.file ≠ none) :
    (l.Write os e p).1.1 ≤ p.length ∧
    ((l.file ≠ none ∧ (l.Write os e p).2.1.size = l.size + ((l.Write os e p).1.1 : Int)) ∨
     (l.Write os e p).2.1.size = 0 + ((l.Write os e p).1.1 : Int) ∨
     (l.file = none ∧ ∃ f, os.files l.Filename = some f ∧
        (l.Write os e p).2.1.size = (f.content.length : Int) + ((l.Write os e p).1.1 : Int))) := by
  by_cases hbig : (p.length : Int) > l.maxSize
  · have hw : l.Write os e p = ((0, some (Error.tooLarge p.length l.maxSize)), l, os) :=
      Write_too_large l os e p hbig
    rw [hw] at hafter ⊢
    exact ⟨Nat.zero_le _, Or.inl ⟨hafter, by simp⟩⟩
  · have hp : (p.length : Int) ≤ l.maxSize := not_lt.mp hbig
    cases hfile : l.file with
    | none =>
      cases hoe : (l.openExistingOrNew os e p.length).2.2 with
      | some err =>
        have hw := Write_closed_fail l os e p hfile hp err hoe
        have hs := (openExistingOrNew_summary l os e p.length hfile).2.2.2 (by rw [hoe]; simp)
        rw [hw] at hafter
        exact absurd hs hafter
      | none =>
        have hw := Write_closed_eq l os e p hfile hp hoe
        obtain ⟨hF, hM, hok, -⟩ := openExistingOrNew_summary l os e p.length hfile
        obtain ⟨h1, ⟨f1, h2, h3⟩, h4⟩ := hok hoe
        rw [← hF] at h1 h2
        have hroom : (l.openExistingOrNew os e p.length).1.size + (p.length : Int)
            ≤ (l.openExistingOrNew os e p.length).1.maxSize := by
          rw [maxSize_congr hM]
          rcases h4 with h4 | h4
          · rw [h4]; simpa using hp
          · exact le_of_lt h4
        have hw2 := Write_open_room _ _ e p f1 h1 h2 (by rw [← h3]; positivity) hroom
        rw [hw, hw2]
        refine ⟨written_le e p, ?_⟩
        obtain ⟨-, hcases⟩ := openExistingOrNew_ok l os e p.length hoe
        rcases hcases with ⟨-, -, hl⟩ | ⟨f, hf, -, -, -, hl⟩ | ⟨f, hf, -, -, hl⟩
        · exact Or.inr (Or.inl (by simp only; rw [hl]))
        · exact Or.inr (Or.inr ⟨rfl, f, hf, by simp only; rw [hl]⟩)
        · exact Or.inr (Or.inl (by simp only; rw [hl]))
    | some h0 =>
      have hopen : l.file ≠ none := by rw [hfile]; simp
      obtain ⟨hn, f, hf, hsz⟩ := hc h0 hfile
      have hh : l.file = some ⟨l.Filename⟩ := by rw [hfile, ← hn]
      by_cases hroom : l.size + (p.length : Int) ≤ l.maxSize
      · have hw := Write_open_room l os e p f hh hf (by rw [← hsz]; positivity) hroom
        rw [hw]
        exact ⟨written_le e p, Or.inl ⟨by simp, rfl⟩⟩
      · have hgt : l.maxSize < l.size + (p.length : Int) := not_le.mp hroom
        cases hrot : (l.rotate os e).2.2 with
        | some err =>
          have hw := Write_rotate_fail l os e p hopen hp hgt err hrot
          have hs := (rotate_summary l os e).2.2.2 (by rw [hrot]; simp)
          rw [hw] at hafter
          exact absurd hs hafter
        | none =>
          have hw := Write_rotate_eq l os e p hopen hp hgt hrot
          obtain ⟨hF, hM, hok, -⟩ := rotate_summary l os e
          obtain ⟨h1, h2, f1, h3, h4⟩ := hok hrot
          rw [← hF] at h1 h3
          have hroom2 : (l.rotate os e).1.size + (p.length : Int) ≤ (l.rotate os e).1.maxSize := by
            rw [maxSize_congr hM, h2]; simpa using hp
          have hw2 := Write_open_room _ _ e p f1 h1 h3 (by rw [h2]) hroom2
          rw [hw, hw2]
          exact ⟨written_le e p, Or.inr (Or.inl (by simp only; rw [h2]))⟩

theorem Write_spawned_grows (l : Logger) (os : OS) (e : Env) (p : List Byte) :
    ∃ t, (l.Write os e p).2.2.spawned = os.spawned ++ t := by
  rcases Write_backedUp l os e p with h | ⟨f, -, h, -⟩
  · exact ⟨[], by simp [h]⟩
  · exact ⟨_, h⟩

theorem writeAll_spawned_grows (steps : List (Env × List Byte)) :
    ∀ (l : Logger) (os : OS), ∃ t, (writeAll l os steps).2.2.spawned = os.spawned ++ t := by
  induction steps with
  | nil => intro l os; exact ⟨[], by simp [writeAll]⟩
  | cons s rest ih =>
    intro l os
    obtain ⟨e, p⟩ := s
    obtain ⟨t1, h1⟩ := Write_spawned_grows l os e p
    obtain ⟨t2, h2⟩ := ih (l.Write os e p).2.1 (l.Write os e p).2.2
    exact ⟨t1 ++ t2, by simp only [writeAll]; rw [h2, h1, List.append_assoc]⟩

theorem sum_sizeAt_congr (os os1 : OS) (L : List String)
    (h : ∀ x ∈ L, os1.files x = os.files x) :
    (L.map (sizeAt os1)).sum = (L.map (sizeAt os)).sum := by
  induction L with
  | nil => rfl
  | cons a L ih =>
    simp only [List.map_cons, List.sum_cons]
    rw [ih (fun x hx => h x (by simp [hx]))]
    unfold sizeAt
    rw [h a (by simp)]

/-- One successful write adds exactly `len(p)` to the bytes held by the active
file and the backups, unless it reuses the name of an earlier backup. -/
theorem bytes_step (l : Logger) (os : OS) (e : Env) (p : List Byte) (hc : Consistent l os)
    (hok : (l.Write os e p).1.2 = none)
    (hF : ∀ b ∈ os.spawned, b ≠ l.Filename)
    (hnew : backupName l.Filename e.now ∉ os.spawned ∨
      (l.Write os e p).2.2.spawned = os.spawned) :
    sizeAt (l.Write os e p).2.2 l.Filename
        + (((l.Write os e p).2.2.spawned).map (sizeAt (l.Write os e p).2.2)).sum
      = sizeAt os l.Filename + ((os.spawned).map (sizeAt os)).sum + p.length := by
  have hne := backupName_ne l.Filename e.now
  have happ : ∀ f, Appended os (l.Write os e p).2.2 l.Filename f p →
      sizeAt (l.Write os e p).2.2 l.Filename
        + (((l.Write os e p).2.2.spawned).map (sizeAt (l.Write os e p).2.2)).sum
      = sizeAt os l.Filename + ((os.spawned).map (sizeAt os)).sum + p.length := by
    rintro f ⟨a1, a2, -, -, a5⟩
    rw [a2, sum_sizeAt_congr os _ os.spawned (fun x hx => by rw [a5 x]; simp [hF x hx])]
    simp only [sizeAt, a5 l.Filename, a1, if_true, List.length_append]
    omega
  have hrot : ∀ f, Rotated os (l.Write os e p).2.2 l.Filename (backupName l.Filename e.now) f p →
      sizeAt (l.Write os e p).2.2 l.Filename
        + (((l.Write os e p).2.2.spawned).map (sizeAt (l.Write os e p).2.2)).sum
      = sizeAt os l.Filename + ((os.spawned).map (sizeAt os)).sum + p.length := by
    rintro f ⟨r1, r2, -, -, r5⟩
    have hnew1 : backupName l.Filename e.now ∉ os.spawned := by
      rcases hnew with h | h
      · exact h
      · rw [r2] at h
        have := congrArg List.length h
        simp at this
    have hold : ∀ x ∈ os.spawned, (l.Write os e p).2.2.files x = os.files x := by
      intro x hx
      have hxb : x ≠ backupName l.Filename e.now := fun h => hnew1 (h ▸ hx)
      rw [r5 x]; simp [hF x hx, hxb]
    rw [r2, List.map_append, List.sum_append, sum_sizeAt_congr os _ os.spawned hold]
    simp only [List.map_cons, List.map_nil, List.sum_cons, List.sum_nil, sizeAt, r5 l.Filename,
      r5 (backupName l.Filename e.now), hne, r1, if_true, if_false]
    omega
  cases hfile : l.file with
  | none =>
    obtain ⟨-, -, -, -, hcases⟩ := Write_ok_closed l os e p hfile hok
    rcases hcases with ⟨hnone, ⟨-, c2, -, -, c5⟩, -⟩ | ⟨f, -, -, -, hap, -⟩ | ⟨f, -, -, hrt, -⟩
    · rw [c2, sum_sizeAt_congr os _ os.spawned (fun x hx => by rw [c5 x]; simp [hF x hx])]
      simp only [sizeAt, c5 l.Filename, hnone, if_true]
      omega
    · exact happ f hap
    · exact hrot f hrt
  | some h0 =>
    obtain ⟨-, -, -, f, -, -, hcases⟩ :=
      Write_ok_open l os e p (by rw [hfile]; simp) hc hok
    rcases hcases with ⟨-, hap, -⟩ | ⟨-, hrt, -⟩
    · exact happ f hap
    · exact hrot f hrt

/-- Over a run of successful writes in which no backup name is used twice, the
bytes on disk grow by exactly the bytes submitted. -/
theorem writeAll_bytes (steps : List (Env × List Byte)) :
    ∀ (l : Logger) (os : OS), Consistent l os →
      (∀ b ∈ os.spawned, b ≠ l.Filename) →
      (∀ r ∈ (writeAll l os steps).1, r.2 = none) →
      (writeAll l os steps).2.2.spawned.Nodup →
      sizeAt (writeAll l os steps).2.2 l.Filename
          + (((writeAll l os steps).2.2.spawned).map (sizeAt (writeAll l os steps).2.2)).sum
        = sizeAt os l.Filename + ((os.spawned).map (sizeAt os)).sum + totalLength steps := by
  induction steps with
  | nil => intro l os _ _ _ _; simp [writeAll, totalLength]
  | cons s rest ih =>
    intro l os hc hF hok hnd
    obtain ⟨e, p⟩ := s
    simp only [writeAll] at hok hnd ⊢
    have hok1 : (l.Write os e p).1.2 = none := hok _ (by simp)
    obtain ⟨pF, -, pC, -⟩ := Write_post l os e p hc
    obtain ⟨t2, h2⟩ := writeAll_spawned_grows rest (l.Write os e p).2.1 (l.Write os e p).2.2
    have hnd1 : (l.Write os e p).2.2.spawned.Nodup := by
      rw [h2] at hnd
      exact (List.nodup_append.mp hnd).1
    have hb := Write_backedUp l os e p
    have hnew : backupName l.Filename e.now ∉ os.spawned ∨
        (l.Write os e p).2.2.spawned = os.spawned := by
      rcases hb with hb | ⟨f, -, hb, -⟩
      · exact Or.inr hb
      · left
        rw [hb] at hnd1
        intro hmem
        have := (List.nodup_append.mp hnd1).2.2
        exact this hmem (by simp) 
    have hF1 : ∀ b ∈ (l.Write os e p).2.2.spawned, b ≠ (l.Write os e p).2.1.Filename := by
      rw [pF]
      rcases hb with hb | ⟨f, -, hb, -⟩
      · rw [hb]; exact hF
      · rw [hb]
        intro b hbm
        rcases List.mem_append.mp hbm with h | h
        · exact hF b h
        · simp only [List.mem_singleton] at h
          rw [h]; exact backupName_ne _ _
    have hrec := ih (l.Write os e p).2.1 (l.Write os e p).2.2 pC hF1
      (fun r hr => hok r (by simp [hr])) hnd
    rw [pF] at hrec
    rw [hrec]
    rw [bytes_step l os e p hc hok1 hF hnew]
    simp [totalLength]
    omega

theorem mkdirAll_isSome (os : OS) (d : String) (hd : os.denied d = false)
    (hnf : ∀ a ∈ ancestors d.length d, os.files a = none) :
    (mkdirAll os d false).isSome = true := by
  unfold mkdirAll
  have : (ancestors d.length d).any (fun a => (os.files a).isSome) = false := by
    rw [List.any_eq_false]
    intro a ha
    simp [hnf a ha]
  simp [hd, this]

/-- A `Write` on a logger open on its log file without room for `p`, when no
system call fails: the file is rotated and `p` starts the new file. -/
theorem Write_open_rotates (l : Logger) (os : OS) (e : Env) (p : List Byte) (f : File)
    (hh : l.file = some ⟨l.Filename⟩) (hf : os.files l.Filename = some f)
    (hsz : (f.content.length : Int) = l.size)
    (hp : (p.length : Int) ≤ l.maxSize) (hgt : l.maxSize < l.size + (p.length : Int))
    (hc : e.closeErr = false)
    (hm : (mkdirAll os (Dir l.Filename) e.mkdirErr).isSome = true)
    (ho : e.openNewErr = false) (hd : os.denied l.Filename = false)
    (hr : e.renameErr = false) (hdb : os.denied (backupName l.Filename e.now) = false)
    (hw : e.writeCut = none) :
    (l.Write os e p).1 = (p.length, none) ∧
    (l.Write os e p).2.1 = { l with file := some ⟨l.Filename⟩, size := p.length } ∧
    Rotated os (l.Write os e p).2.2 l.Filename (backupName l.Filename e.now) f p := by
  have hopen : l.file ≠ none := by rw [hh]; simp
  have hcons : Consistent l os := by
    intro h0 h0h
    rw [hh] at h0h
    obtain rfl := Option.some.inj h0h
    exact ⟨rfl, f, hf, hsz⟩
  have hok := Write_rotate_succeeds l os e p hopen hp hgt hc hm ho hd (fun _ => ⟨hr, hdb⟩) hw
  obtain ⟨hn, -, -, f1, hf1, -, hcases⟩ := Write_ok_open l os e p hopen hcons hok
  rw [hf] at hf1
  obtain rfl := Option.some.inj hf1
  rcases hcases with ⟨hle, -, -⟩ | ⟨-, hrt, hl⟩
  · exact absurd hgt (not_lt.mpr hle)
  · exact ⟨Prod.ext hn hok, hl, hrt⟩

theorem demoBytes_length : demoBytes.length = 1048576 := List.length_replicate _ _

theorem demo_backupName :
    backupName "d/test.log" quietEnv.now = "d/test-2020-01-02T03:04:05Z.log" := by decide

theorem demo_mkdir (os : OS) (h : OnlyLogs os) :
    (mkdirAll os (Dir "d/test.log") quietEnv.mkdirErr).isSome = true := by
  have hd : Dir "d/test.log" = "d" := by decide
  have ha : ancestors "d".length "d" = ["d", "."] := by decide
  rw [hd]
  refine mkdirAll_isSome os "d" (h.1 _) ?_
  rw [ha]
  intro a hmem
  simp only [List.mem_cons, List.mem_singleton, List.not_mem_nil, or_false] at hmem
  rcases hmem with rfl | rfl
  · exact h.2 _ (by decide) (by decide)
  · exact h.2 _ (by decide) (by decide)

/-- The first write of the rotation examples creates `d/test.log`. -/
theorem demo_create (p : List Byte) (hp : p.length ≤ 1048576) :
    ((New "d/test.log" 1).Write emptyOS quietEnv p).1 = (p.length, none) ∧
    ((New "d/test.log" 1).Write emptyOS quietEnv p).2.1
      = (⟨"d/test.log", 1, some ⟨"d/test.log"⟩, (p.length : Int)⟩ : Logger) ∧
    ((New "d/test.log" 1).Write emptyOS quietEnv p).2.2.files "d/test.log"
      = some ⟨p, 0o644⟩ ∧
    ((New "d/test.log" 1).Write emptyOS quietEnv p).2.2.spawned = [] ∧
    OnlyLogs ((New "d/test.log" 1).Write emptyOS quietEnv p).2.2 := by
  have hcap : (New "d/test.log" 1).maxSize = 1048576 := by decide
  have hpi : (p.length : Int) ≤ (New "d/test.log" 1).maxSize := by
    rw [hcap]; exact_mod_cast hp
  have hok := Write_closed_succeeds (New "d/test.log" 1) emptyOS quietEnv p rfl hpi
    (by decide) rfl rfl (fun h => absurd rfl h) rfl
  obtain ⟨hn, -, -, -, hcases⟩ := Write_ok_closed (New "d/test.log" 1) emptyOS quietEnv p rfl hok
  rcases hcases with ⟨-, ⟨-, c2, c3, -, c5⟩, hl⟩ | ⟨f, hf, -⟩ | ⟨f, hf, -⟩
  · refine ⟨Prod.ext hn hok, hl, ?_, c2, ?_, ?_⟩
    · have := c5 "d/test.log"
      simpa [New] using this
    · intro x; rw [c3]; rfl
    · intro x hx _
      have hF0 : (New "d/test.log" 1).Filename = "d/test.log" := rfl
      rw [c5 x, hF0, if_neg hx]
      rfl
  · exact absurd hf (by simp [emptyOS, New])
  · exact absurd hf (by simp [emptyOS, New])

/-- A later write of the rotation examples that does not fit: `d/test.log` is
rotated to the backup name of `demoTime`, replacing what was there. -/
theorem demo_rotate (l : Logger) (os : OS) (f : File) (n : Nat) (p : List Byte)
    (hl : l = ⟨"d/test.log", 1, some ⟨"d/test.log"⟩, (n : Int)⟩) (hos : OnlyLogs os)
    (hf : os.files "d/test.log" = some f) (hn : f.content.length = n) (hp : p.length ≤ 1048576)
    (hgt : 1048576 < n + p.length) :
    (l.Write os quietEnv p).1 = (p.length, none) ∧
    (l.Write os quietEnv p).2.1
      = (⟨"d/test.log", 1, some ⟨"d/test.log"⟩, (p.length : Int)⟩ : Logger) ∧
    (l.Write os quietEnv p).2.2.files "d/test.log" = some ⟨p, f.mode⟩ ∧
    (l.Write os quietEnv p).2.2.files "d/test-2020-01-02T03:04:05Z.log" = some f ∧
    (l.Write os quietEnv p).2.2.spawned = os.spawned ++ ["d/test-2020-01-02T03:04:05Z.log"] ∧
    OnlyLogs (l.Write os quietEnv p).2.2 := by
  subst hl
  have hcap : (⟨"d/test.log", 1, some ⟨"d/test.log"⟩, (n : Int)⟩ : Logger).maxSize
      = 1048576 := by
    show wrap64 ((1 : Int) * (1024 * 1024)) = 1048576
    decide
  have h := Write_open_rotates ⟨"d/test.log", 1, some ⟨"d/test.log"⟩, (n : Int)⟩
    os quietEnv p f rfl hf (by rw [hn]) (by rw [hcap]; exact_mod_cast hp)
    (by rw [hcap]; simp only; exact_mod_cast hgt) rfl (demo_mkdir os hos) rfl (hos.1 _) rfl
    (hos.1 _) rfl
  obtain ⟨h1, h2, -, r2, r3, -, r5⟩ := h
  simp only [demo_backupName] at r2 r5
  refine ⟨h1, h2, ?_, ?_, r2, ?_, ?_⟩
  · simp [r5]
  · rw [r5]; simp
  · intro x; rw [r3]; exact hos.1 x
  · intro x hx hb
    rw [r5]; simp only [hx, hb, if_false]
    exact hos.2 x hx hb

theorem writeAll_results_nil (l : Logger) (os : OS) : (writeAll l os []).1 = [] := rfl

theorem writeAll_results_cons (l : Logger) (os : OS) (e : Env) (p : List Byte)
    (rest : List (Env × List Byte)) :
    (writeAll l os ((e, p) :: rest)).1
      = (l.Write os e p).1 :: (writeAll (l.Write os e p).2.1 (l.Write os e p).2.2 rest).1 := rfl

theorem writeAll_os_nil (l : Logger) (os : OS) : (writeAll l os []).2.2 = os := rfl

theorem writeAll_os_cons (l : Logger) (os : OS) (e : Env) (p : List Byte)
    (rest : List (Env × List Byte)) :
    (writeAll l os ((e, p) :: rest)).2.2
      = (writeAll (l.Write os e p).2.1 (l.Write os e p).2.2 rest).2.2 := rfl

/-- The run of the counterexample to C3: three writes by `New "d/test.log" 1`
within one second, the second and the third each forcing a rotation. -/
theorem demo_three_writes :
    (writeAll (New "d/test.log" 1) emptyOS
      [(quietEnv, demoBytes), (quietEnv, demoBytes), (quietEnv, [3])]).1
      = [(1048576, none), (1048576, none), (1, none)] ∧
    (writeAll (New "d/test.log" 1) emptyOS
      [(quietEnv, demoBytes), (quietEnv, demoBytes), (quietEnv, [3])]).2.2.files "d/test.log"
      = some ⟨[3], 0o644⟩ ∧
    (writeAll (New "d/test.log" 1) emptyOS
      [(quietEnv, demoBytes), (quietEnv, demoBytes), (quietEnv, [3])]).2.2.files
        "d/test-2020-01-02T03:04:05Z.log" = some ⟨demoBytes, 0o644⟩ ∧
    (writeAll (New "d/test.log" 1) emptyOS
      [(quietEnv, demoBytes), (quietEnv, demoBytes), (quietEnv, [3])]).2.2.spawned
      = ["d/test-2020-01-02T03:04:05Z.log", "d/test-2020-01-02T03:04:05Z.log"] ∧
    OnlyLogs (writeAll (New "d/test.log" 1) emptyOS
      [(quietEnv, demoBytes), (quietEnv, demoBytes), (quietEnv, [3])]).2.2 := by
  have hlen := demoBytes_length
  have hm : (⟨demoBytes, 0o644⟩ : File).mode = 0o644 := rfl
  obtain ⟨a1, a2, a3, a4, a5⟩ := demo_create demoBytes (by rw [hlen])
  obtain ⟨b1, b2, b3, b4, b5, b6⟩ :=
    demo_rotate ((New "d/test.log" 1).Write emptyOS quietEnv demoBytes).2.1
      ((New "d/test.log" 1).Write emptyOS quietEnv demoBytes).2.2 ⟨demoBytes, 0o644⟩
      demoBytes.length demoBytes a2 a5 a3 rfl (by rw [hlen]) (by rw [hlen]; decide)
  obtain ⟨c1, c2, c3, c4, c5, c6⟩ :=
    demo_rotate
      (((New "d/test.log" 1).Write emptyOS quietEnv demoBytes).2.1.Write
        ((New "d/test.log" 1).Write emptyOS quietEnv demoBytes).2.2 quietEnv demoBytes).2.1
      (((New "d/test.log" 1).Write emptyOS quietEnv demoBytes).2.1.Write
        ((New "d/test.log" 1).Write emptyOS quietEnv demoBytes).2.2 quietEnv demoBytes).2.2
      ⟨demoBytes, 0o644⟩ demoBytes.length [3] b2 b6 b3 rfl (by decide) (by rw [hlen]; decide)
  rw [hm] at c3
  rw [writeAll_results_cons, writeAll_results_cons, writeAll_results_cons, writeAll_results_nil,
    writeAll_os_cons, writeAll_os_cons, writeAll_os_cons, writeAll_os_nil]
  refine ⟨?_, c3, c4, ?_, c6⟩
  · rw [a1, b1, c1, hlen]; rfl
  · rw [c5, b5, a4]; rfl

/-- The run of the witness of C3: two writes by `New "d/test.log" 1`, the
second forcing a rotation. -/
theorem demo_two_writes :
    (writeAll (New "d/test.log" 1) emptyOS [(quietEnv, demoBytes), (quietEnv, [2])]).1
      = [(1048576, none), (1, none)] ∧
    (writeAll (New "d/test.log" 1) emptyOS [(quietEnv, demoBytes), (quietEnv, [2])]).2.2.spawned
      = ["d/test-2020-01-02T03:04:05Z.log"] := by
  have hlen := demoBytes_length
  obtain ⟨a1, a2, a3, a4, a5⟩ := demo_create demoBytes (by rw [hlen])
  obtain ⟨b1, -, -, -, b5, -⟩ :=
    demo_rotate ((New "d/test.log" 1).Write emptyOS quietEnv demoBytes).2.1
      ((New "d/test.log" 1).Write emptyOS quietEnv demoBytes).2.2 ⟨demoBytes, 0o644⟩
      demoBytes.length [2] a2 a5 a3 rfl (by decide) (by rw [hlen]; decide)
  rw [writeAll_results_cons, writeAll_results_cons, writeAll_results_nil,
    writeAll_os_cons, writeAll_os_cons, writeAll_os_nil]
  refine ⟨?_, ?_⟩
  · rw [a1, b1, hlen]; rfl
  · rw [b5, a4]; rfl

/-- The bytes on disk when the same backup name was used for both goroutines
started: the backup is counted once. -/
theorem diskBytes_collided (os : OS) (name backup : String) (f g : File)
    (hf : os.files name = some f) (hg : os.files backup = some g)
    (hs : os.spawned = [backup, backup]) (a b : Nat) (hfl : f.content.length = a)
    (hgl : g.content.length = b) :
    diskBytes os name = a + b := by
  unfold diskBytes
  rw [hs]
  have hd : ([backup, backup] : List String).dedup = [backup] := by simp
  rw [hd]
  simp [sizeAt, hf, hg, hfl, hgl]

/-- The errors of `openNew` are those of its own steps. -/
theorem openNew_error (l : Logger) (os : OS) (e : Env) :
    (l.openNew os e).2.2 = none ∨ (l.openNew os e).2.2 = some Error.mkdir ∨
      (l.openNew os e).2.2 = some Error.rename ∨ (l.openNew os e).2.2 = some Error.openNew := by
  unfold Logger.openNew
  split
  · simp
  · simp only []
    split
    · split
      · simp
      · split <;> simp
    · split <;> simp

/-- The errors of `rotate` are those of `close` and of `openNew`. -/
theorem rotate_error (l : Logger) (os : OS) (e : Env) :
    (l.rotate os e).2.2 = none ∨ (l.rotate os e).2.2 = some Error.close ∨
      (l.rotate os e).2.2 = some Error.mkdir ∨
      (l.rotate os e).2.2 = some Error.rename ∨ (l.rotate os e).2.2 = some Error.openNew := by
  unfold Logger.rotate Logger.close
  cases l.file with
  | none =>
    simp only []
    rcases openNew_error l os e with h | h | h | h <;> simp [h]
  | some h0 =>
    simp only []
    cases e.closeErr with
    | true => simp
    | false =>
      simp only [Bool.false_eq_true, if_false]
      rcases openNew_error { l with file := none } os e with h | h | h | h <;> simp [h]

/-- The errors of `openExistingOrNew`: that of `os.Stat`, and those of `rotate`
and `openNew`. -/
theorem openExistingOrNew_error (l : Logger) (os : OS) (e : Env) (n : Nat) :
    (l.openExistingOrNew os e n).2.2 ≠ some Error.write ∧
    ∀ a b, (l.openExistingOrNew os e n).2.2 ≠ some (Error.tooLarge a b) := by
  unfold Logger.openExistingOrNew
  split
  · rcases openNew_error l os e with h | h | h | h <;> simp [h]
  · simp
  · split
    · rcases rotate_error l os e with h | h | h | h | h <;> simp [h]
    · split
      · rcases openNew_error l os e with h | h | h | h <;> simp [h]
      · simp

/-- The count and the error of the underlying write. -/
theorem write_step_result (e : Env) (p : List Byte) (l3 : Logger) (os3 : OS) :
    (match l3.file with
      | none => ((0, some Error.write), l3, os3)
      | some file =>
        match fileWrite os3 file p e.writeCut with
        | (n, err, os4) => ((n, err), { l3 with size := l3.size + (n : Int) }, os4)).1
      = (0, some Error.write) ∨
    (match l3.file with
      | none => ((0, some Error.write), l3, os3)
      | some file =>
        match fileWrite os3 file p e.writeCut with
        | (n, err, os4) => ((n, err), { l3 with size := l3.size + (n : Int) }, os4)).1
      = (match e.writeCut with
          | none => p.length
          | some k => min k p.length,
         if e.writeCut.isSome then some Error.write else none) := by
  cases l3.file with
  | none => left; rfl
  | some file =>
    simp only [fileWrite]
    cases os3.files file.name with
    | none => left; rfl
    | some f => right; rfl

/-- The count and the error of lines 50 to 61 of `Write`. -/
theorem write_body_result (e : Env) (p : List Byte) (l2 : Logger) (os2 : OS) (r : Nat × Option Error)
    (hr : r = (if l2.size + (p.length : Int) > l2.maxSize then
        match l2.rotate os2 e with
        | (l3, os3, some err) => ((0, some err), l3, os3)
        | (l3, os3, none) =>
          match l3.file with
          | none => ((0, some Error.write), l3, os3)
          | some file =>
            match fileWrite os3 file p e.writeCut with
            | (n, err, os4) => ((n, err), { l3 with size := l3.size + (n : Int) }, os4)
      else
        match l2.file with
        | none => ((0, some Error.write), l2, os2)
        | some file =>
          match fileWrite os2 file p e.writeCut with
          | (n, err, os4) => ((n, err), { l2 with size := l2.size + (n : Int) }, os4)).1) :
    (∃ err, err ≠ Error.write ∧ r = (0, some err)) ∨ r = (0, some Error.write) ∨
    r = (match e.writeCut with
          | none => p.length
          | some k => min k p.length,
         if e.writeCut.isSome then some Error.write else none) := by
  subst hr
  split
  · have hre := rotate_error l2 os2 e
    rcases hrot : l2.rotate os2 e with ⟨l3, os3, err⟩
    rw [hrot] at hre
    cases err with
    | some er =>
      left
      refine ⟨er, ?_, rfl⟩
      rintro rfl
      simp at hre
    | none => exact Or.inr (write_step_result e p l3 os3)
  · exact Or.inr (write_step_result e p l2 os2)

/-- What a call of `Write` returns: zero and the error of a step before the
underlying write, or what the underlying write returns. -/
theorem Write_result_cases (l : Logger) (os : OS) (e : Env) (p : List Byte) :
    (∃ err, err ≠ Error.write ∧ (l.Write os e p).1 = (0, some err)) ∨
    (l.Write os e p).1 = (0, some Error.write) ∨
    (l.Write os e p).1 = (match e.writeCut with
          | none => p.length
          | some k => min k p.length,
         if e.writeCut.isSome then some Error.write else none) := by
  unfold Logger.Write
  simp only []
  split
  · left
    exact ⟨_, by simp, rfl⟩
  · cases hfile : l.file with
    | none =>
      simp only []
      have hoe := openExistingOrNew_error l os e p.length
      rcases ho : l.openExistingOrNew os e p.length with ⟨l1, os1, err⟩
      rw [ho] at hoe
      cases err with
      | some er =>
        left
        exact ⟨er, fun h => hoe.1 (by rw [h]), rfl⟩
      | none => exact write_body_result e p l1 os1 _ rfl
    | some h0 =>
      simp only []
      have := write_body_result e p l os _ rfl
      rw [hfile] at this
      exact this

/-- On a logger without a handle `rotate` is `openNew`. -/
theorem rotate_closed (l : Logger) (os : OS) (e : Env) (hfile : l.file = none) :
    l.rotate os e = l.openNew os e := by
  unfold Logger.rotate Logger.close
  rw [hfile]

/-- On an open logger whose handle closes without error, `rotate` is `openNew`
on the logger without its handle. -/
theorem rotate_open (l : Logger) (os : OS) (e : Env) (hopen : l.file ≠ none)
    (hc : e.closeErr = false) :
    l.rotate os e = ({ l with file := none } : Logger).openNew os e := by
  obtain ⟨h0, hfile⟩ := Option.ne_none_iff_exists'.mp hopen
  unfold Logger.rotate Logger.close
  rw [hfile]
  simp [hc]

/-- The cases in which `openExistingOrNew` hands over to `openNew`: the log file
does not exist, or it is full and gets rotated, or it cannot be opened in
append mode. -/
theorem openExistingOrNew_eq_openNew (l : Logger) (os : OS) (e : Env) (n : Nat)
    (hfile : l.file = none)
    (h : stat os l.Filename = StatResult.notExist ∨
      ∃ size mode, stat os l.Filename = StatResult.ok size mode ∧
        (size + (n : Int) ≥ l.maxSize ∨ openAppend os l.Filename e.openAppendErr = none)) :
    l.openExistingOrNew os e n = l.openNew os e := by
  unfold Logger.openExistingOrNew
  rcases h with h | ⟨size, mode, h, h2⟩
  · rw [h]
  · rw [h]
    simp only []
    by_cases hge : size + (n : Int) ≥ l.maxSize
    · rw [if_pos hge]
      exact rotate_closed l os e hfile
    · rw [if_neg hge]
      rcases h2 with h2 | h2
      · exact absurd h2 hge
      · rw [h2]

theorem openNew_mkdir_fail (l : Logger) (os : OS) (e : Env)
    (h : mkdirAll os (Dir l.Filename) e.mkdirErr = none) :
    l.openNew os e = (l, os, some Error.mkdir) := by
  unfold Logger.openNew
  rw [h]

theorem openNew_rename_fail (l : Logger) (os os1 : OS) (e : Env) (size : Int) (mode : Nat)
    (h : mkdirAll os (Dir l.Filename) e.mkdirErr = some os1)
    (hs : stat os1 l.Filename = StatResult.ok size mode)
    (hr : rename os1 l.Filename (backupName l.Filename e.now) e.renameErr = none) :
    l.openNew os e = (l, os1, some Error.rename) := by
  unfold Logger.openNew
  rw [h]
  simp only [hs, hr]

theorem openNew_open_fail_renamed (l : Logger) (os os1 os2 : OS) (e : Env) (size : Int)
    (mode : Nat) (h : mkdirAll os (Dir l.Filename) e.mkdirErr = some os1)
    (hs : stat os1 l.Filename = StatResult.ok size mode)
    (hr : rename os1 l.Filename (backupName l.Filename e.now) e.renameErr = some os2)
    (ho : openCreateTrunc { os2 with spawned := os2.spawned ++ [backupName l.Filename e.now] }
      l.Filename mode e.openNewErr = none) :
    l.openNew os e
      = (l, { os2 with spawned := os2.spawned ++ [backupName l.Filename e.now] },
          some Error.openNew) := by
  unfold Logger.openNew
  rw [h]
  simp only [hs, hr, ho]

theorem openNew_open_fail_fresh (l : Logger) (os os1 : OS) (e : Env)
    (h : mkdirAll os (Dir l.Filename) e.mkdirErr = some os1)
    (hs : ∀ size mode, stat os1 l.Filename ≠ StatResult.ok size mode)
    (ho : openCreateTrunc os1 l.Filename 0o644 e.openNewErr = none) :
    l.openNew os e = (l, os1, some Error.openNew) := by
  unfold Logger.openNew
  rw [h]
  cases hst : stat os1 l.Filename with
  | ok sz md => exact absurd hst (hs sz md)
  | notExist => simp only [ho]
  | other => simp only [ho]

/-- A call of `Write` that gets to `openNew` and finds it failing returns zero
and the error of `openNew`, and leaves the state `openNew` left. -/
theorem Write_openNew_fail (l : Logger) (os os1 : OS) (e : Env) (p : List Byte) (err : Error)
    (hp : (p.length : Int) ≤ l.maxSize)
    (hreach : (l.file = none ∧ (stat os l.Filename = StatResult.notExist ∨
        ∃ size mode, stat os l.Filename = StatResult.ok size mode ∧
          (size + (p.length : Int) ≥ l.maxSize ∨
            openAppend os l.Filename e.openAppendErr = none))) ∨
      (l.file ≠ none ∧ l.maxSize < l.size + (p.length : Int) ∧ e.closeErr = false))
    (h : ({ l with file := none } : Logger).openNew os e
      = ({ l with file := none }, os1, some err)) :
    l.Write os e p = ((0, some err), { l with file := none }, os1) := by
  rcases hreach with ⟨hfile, hst⟩ | ⟨hopen, hgt, hc⟩
  · have hl : ({ l with file := none } : Logger) = l := by
      cases l
      simp only at hfile
      subst hfile
      rfl
    rw [hl] at h ⊢
    have ho := openExistingOrNew_eq_openNew l os e p.length hfile hst
    rw [h] at ho
    rw [Write_closed_fail l os e p hfile hp err (by rw [ho]), ho]
  · have hr := rotate_open l os e hopen hc
    rw [h] at hr
    rw [Write_rotate_fail l os e p hopen hp hgt err (by rw [hr]), hr]

/-- The state a failing `openNew` leaves when there is a log file: the logger is
unchanged, and either no file has changed, or the new file could not be opened
after the log file had been moved to the backup name. -/
theorem openNew_fail_state (l : Logger) (os : OS) (e : Env) (f : File) (err : Error)
    (hf : os.files l.Filename = some f) (h : (l.openNew os e).2.2 = some err) :
    (l.openNew os e).1 = l ∧
    (((l.openNew os e).2.1.files = os.files ∧ (l.openNew os e).2.1.spawned = os.spawned) ∨
      (err = Error.openNew ∧
        (l.openNew os e).2.1.files
          = setAt (setAt os.files l.Filename none) (backupName l.Filename e.now) (some f) ∧
        (l.openNew os e).2.1.spawned = os.spawned ++ [backupName l.Filename e.now])) := by
  refine ⟨(openNew_summary l os e).2.2.2 (by rw [h]; simp), ?_⟩
  cases hm : mkdirAll os (Dir l.Filename) e.mkdirErr with
  | none =>
    rw [openNew_mkdir_fail l os e hm]
    exact Or.inl ⟨rfl, rfl⟩
  | some os1 =>
    obtain ⟨-, m1, m2, m3, -⟩ := mkdirAll_some hm
    have fresh : (∀ size mode, stat os1 l.Filename ≠ StatResult.ok size mode) →
        ((l.openNew os e).2.1.files = os.files ∧ (l.openNew os e).2.1.spawned = os.spawned) := by
      intro hs
      cases ho : openCreateTrunc os1 l.Filename 0o644 e.openNewErr with
      | none =>
        rw [openNew_open_fail_fresh l os os1 e hm hs ho]
        exact ⟨m1, m3⟩
      | some r =>
        exfalso
        have : (l.openNew os e).2.2 = none := by
          unfold Logger.openNew
          rw [hm]
          cases hst : stat os1 l.Filename with
          | ok sz md => exact absurd hst (hs sz md)
          | notExist => simp only [ho]
          | other => simp only [ho]
        rw [this] at h
        exact absurd h (by simp)
    cases hs : stat os1 l.Filename with
    | ok sz md =>
      cases hr : rename os1 l.Filename (backupName l.Filename e.now) e.renameErr with
      | none =>
        rw [openNew_rename_fail l os os1 e sz md hm hs hr]
        exact Or.inl ⟨m1, m3⟩
      | some os2 =>
        obtain ⟨-, -, ⟨f1, r1, r2⟩, -, r3, -⟩ := rename_some hr
        rw [m1, hf] at r1
        obtain rfl := Option.some.inj r1
        cases ho : openCreateTrunc
            { os2 with spawned := os2.spawned ++ [backupName l.Filename e.now] }
            l.Filename md e.openNewErr with
        | none =>
          have hfull := openNew_open_fail_renamed l os os1 os2 e sz md hm hs hr ho
          rw [hfull] at h ⊢
          simp only [Option.some.injEq] at h
          exact Or.inr ⟨h.symm, by rw [r2, m1], by simp only [r3, m3]⟩
        | some r =>
          exfalso
          have : (l.openNew os e).2.2 = none := by
            unfold Logger.openNew
            rw [hm]
            simp only [hs, hr, ho]
          rw [this] at h
          exact absurd h (by simp)
    | notExist => exact Or.inl (fresh (by rw [hs]; simp))
    | other => exact Or.inl (fresh (by rw [hs]; simp))

/-- The state a failing `rotate` of an open logger leaves: the handle is gone,
and either no file has changed, or the new file could not be opened after the
log file had been moved to the backup name. -/
theorem rotate_fail_state (l : Logger) (os : OS) (e : Env) (f : File) (err : Error)
    (hopen : l.file ≠ none) (hf : os.files l.Filename = some f)
    (h : (l.rotate os e).2.2 = some err) :
    (l.rotate os e).1 = { l with file := none } ∧
    (((l.rotate os e).2.1.files = os.files ∧ (l.rotate os e).2.1.spawned = os.spawned) ∨
      (err = Error.openNew ∧
        (l.rotate os e).2.1.files
          = setAt (setAt os.files l.Filename none) (backupName l.Filename e.now) (some f) ∧
        (l.rotate os e).2.1.spawned = os.spawned ++ [backupName l.Filename e.now])) := by
  obtain ⟨h0, hfile⟩ := Option.ne_none_iff_exists'.mp hopen
  cases hc : e.closeErr with
  | true =>
    have hr : l.rotate os e = ({ l with file := none }, os, some Error.close) := by
      unfold Logger.rotate Logger.close
      rw [hfile]
      simp [hc]
    rw [hr]
    exact ⟨rfl, Or.inl ⟨rfl, rfl⟩⟩
  | false =>
    rw [rotate_open l os e hopen hc] at h ⊢
    exact openNew_fail_state ({ l with file := none } : Logger) os e f err hf h

/-- A call of `Write` that has to rotate and returns an error other than that
of the underlying write found `rotate` failing. -/
theorem Write_rotation_failed (l : Logger) (os : OS) (e : Env) (p : List Byte) (err : Error)
    (hopen : l.file ≠ none) (hp : (p.length : Int) ≤ l.maxSize)
    (hgt : l.maxSize < l.size + (p.length : Int))
    (herr : (l.Write os e p).1.2 = some err) (hne : err ≠ Error.write) :
    (l.rotate os e).2.2 = some err := by
  cases hrot : (l.rotate os e).2.2 with
  | some er =>
    rw [Write_rotate_fail l os e p hopen hp hgt er hrot] at herr
    exact herr
  | none =>
    exfalso
    obtain ⟨hF, hM, hok, -⟩ := rotate_summary l os e
    obtain ⟨h1, h2, f1, h3, -⟩ := hok hrot
    rw [Write_rotate_eq l os e p hopen hp hgt hrot] at herr
    rw [Write_open_room (l.rotate os e).1 (l.rotate os e).2.1 e p f1 (by rw [h1, hF])
      (by rw [hF]; exact h3) (by rw [h2]) (by rw [h2, maxSize_congr hM]; simpa using hp)] at herr
    cases hcut : e.writeCut with
    | none => simp [hcut] at herr
    | some k =>
      simp only [hcut, Option.isSome_some, if_true, Option.some.injEq] at herr
      exact hne herr.symm

/-! ### `compressLogFile` -/

theorem demoGzip_lossless : demoGzip.Lossless := by
  intro c
  simp [demoGzip, Gzip.stream]

/-- The name of the compressed file is not the name of the file. -/
theorem gz_ne (name : String) : name ++ ".gz" ≠ name := by
  intro h
  have := congrArg String.length h
  rw [String.length_append] at this
  have h3 : ".gz".length = 3 := by decide
  omega

/-- Two writes one after the other from the start of a file that is not
truncated: the bytes written, then what the file held beyond them. -/
theorem overwrite_twice (a b old : List Byte) :
    (List.take 0 old ++ a ++ List.drop (0 + a.length) old).take a.length ++ b ++
      (List.take 0 old ++ a ++ List.drop (0 + a.length) old).drop (a.length + b.length)
      = (a ++ b) ++ old.drop (a ++ b).length := by
  have h1 : (List.take 0 old ++ a ++ List.drop (0 + a.length) old) = a ++ List.drop a.length old := by
    simp
  rw [h1, List.take_left', List.drop_append_eq_append_drop,
    List.drop_eq_nil_of_le (Nat.le_add_right _ _)]
  · simp [Nat.add_comm]
  · rfl

theorem openCreate_some {os os1 : OS} {name : String} {mode : Nat} {fail : Bool} {h : Handle}
    (ho : openCreate os name mode fail = some (h, os1)) :
    h = ⟨name⟩ ∧ os1.dirs = os.dirs ∧ os1.denied = os.denied ∧ os1.spawned = os.spawned ∧
      (∀ x, x ≠ name → os1.files x = os.files x) ∧
      os1.files name = some ((os.files name).getD ⟨[], mode⟩) := by
  unfold openCreate at ho
  split at ho
  · simp at ho
  · cases hz : os.files name with
    | some z =>
      simp only [hz, Option.some.injEq, Prod.mk.injEq] at ho
      obtain ⟨rfl, rfl⟩ := ho
      exact ⟨rfl, rfl, rfl, rfl, fun _ _ => rfl, hz⟩
    | none =>
      simp only [hz, Option.some.injEq, Prod.mk.injEq] at ho
      obtain ⟨rfl, rfl⟩ := ho
      exact ⟨rfl, rfl, rfl, rfl, fun x hx => setAt_other _ _ _ _ hx, setAt_same _ _ _⟩

theorem writeAt_frame (os : OS) (h : Handle) (off : Nat) (s : List Byte) :
    (writeAt os h off s).dirs = os.dirs ∧ (writeAt os h off s).denied = os.denied ∧
      (writeAt os h off s).spawned = os.spawned ∧
      ∀ x, x ≠ h.name → (writeAt os h off s).files x = os.files x := by
  unfold writeAt
  cases os.files h.name with
  | none => exact ⟨rfl, rfl, rfl, fun _ _ => rfl⟩
  | some f => exact ⟨rfl, rfl, rfl, fun x hx => setAt_other _ _ _ _ hx⟩

theorem writeAt_at (os : OS) (h : Handle) (off : Nat) (s : List Byte) (f : File)
    (hf : os.files h.name = some f) :
    (writeAt os h off s).files h.name
      = some ⟨f.content.take off ++ s ++ f.content.drop (off + s.length), f.mode⟩ := by
  unfold writeAt
  rw [hf]
  exact setAt_same _ _ _

theorem remove_some {os os1 : OS} {name : String} {fail : Bool}
    (h : remove os name fail = some os1) :
    os1.files = setAt os.files name none ∧ os1.dirs = os.dirs ∧ os1.denied = os.denied ∧
      os1.spawned = os.spawned := by
  unfold remove at h
  split at h
  · simp at h
  · cases hf : os.files name with
    | none => simp [hf] at h
    | some f =>
      simp only [hf, Option.some.injEq] at h
      subst h
      exact ⟨rfl, rfl, rfl, rfl⟩

/-- Whatever happens in it, `compressLogFile` changes no directory, no access
right and no file other than the one it is given and its `.gz` file, and starts
no goroutine. -/
theorem compressLogFile_frame (g : Gzip) (os : OS) (ce : CompressEnv) (name : String) :
    (compressLogFile g os ce name).1.dirs = os.dirs ∧
    (compressLogFile g os ce name).1.denied = os.denied ∧
    (compressLogFile g os ce name).1.spawned = os.spawned ∧
    ∀ x, x ≠ name → x ≠ name ++ ".gz" → (compressLogFile g os ce name).1.files x = os.files x := by
  unfold compressLogFile
  cases openRead os name ce.openErr with
  | none => exact ⟨rfl, rfl, rfl, fun _ _ _ => rfl⟩
  | some file =>
    simp only []
    cases hc : openCreate os (name ++ ".gz") 0o644 ce.createErr with
    | none => exact ⟨rfl, rfl, rfl, fun _ _ _ => rfl⟩
    | some r =>
      obtain ⟨filegz, os1⟩ := r
      obtain ⟨rfl, c1, c2, c3, c4, -⟩ := openCreate_some hc
      simp only []
      cases ce.copyErr with
      | some reached =>
        obtain ⟨w1, w2, w3, w4⟩ := writeAt_frame os1 ⟨name ++ ".gz"⟩ 0 reached
        simp only []
        exact ⟨w1.trans c1, w2.trans c2, w3.trans c3, fun x _ hx => (w4 x hx).trans (c4 x hx)⟩
      | none =>
        simp only []
        obtain ⟨w1, w2, w3, w4⟩ := writeAt_frame os1 ⟨name ++ ".gz"⟩ 0 (g.copied file.content)
        cases hr : remove (writeAt os1 ⟨name ++ ".gz"⟩ 0 (g.copied file.content)) name
            ce.removeErr with
        | none =>
          simp only []
          obtain ⟨v1, v2, v3, v4⟩ := writeAt_frame
            (writeAt os1 ⟨name ++ ".gz"⟩ 0 (g.copied file.content)) ⟨name ++ ".gz"⟩
            (g.copied file.content).length
            (match ce.closeCut with
              | none => g.closed file.content
              | some k => (g.closed file.content).take k)
          exact ⟨v1.trans (w1.trans c1), v2.trans (w2.trans c2), v3.trans (w3.trans c3),
            fun x _ hx => (v4 x hx).trans ((w4 x hx).trans (c4 x hx))⟩
        | some os3 =>
          simp only []
          obtain ⟨r1, r2, r3, r4⟩ := remove_some hr
          obtain ⟨v1, v2, v3, v4⟩ := writeAt_frame os3 ⟨name ++ ".gz"⟩
            (g.copied file.content).length
            (match ce.closeCut with
              | none => g.closed file.content
              | some k => (g.closed file.content).take k)
          refine ⟨v1.trans (r2.trans (w1.trans c1)), v2.trans (r3.trans (w2.trans c2)),
            v3.trans (r4.trans (w3.trans c3)), fun x hn hx => ?_⟩
          exact (v4 x hx).trans (by
            rw [r1, setAt_other _ _ _ _ hn]
            exact (w4 x hx).trans (c4 x hx))

/-- A run of `compressLogFile` in which no step before the deferred `gz.Close()`
fails: nothing is printed, the file is gone, and the `.gz` file holds what the
gzip writer passed on (all of the stream when `gz.Close()` does not fail),
followed by what an earlier `.gz` file held beyond that length. -/
theorem compressLogFile_ok (g : Gzip) (os : OS) (ce : CompressEnv) (name : String) (f : File)
    (hf : os.files name = some f) (hd : os.denied name = false)
    (hdg : os.denied (name ++ ".gz") = false) (hdir : os.dirs (Dir (name ++ ".gz")) = true)
    (ho : ce.openErr = false) (hc : ce.createErr = false) (hcp : ce.copyErr = none)
    (hr : ce.removeErr = false) (w : List Byte)
    (hw : w = g.copied f.content ++ (match ce.closeCut with
      | none => g.closed f.content
      | some k => (g.closed f.content).take k)) :
    (compressLogFile g os ce name).2 = none ∧
    (compressLogFile g os ce name).1.files name = none ∧
    (compressLogFile g os ce name).1.files (name ++ ".gz")
      = some ⟨w ++ ((os.files (name ++ ".gz")).getD ⟨[], 0o644⟩).content.drop w.length,
          ((os.files (name ++ ".gz")).getD ⟨[], 0o644⟩).mode⟩ := by
  have hopen : openRead os name ce.openErr = some f := by
    simp [openRead, ho, hd, hf]
  have hcreate : (openCreate os (name ++ ".gz") 0o644 ce.createErr).isSome = true := by
    unfold openCreate
    simp only [hc, hdg, hdir, Bool.or_self, Bool.not_true, Bool.false_eq_true, if_false]
    cases os.files (name ++ ".gz") <;> rfl
  obtain ⟨r, hcr⟩ := Option.isSome_iff_exists.mp hcreate
  obtain ⟨filegz, os1⟩ := r
  obtain ⟨rfl, -, c2, -, c4, c5⟩ := openCreate_some hcr
  have hname1 : os1.files name = some f := by rw [c4 name (gz_ne name).symm, hf]
  have w5 := writeAt_at os1 ⟨name ++ ".gz"⟩ 0 (g.copied f.content) _ c5
  obtain ⟨-, w2, -, w4⟩ := writeAt_frame os1 ⟨name ++ ".gz"⟩ 0 (g.copied f.content)
  have hremS : (remove (writeAt os1 ⟨name ++ ".gz"⟩ 0 (g.copied f.content)) name
      ce.removeErr).isSome = true := by
    unfold remove
    rw [hr, w2, c2, hd, w4 name (gz_ne name).symm, hname1]
    rfl
  obtain ⟨os3, hrem⟩ := Option.isSome_iff_exists.mp hremS
  obtain ⟨r1, -, -, -⟩ := remove_some hrem
  have h3 := (congrFun r1 (name ++ ".gz")).trans
    ((setAt_other _ name (name ++ ".gz") none (gz_ne name)).trans w5)
  unfold compressLogFile
  rw [hopen]
  simp only [hcr, hcp, hrem]
  refine ⟨trivial, ?_, ?_⟩
  · rw [(writeAt_frame _ _ _ _).2.2.2 name (gz_ne name).symm, r1]
    exact setAt_same _ _ _
  · rw [writeAt_at _ ⟨name ++ ".gz"⟩ _ _ _ h3, hw, overwrite_twice]

theorem setAt_comm {α : Type} (f : String → α) (k1 k2 : String) (v1 v2 : α) (h : k1 ≠ k2) :
    setAt (setAt f k1 v1) k2 v2 = setAt (setAt f k2 v2) k1 v1 := by
  funext x
  unfold setAt
  by_cases h2 : x = k2
  · subst h2
    simp [Ne.symm h]
  · simp [h2]

theorem openRead_setAt (os : OS) (name b : String) (v : Option File) (fail : Bool)
    (hb : b ≠ name) :
    openRead { os with files := setAt os.files name v } b fail = openRead os b fail := by
  unfold openRead
  simp only [setAt_other _ _ _ _ hb]

theorem openCreate_setAt (os : OS) (name b : String) (v : Option File) (mode : Nat) (fail : Bool)
    (hb : b ≠ name) :
    openCreate { os with files := setAt os.files name v } b mode fail
      = (openCreate os b mode fail).map
          (fun r => (r.1, { r.2 with files := setAt r.2.files name v })) := by
  unfold openCreate
  simp only [setAt_other _ _ _ _ hb]
  split
  · rfl
  · cases os.files b with
    | some z => rfl
    | none =>
      simp only [Option.map_some']
      rw [setAt_comm _ _ _ _ _ hb.symm]

theorem writeAt_setAt (os : OS) (name : String) (v : Option File) (h : Handle) (off : Nat)
    (s : List Byte) (hb : h.name ≠ name) :
    writeAt { os with files := setAt os.files name v } h off s
      = { writeAt os h off s with files := setAt (writeAt os h off s).files name v } := by
  unfold writeAt
  simp only [setAt_other _ _ _ _ hb]
  cases os.files h.name with
  | none => rfl
  | some f =>
    simp only []
    rw [setAt_comm _ _ _ _ _ hb.symm]

theorem remove_setAt (os : OS) (name b : String) (v : Option File) (fail : Bool)
    (hb : b ≠ name) :
    remove { os with files := setAt os.files name v } b fail
      = (remove os b fail).map (fun r => { r with files := setAt r.files name v }) := by
  unfold remove
  simp only [setAt_other _ _ _ _ hb]
  split
  · rfl
  · cases os.files b with
    | none => rfl
    | some z =>
      simp only [Option.map_some']
      rw [setAt_comm _ _ _ _ _ hb.symm]

/-- A change of a file other than `b` and `b + ".gz"` and a run of
`compressLogFile` on `b` can be done in either order. -/
theorem compressLogFile_setAt (g : Gzip) (os : OS) (ce : CompressEnv) (name b : String)
    (v : Option File) (hb : b ≠ name) (hgz : b ++ ".gz" ≠ name) :
    compressLogFile g { os with files := setAt os.files name v } ce b
      = ({ (compressLogFile g os ce b).1 with
            files := setAt (compressLogFile g os ce b).1.files name v },
          (compressLogFile g os ce b).2) := by
  unfold compressLogFile
  rw [openRead_setAt os name b v _ hb, openCreate_setAt os name _ v _ _ hgz]
  cases openRead os b ce.openErr with
  | none => rfl
  | some file =>
    simp only []
    cases hc : openCreate os (b ++ ".gz") 0o644 ce.createErr with
    | none => rfl
    | some r =>
      obtain ⟨filegz, os1⟩ := r
      obtain ⟨rfl, -⟩ := openCreate_some hc
      simp only [Option.map_some']
      cases ce.copyErr with
      | some reached =>
        simp only []
        rw [writeAt_setAt os1 name v ⟨b ++ ".gz"⟩ 0 reached hgz]
      | none =>
        simp only []
        rw [writeAt_setAt os1 name v ⟨b ++ ".gz"⟩ 0 _ hgz, remove_setAt _ name b v _ hb]
        cases remove (writeAt os1 ⟨b ++ ".gz"⟩ 0 (g.copied file.content)) b ce.removeErr with
        | none =>
          simp only [Option.map_none']
          rw [writeAt_setAt _ name v ⟨b ++ ".gz"⟩ _ _ hgz]
        | some os3 =>
          simp only [Option.map_some']
          rw [writeAt_setAt _ name v ⟨b ++ ".gz"⟩ _ _ hgz]

/-- Creating the log file after a goroutine that leaves the log path alone gives
what creating it before the goroutine gives. -/
theorem openCreateTrunc_go (C : OS → OS) (name : String)
    (Hc : ∀ os v, C { os with files := setAt os.files name v }
      = { C os with files := setAt (C os).files name v })
    (Hf : ∀ os, (C os).files name = os.files name ∧ (C os).dirs = os.dirs ∧
      (C os).denied = os.denied)
    (os : OS) (mode : Nat) (fail : Bool) :
    openCreateTrunc (C os) name mode fail
      = (openCreateTrunc os name mode fail).map (fun r => (r.1, C r.2)) := by
  obtain ⟨f1, f2, f3⟩ := Hf os
  unfold openCreateTrunc
  rw [f1, f2, f3]
  split
  · rfl
  · simp only [Option.map_some']
    rw [Hc]
    simp only [f2, f3]

/-- Writing to the log file after a goroutine that leaves the log path alone
gives what writing before the goroutine gives. -/
theorem fileWrite_go (C : OS → OS) (name : String)
    (Hc : ∀ os v, C { os with files := setAt os.files name v }
      = { C os with files := setAt (C os).files name v })
    (Hf : ∀ os, (C os).files name = os.files name ∧ (C os).dirs = os.dirs ∧
      (C os).denied = os.denied)
    (os : OS) (p : List Byte) (cut : Option Nat) :
    fileWrite (C os) ⟨name⟩ p cut
      = ((fileWrite os ⟨name⟩ p cut).1, (fileWrite os ⟨name⟩ p cut).2.1,
          C (fileWrite os ⟨name⟩ p cut).2.2) := by
  obtain ⟨f1, -, -⟩ := Hf os
  unfold fileWrite
  simp only [f1]
  cases os.files name with
  | none => rfl
  | some f =>
    simp only []
    rw [Hc]

theorem openNewGo_sim (go : OS → String → OS) (l : Logger) (os : OS) (e : Env)
    (Hc : ∀ os v, go { os with files := setAt os.files l.Filename v }
        (backupName l.Filename e.now)
      = { go os (backupName l.Filename e.now) with
          files := setAt (go os (backupName l.Filename e.now)).files l.Filename v })
    (Hf : ∀ os, (go os (backupName l.Filename e.now)).files l.Filename = os.files l.Filename ∧
      (go os (backupName l.Filename e.now)).dirs = os.dirs ∧
      (go os (backupName l.Filename e.now)).denied = os.denied) :
    ∃ os1, (os1 = (l.openNew os e).2.1 ∨
        os1 = go (l.openNew os e).2.1 (backupName l.Filename e.now)) ∧
      l.openNewGo go os e = ((l.openNew os e).1, os1, (l.openNew os e).2.2) := by
  unfold Logger.openNewGo Logger.openNew
  cases mkdirAll os (Dir l.Filename) e.mkdirErr with
  | none => exact ⟨os, Or.inl rfl, rfl⟩
  | some os1 =>
    simp only []
    cases stat os1 l.Filename with
    | notExist => exact ⟨_, Or.inl rfl, rfl⟩
    | other => exact ⟨_, Or.inl rfl, rfl⟩
    | ok sz md =>
      simp only []
      cases rename os1 l.Filename (backupName l.Filename e.now) e.renameErr with
      | none => exact ⟨_, Or.inl rfl, rfl⟩
      | some os2 =>
        simp only []
        rw [openCreateTrunc_go (fun o => go o (backupName l.Filename e.now)) l.Filename Hc Hf]
        cases openCreateTrunc { os2 with spawned := os2.spawned ++ [backupName l.Filename e.now] }
            l.Filename md e.openNewErr with
        | none => exact ⟨_, Or.inr rfl, rfl⟩
        | some r => exact ⟨_, Or.inr rfl, rfl⟩

theorem rotateGo_sim (go : OS → String → OS) (l : Logger) (os : OS) (e : Env)
    (Hc : ∀ os v, go { os with files := setAt os.files l.Filename v }
        (backupName l.Filename e.now)
      = { go os (backupName l.Filename e.now) with
          files := setAt (go os (backupName l.Filename e.now)).files l.Filename v })
    (Hf : ∀ os, (go os (backupName l.Filename e.now)).files l.Filename = os.files l.Filename ∧
      (go os (backupName l.Filename e.now)).dirs = os.dirs ∧
      (go os (backupName l.Filename e.now)).denied = os.denied) :
    ∃ os1, (os1 = (l.rotate os e).2.1 ∨
        os1 = go (l.rotate os e).2.1 (backupName l.Filename e.now)) ∧
      l.rotateGo go os e = ((l.rotate os e).1, os1, (l.rotate os e).2.2) := by
  unfold Logger.rotateGo Logger.rotate Logger.close
  cases l.file with
  | none => exact openNewGo_sim go l os e Hc Hf
  | some h0 =>
    simp only []
    cases e.closeErr with
    | true => exact ⟨os, Or.inl rfl, rfl⟩
    | false => exact openNewGo_sim go { l with file := none } os e Hc Hf

theorem openExistingOrNewGo_sim (go : OS → String → OS) (l : Logger) (os : OS) (e : Env)
    (n : Nat)
    (Hc : ∀ os v, go { os with files := setAt os.files l.Filename v }
        (backupName l.Filename e.now)
      = { go os (backupName l.Filename e.now) with
          files := setAt (go os (backupName l.Filename e.now)).files l.Filename v })
    (Hf : ∀ os, (go os (backupName l.Filename e.now)).files l.Filename = os.files l.Filename ∧
      (go os (backupName l.Filename e.now)).dirs = os.dirs ∧
      (go os (backupName l.Filename e.now)).denied = os.denied) :
    ∃ os1, (os1 = (l.openExistingOrNew os e n).2.1 ∨
        os1 = go (l.openExistingOrNew os e n).2.1 (backupName l.Filename e.now)) ∧
      l.openExistingOrNewGo go os e n
        = ((l.openExistingOrNew os e n).1, os1, (l.openExistingOrNew os e n).2.2) := by
  unfold Logger.openExistingOrNewGo Logger.openExistingOrNew
  cases stat os l.Filename with
  | notExist => exact openNewGo_sim go l os e Hc Hf
  | other => exact ⟨os, Or.inl rfl, rfl⟩
  | ok sz md =>
    simp only []
    split
    · exact rotateGo_sim go l os e Hc Hf
    · cases openAppend os l.Filename e.openAppendErr with
      | none => exact openNewGo_sim go l os e Hc Hf
      | some file => exact ⟨os, Or.inl rfl, rfl⟩

/-- The underlying write on a logger open on the log path, after or before a
goroutine that leaves the log path alone. -/
theorem write_step_sim (C : OS → OS) (name : String)
    (Hc : ∀ os v, C { os with files := setAt os.files name v }
      = { C os with files := setAt (C os).files name v })
    (Hf : ∀ os, (C os).files name = os.files name ∧ (C os).dirs = os.dirs ∧
      (C os).denied = os.denied)
    (e : Env) (p : List Byte) (l3 : Logger) (os3 os4 : OS) (hh : l3.file = some ⟨name⟩)
    (hos : os4 = os3 ∨ os4 = C os3) (r1 r2 : (Nat × Option Error) × Logger × OS)
    (h1 : r1 = match l3.file with
      | none => ((0, some Error.write), l3, os3)
      | some file =>
        match fileWrite os3 file p e.writeCut with
        | (n, err, os5) => ((n, err), { l3 with size := l3.size + (n : Int) }, os5))
    (h2 : r2 = match l3.file with
      | none => ((0, some Error.write), l3, os4)
      | some file =>
        match fileWrite os4 file p e.writeCut with
        | (n, err, os5) => ((n, err), { l3 with size := l3.size + (n : Int) }, os5)) :
    r2.1 = r1.1 ∧ r2.2.1 = r1.2.1 ∧ (r2.2.2 = r1.2.2 ∨ r2.2.2 = C r1.2.2) := by
  rcases hos with rfl | rfl
  · rw [h1, h2]
    exact ⟨rfl, rfl, Or.inl rfl⟩
  · rw [hh] at h1 h2
    simp only [fileWrite_go C name Hc Hf] at h2
    rw [h1, h2]
    exact ⟨rfl, rfl, Or.inr rfl⟩

/-- With a goroutine that does nothing, `WriteGo` is `Write`. -/
theorem WriteGo_idle (l : Logger) (os : OS) (e : Env) (p : List Byte) :
    l.WriteGo (fun o _ => o) os e p = l.Write os e p := rfl

/-- A call of `Write` whose goroutine runs at the `go` statement returns what
the call returns when the goroutine is left for later and leaves the same
logger, for every goroutine that leaves the log path alone; the operating
system it leaves is the one the goroutine would make of the other. -/
theorem WriteGo_sim (go : OS → String → OS) (l : Logger) (os : OS) (e : Env) (p : List Byte)
    (Hc : ∀ os v, go { os with files := setAt os.files l.Filename v }
        (backupName l.Filename e.now)
      = { go os (backupName l.Filename e.now) with
          files := setAt (go os (backupName l.Filename e.now)).files l.Filename v })
    (Hf : ∀ os, (go os (backupName l.Filename e.now)).files l.Filename = os.files l.Filename ∧
      (go os (backupName l.Filename e.now)).dirs = os.dirs ∧
      (go os (backupName l.Filename e.now)).denied = os.denied) :
    (l.WriteGo go os e p).1 = (l.Write os e p).1 ∧
    (l.WriteGo go os e p).2.1 = (l.Write os e p).2.1 ∧
    ((l.WriteGo go os e p).2.2 = (l.Write os e p).2.2 ∨
      (l.WriteGo go os e p).2.2 = go (l.Write os e p).2.2 (backupName l.Filename e.now)) := by
  unfold Logger.WriteGo Logger.Write
  simp only []
  split
  · exact ⟨rfl, rfl, Or.inl rfl⟩
  · rename_i hle
    have hp : (p.length : Int) ≤ l.maxSize := by simpa using hle
    cases hfile : l.file with
    | none =>
      simp only []
      obtain ⟨os1, hos, hgo⟩ := openExistingOrNewGo_sim go l os e p.length Hc Hf
      have ho := openExistingOrNew_summary l os e p.length hfile
      rw [hgo]
      rcases hoe : l.openExistingOrNew os e p.length with ⟨l1, os0, err⟩
      rw [hoe] at ho hos
      simp only at ho hos
      cases err with
      | some er => exact ⟨rfl, rfl, hos⟩
      | none =>
        simp only []
        obtain ⟨h1, -, h3⟩ := ho.2.2.1 rfl
        have hroom : ¬ (l1.size + (p.length : Int) > l1.maxSize) := by
          rw [maxSize_congr ho.2.1]
          rcases h3 with h3 | h3
          · rw [h3]; simpa using hp
          · exact not_lt.mpr (le_of_lt h3)
        rw [if_neg hroom, if_neg hroom]
        exact write_step_sim (fun o => go o (backupName l.Filename e.now)) l.Filename Hc Hf e p
          l1 os0 os1 h1 hos _ _ rfl rfl
    | some h0 =>
      simp only []
      split
      · obtain ⟨os1, hos, hgo⟩ := rotateGo_sim go l os e Hc Hf
        have hs := rotate_summary l os e
        rw [hgo]
        rcases hr : l.rotate os e with ⟨l3, os3, err⟩
        rw [hr] at hs hos
        simp only at hs hos
        cases err with
        | some er => exact ⟨rfl, rfl, hos⟩
        | none =>
          simp only []
          obtain ⟨h1, -, -⟩ := hs.2.2.1 rfl
          exact write_step_sim (fun o => go o (backupName l.Filename e.now)) l.Filename Hc Hf e p
            l3 os3 os1 h1 hos _ _ rfl rfl
      · exact ⟨rfl, rfl, Or.inl rfl⟩

/-- The messages of the first two steps of `compressLogFile` are printed before
anything has been changed. -/
theorem compressLogFile_early (g : Gzip) (os : OS) (ce : CompressEnv) (name : String)
    (h : (compressLogFile g os ce name).2 = some Diagnostic.openLog ∨
      (compressLogFile g os ce name).2 = some Diagnostic.createGz) :
    (compressLogFile g os ce name).1 = os := by
  revert h
  unfold compressLogFile
  cases openRead os name ce.openErr with
  | none => exact fun _ => rfl
  | some file =>
    simp only []
    cases openCreate os (name ++ ".gz") 0o644 ce.createErr with
    | none => exact fun _ => rfl
    | some r =>
      simp only []
      cases ce.copyErr with
      | some reached => simp
      | none =>
        simp only []
        cases remove (writeAt r.2 r.1 0 (g.copied file.content)) name ce.removeErr <;> simp

/-- A run of `compressLogFile` that prints a message leaves the file it was
given as it is. -/
theorem compressLogFile_reported (g : Gzip) (os : OS) (ce : CompressEnv) (name : String)
    (h : (compressLogFile g os ce name).2 ≠ none) :
    (compressLogFile g os ce name).1.files name = os.files name := by
  revert h
  unfold compressLogFile
  cases openRead os name ce.openErr with
  | none => exact fun _ => rfl
  | some file =>
    simp only []
    cases hc : openCreate os (name ++ ".gz") 0o644 ce.createErr with
    | none => exact fun _ => rfl
    | some r =>
      obtain ⟨filegz, os1⟩ := r
      obtain ⟨rfl, -, -, -, c4, -⟩ := openCreate_some hc
      have hn : name ≠ (⟨name ++ ".gz"⟩ : Handle).name := (gz_ne name).symm
      simp only []
      cases ce.copyErr with
      | some reached =>
        intro _
        exact ((writeAt_frame os1 ⟨name ++ ".gz"⟩ 0 reached).2.2.2 name hn).trans
          (c4 name (gz_ne name).symm)
      | none =>
        simp only []
        cases remove (writeAt os1 ⟨name ++ ".gz"⟩ 0 (g.copied file.content)) name
            ce.removeErr with
        | none =>
          intro _
          exact ((writeAt_frame _ ⟨name ++ ".gz"⟩ _ _).2.2.2 name hn).trans
            (((writeAt_frame os1 ⟨name ++ ".gz"⟩ 0 (g.copied file.content)).2.2.2 name hn).trans
              (c4 name (gz_ne name).symm))
        | some os3 => exact fun h => absurd rfl h

/-- The message of each of the first three steps of `compressLogFile`. -/
theorem compressLogFile_messages (g : Gzip) (os : OS) (ce : CompressEnv) (name : String) :
    (openRead os name ce.openErr = none →
      (compressLogFile g os ce name).2 = some Diagnostic.openLog) ∧
    (∀ f, openRead os name ce.openErr = some f →
      openCreate os (name ++ ".gz") 0o644 ce.createErr = none →
      (compressLogFile g os ce name).2 = some Diagnostic.createGz) ∧
    (∀ f r reached, openRead os name ce.openErr = some f →
      openCreate os (name ++ ".gz") 0o644 ce.createErr = some r →
      ce.copyErr = some reached →
      (compressLogFile g os ce name).2 = some Diagnostic.compress) := by
  refine ⟨fun h => ?_, fun f h1 h2 => ?_, fun f r reached h1 h2 h3 => ?_⟩
  · unfold compressLogFile
    rw [h]
  · unfold compressLogFile
    rw [h1]
    simp only [h2]
  · unfold compressLogFile
    rw [h1]
    simp only [h2, h3]

/-- `openNew` does not read the tracked size: with another value in it, it
returns the same error and operating system, the same logger when it succeeds,
and the logger it was given when it fails. -/
theorem openNew_size (l : Logger) (os : OS) (e : Env) (s : Int) :
    (({ l with size := s } : Logger).openNew os e).2 = (l.openNew os e).2 ∧
    (({ l with size := s } : Logger).openNew os e).1
      = (if (l.openNew os e).2.2 = none then (l.openNew os e).1
          else { (l.openNew os e).1 with size := s }) := by
  unfold Logger.openNew
  cases mkdirAll os (Dir l.Filename) e.mkdirErr with
  | none => exact ⟨rfl, rfl⟩
  | some os1 =>
    simp only []
    cases stat os1 l.Filename with
    | ok sz md =>
      simp only []
      cases rename os1 l.Filename (backupName l.Filename e.now) e.renameErr with
      | none => exact ⟨rfl, rfl⟩
      | some os2 =>
        simp only []
        cases openCreateTrunc { os2 with spawned := os2.spawned ++ [backupName l.Filename e.now] }
            l.Filename md e.openNewErr with
        | none => exact ⟨rfl, rfl⟩
        | some r => exact ⟨rfl, rfl⟩
    | notExist =>
      simp only []
      cases openCreateTrunc os1 l.Filename 0o644 e.openNewErr with
      | none => exact ⟨rfl, rfl⟩
      | some r => exact ⟨rfl, rfl⟩
    | other =>
      simp only []
      cases openCreateTrunc os1 l.Filename 0o644 e.openNewErr with
      | none => exact ⟨rfl, rfl⟩
      | some r => exact ⟨rfl, rfl⟩

/-- On a logger without a handle, `openExistingOrNew` does not read the tracked
size. -/
theorem openExistingOrNew_size (l : Logger) (os : OS) (e : Env) (n : Nat) (s : Int)
    (hfile : l.file = none) :
    (({ l with size := s } : Logger).openExistingOrNew os e n).2
      = (l.openExistingOrNew os e n).2 ∧
    (({ l with size := s } : Logger).openExistingOrNew os e n).1
      = (if (l.openExistingOrNew os e n).2.2 = none then (l.openExistingOrNew os e n).1
          else { (l.openExistingOrNew os e n).1 with size := s }) := by
  have hm : ({ l with size := s } : Logger).maxSize = l.maxSize := rfl
  have hr1 := rotate_closed l os e hfile
  have hr2 := rotate_closed ({ l with size := s } : Logger) os e hfile
  unfold Logger.openExistingOrNew
  rw [hm, hr1, hr2]
  cases stat os l.Filename with
  | notExist => exact openNew_size l os e s
  | other => exact ⟨rfl, rfl⟩
  | ok sz md =>
    simp only []
    split
    · exact openNew_size l os e s
    · cases openAppend os l.Filename e.openAppendErr with
      | none => exact openNew_size l os e s
      | some file => exact ⟨rfl, rfl⟩

/-- A failing `openExistingOrNew` on a logger without a handle returns the
logger it was given. -/
theorem openExistingOrNew_fail_logger (l : Logger) (os : OS) (e : Env) (n : Nat)
    (hfile : l.file = none) (h : (l.openExistingOrNew os e n).2.2 ≠ none) :
    (l.openExistingOrNew os e n).1 = l := by
  revert h
  unfold Logger.openExistingOrNew
  rw [rotate_closed l os e hfile]
  cases stat os l.Filename with
  | notExist => exact (openNew_summary l os e).2.2.2
  | other => exact fun _ => rfl
  | ok sz md =>
    simp only []
    split
    · exact (openNew_summary l os e).2.2.2
    · cases openAppend os l.Filename e.openAppendErr with
      | none => exact (openNew_summary l os e).2.2.2
      | some file => exact fun h => absurd rfl h

/-- For a gzip codec that reads back what it wrote, when no step of
`compressLogFile` fails and there is no earlier `.gz` file longer than the new
stream, nothing is printed, the `.gz` file holds the gzip stream of the content,
and reading it gives the content. -/
theorem compress_roundtrip (g : Gzip) (hg : g.Lossless) (os : OS) (ce : CompressEnv)
    (name : String) (f : File)
    (hf : os.files name = some f) (hd : os.denied name = false)
    (hdg : os.denied (name ++ ".gz") = false) (hdir : os.dirs (Dir (name ++ ".gz")) = true)
    (ho : ce.openErr = false) (hc : ce.createErr = false) (hcp : ce.copyErr = none)
    (hr : ce.removeErr = false) (hcl : ce.closeCut = none)
    (hold : ∀ z, os.files (name ++ ".gz") = some z →
      z.content.length ≤ (g.stream f.content).length) :
    (compressLogFile g os ce name).2 = none ∧
    ∃ z, (compressLogFile g os ce name).1.files (name ++ ".gz") = some z ∧
      z.content = g.stream f.content ∧ g.gunzip z.content = some f.content := by
  obtain ⟨h1, -, h3⟩ := compressLogFile_ok g os ce name f hf hd hdg hdir ho hc hcp hr
    (g.stream f.content) (by rw [hcl]; rfl)
  refine ⟨h1, _, h3, ?_⟩
  have hdrop : ((os.files (name ++ ".gz")).getD ⟨[], 0o644⟩).content.drop
      (g.stream f.content).length = [] := by
    cases hz : os.files (name ++ ".gz") with
    | none => simp
    | some z => exact List.drop_eq_nil_of_le (hold z hz)
  simp only [hdrop, List.append_nil]
  exact ⟨trivial, hg f.content⟩

/-- In a directory without an earlier `.gz` file, `d/test.log` holding "ABC" is
compressed with the example codec, and reading `d/test.log.gz` gives "ABC". -/
theorem compress_roundtrip_fresh :
    ∃ z, (compressLogFile demoGzip (oneFileOS "d/test.log" ⟨[65, 66, 67], 0o644⟩) quietCompress
        "d/test.log").1.files "d/test.log.gz" = some z ∧
      z.content = demoGzip.stream [65, 66, 67] ∧ demoGzip.gunzip z.content = some [65, 66, 67] :=
  (compress_roundtrip demoGzip demoGzip_lossless (oneFileOS "d/test.log" ⟨[65, 66, 67], 0o644⟩)
    quietCompress "d/test.log" ⟨[65, 66, 67], 0o644⟩ (by decide) rfl rfl (by decide) rfl rfl rfl
    rfl rfl (fun z h => by simp [oneFileOS] at h)).2

/-! ### The claims -/

/-- C1: a write longer than the capacity is rejected and changes nothing. When
`len(p)` exceeds `maxSize()`, and in particular when `MaxSize` is not negative
and `len(p)` exceeds `MaxSize * 1048576`, `Write(p)` returns `(0, error)` and
the logger (handle, tracked size) and the whole operating-system state (files,
directories, started goroutines) are as they were, whether or not the logger is
open and whether or not a log file exists. -/
theorem write_over_capacity_rejected (l : Logger) (os : OS) (e : Env) (p : List Byte)
    (h : l.maxSize < (p.length : Int) ∨
      (0 ≤ l.MaxSize ∧ l.MaxSize * 1048576 < (p.length : Int))) :
    l.Write os e p = ((0, some (Error.tooLarge p.length l.maxSize)), l, os) := by
  have hlt : l.maxSize < (p.length : Int) := by
    rcases h with h | ⟨h0, h1⟩
    · exact h
    · have : l.maxSize ≤ l.MaxSize * 1048576 := wrap64_le_self _ (by positivity)
      omega
  unfold Logger.Write
  simp only [gt_iff_lt, hlt, if_true]

/-- Witness of C1: `New "d/test.log" 1` has capacity 1048576 and rejects a
write of 1048577 bytes over an empty file system. -/
theorem write_over_capacity_rejected_witness :
    (New "d/test.log" 1).Write emptyOS quietEnv (fillFile 1048577 0).content
      = ((0, some (Error.tooLarge (fillFile 1048577 0).content.length (New "d/test.log" 1).maxSize)),
          New "d/test.log" 1, emptyOS) :=
  write_over_capacity_rejected _ _ _ _
    (Or.inr ⟨by decide, by rw [fillFile_length]; decide⟩)

/-- C2: for a logger built by `New` with a positive `MaxSize`, in any state it
can reach from any initial operating-system state, after a `Write` that returns
a nil error the tracked size is at most the capacity `maxSize()`, the logger is
open on the log path, the log file exists there with exactly the tracked size,
hence of size at most the capacity; and the capacity is at most
`MaxSize * 1048576`. -/
theorem write_success_within_capacity (filename : String) (maxSize : Int) (hm : 0 < maxSize)
    (l : Logger) (os : OS) (hr : Reachable filename maxSize l os) (e : Env) (p : List Byte)
    (hok : (l.Write os e p).1.2 = none) :
    (l.Write os e p).2.1.size ≤ (l.Write os e p).2.1.maxSize ∧
    (∃ f, (l.Write os e p).2.2.files filename = some f ∧
      (l.Write os e p).2.1.file = some ⟨filename⟩ ∧
      (f.content.length : Int) = (l.Write os e p).2.1.size ∧
      (f.content.length : Int) ≤ (l.Write os e p).2.1.maxSize) ∧
    (l.Write os e p).2.1.maxSize ≤ maxSize * 1048576 := by
  obtain ⟨hc, hF, hM⟩ := consistent_of_reachable hr
  obtain ⟨pF, pM, pC, pok⟩ := Write_post l os e p hc
  obtain ⟨-, hfile, hsize⟩ := pok hok
  have hcap : (l.Write os e p).2.1.maxSize = l.maxSize := maxSize_congr pM
  obtain ⟨-, f, hf, hlen⟩ := pC _ hfile
  rw [pF, hF] at hf
  rw [hF] at hfile
  refine ⟨by rw [hcap]; exact hsize, ⟨f, hf, hfile, hlen, by rw [hlen, hcap]; exact hsize⟩, ?_⟩
  rw [hcap]
  unfold Logger.maxSize
  rw [hM]
  exact wrap64_le_self _ (by positivity)

/-- Witness of C2: the first write of three bytes by `New "d/test.log" 1` over
an empty file system. -/
theorem write_success_within_capacity_witness :
    (0 : Int) < 1 ∧ ((New "d/test.log" 1).Write emptyOS quietEnv [1, 2, 3]).1.2 = none ∧
    ((New "d/test.log" 1).Write emptyOS quietEnv [1, 2, 3]).2.1.size
      ≤ ((New "d/test.log" 1).Write emptyOS quietEnv [1, 2, 3]).2.1.maxSize :=
  ⟨by decide, by decide,
    (write_success_within_capacity "d/test.log" 1 (by decide) _ _ (Reachable.init emptyOS)
      quietEnv [1, 2, 3] (by decide)).1⟩

/-- C3 (amended): a logger made by `New` over a path with no log file, on a
system where no goroutine was started yet, receives a sequence of writes that
all return a nil error. If no backup name was used twice during the run, the
size of the active file plus the sizes of all the backups made, each at its
backup name, is the total number of bytes submitted. -/
theorem rotation_preserves_bytes (filename : String) (maxSize : Int) (os : OS)
    (steps : List (Env × List Byte))
    (hnofile : os.files filename = none) (hsp : os.spawned = [])
    (hok : ∀ r ∈ (writeAll (New filename maxSize) os steps).1, r.2 = none)
    (hnd : (writeAll (New filename maxSize) os steps).2.2.spawned.Nodup) :
    diskBytes (writeAll (New filename maxSize) os steps).2.2 filename = totalLength steps := by
  have h := writeAll_bytes steps (New filename maxSize) os
    (fun h hh => by simp [New] at hh) (by rw [hsp]; simp) hok hnd
  have hF : (New filename maxSize).Filename = filename := rfl
  rw [hF, hsp] at h
  unfold diskBytes
  rw [hnd.dedup, h]
  simp [sizeAt, hnofile]

/-- Witness of C3 (amended): 1048576 bytes, then one more byte that forces a
rotation; the active file and the backup hold the 1048577 bytes submitted. -/
theorem rotation_preserves_bytes_witness :
    diskBytes
        (writeAll (New "d/test.log" 1) emptyOS [(quietEnv, demoBytes), (quietEnv, [2])]).2.2
        "d/test.log"
      = totalLength [(quietEnv, demoBytes), (quietEnv, [2])] :=
  rotation_preserves_bytes "d/test.log" 1 emptyOS [(quietEnv, demoBytes), (quietEnv, [2])]
    rfl rfl
    (by
      rw [demo_two_writes.1]
      intro r hr
      simp only [List.mem_cons, List.mem_singleton, List.not_mem_nil, or_false] at hr
      rcases hr with rfl | rfl <;> rfl)
    (by rw [demo_two_writes.2]; simp)

/-- C3 as stated fails: `New "d/test.log" 1` over an empty file system receives
1048576 bytes, 1048576 bytes and one byte, all within the second
2020-01-02T03:04:05Z. Each write is within the capacity and returns a nil
error; the second and the third rotate, to the same backup name, so the second
backup replaces the first. The only files left are the log file with one byte
and one backup with 1048576 bytes: 1048577 bytes on disk for 2097153
submitted. -/
theorem same_second_rotations_counterexample :
    emptyOS.files "d/test.log" = none ∧
    (∀ s ∈ [(quietEnv, demoBytes), (quietEnv, demoBytes), (quietEnv, [3])],
      ((s.2.length : Nat) : Int) ≤ (New "d/test.log" 1).maxSize) ∧
    (writeAll (New "d/test.log" 1) emptyOS
      [(quietEnv, demoBytes), (quietEnv, demoBytes), (quietEnv, [3])]).1
      = [(1048576, none), (1048576, none), (1, none)] ∧
    (writeAll (New "d/test.log" 1) emptyOS
      [(quietEnv, demoBytes), (quietEnv, demoBytes), (quietEnv, [3])]).2.2.files "d/test.log"
      = some ⟨[3], 0o644⟩ ∧
    (writeAll (New "d/test.log" 1) emptyOS
      [(quietEnv, demoBytes), (quietEnv, demoBytes), (quietEnv, [3])]).2.2.files
        "d/test-2020-01-02T03:04:05Z.log" = some ⟨demoBytes, 0o644⟩ ∧
    (∀ x, (writeAll (New "d/test.log" 1) emptyOS
        [(quietEnv, demoBytes), (quietEnv, demoBytes), (quietEnv, [3])]).2.2.files x ≠ none →
      x = "d/test.log" ∨ x = "d/test-2020-01-02T03:04:05Z.log") ∧
    diskBytes (writeAll (New "d/test.log" 1) emptyOS
      [(quietEnv, demoBytes), (quietEnv, demoBytes), (quietEnv, [3])]).2.2 "d/test.log"
      = 1048577 ∧
    totalLength [(quietEnv, demoBytes), (quietEnv, demoBytes), (quietEnv, [3])] = 2097153 ∧
    diskBytes (writeAll (New "d/test.log" 1) emptyOS
      [(quietEnv, demoBytes), (quietEnv, demoBytes), (quietEnv, [3])]).2.2 "d/test.log"
      ≠ totalLength [(quietEnv, demoBytes), (quietEnv, demoBytes), (quietEnv, [3])] := by
  obtain ⟨h1, h2, h3, h4, h5⟩ := demo_three_writes
  have hlen := demoBytes_length
  have hcap : (New "d/test.log" 1).maxSize = 1048576 := by decide
  have hdisk : diskBytes (writeAll (New "d/test.log" 1) emptyOS
      [(quietEnv, demoBytes), (quietEnv, demoBytes), (quietEnv, [3])]).2.2 "d/test.log"
      = 1048577 := by
    rw [diskBytes_collided _ _ _ _ _ h2 h3 h4 1 1048576 rfl hlen]
  have htot : totalLength [(quietEnv, demoBytes), (quietEnv, demoBytes), (quietEnv, [3])]
      = 2097153 := by
    simp only [totalLength, List.map_cons, List.map_nil, List.sum_cons, List.sum_nil, hlen]
    rfl
  refine ⟨rfl, ?_, h1, h2, h3, ?_, hdisk, htot, by rw [hdisk, htot]; decide⟩
  · intro s hs
    simp only [List.mem_cons, List.mem_singleton, List.not_mem_nil, or_false] at hs
    rw [hcap]
    rcases hs with rfl | rfl | rfl
    · simp only [hlen]; decide
    · simp only [hlen]; decide
    · decide
  · intro x hx
    by_contra hcon
    simp only [not_or] at hcon
    exact hx (h5.2 x hcon.1 hcon.2)

/-- C4 (amended): on a closed logger, when a log file `f` exists, its size plus
`len(p)` is below the capacity and the append-mode open does not fail, a
`Write(p)` that returns a nil error has appended `p` to the existing content:
the file is neither truncated nor rotated (no goroutine started, no other file
changed) and the tracked size is the on-disk size plus `len(p)`. -/
theorem closed_write_resumes (l : Logger) (os : OS) (e : Env) (p : List Byte) (f : File)
    (hfile : l.file = none) (hf : os.files l.Filename = some f)
    (hlt : (f.content.length : Int) + p.length < l.maxSize)
    (ha : e.openAppendErr = false) (hok : (l.Write os e p).1.2 = none) :
    (l.Write os e p).1 = (p.length, none) ∧
    (l.Write os e p).2.1.file = some ⟨l.Filename⟩ ∧
    (l.Write os e p).2.1.size = (f.content.length : Int) + p.length ∧
    (l.Write os e p).2.2.files l.Filename = some ⟨f.content ++ p, f.mode⟩ ∧
    (l.Write os e p).2.2.spawned = os.spawned ∧
    (∀ x, x ≠ l.Filename → (l.Write os e p).2.2.files x = os.files x) := by
  obtain ⟨hn, -, -, -, hcases⟩ := Write_ok_closed l os e p hfile hok
  rcases hcases with ⟨hnone, -, -⟩ | ⟨f1, hf1, -, -, hap, hl⟩ | ⟨f1, hf1, hcond, -, -⟩
  · rw [hf] at hnone; simp at hnone
  · rw [hf] at hf1
    obtain rfl := Option.some.inj hf1
    obtain ⟨-, a2, -, -, a5⟩ := hap
    exact ⟨Prod.ext hn hok, by rw [hl], by rw [hl], by simp [a5], a2, fun x hx => by simp [a5, hx]⟩
  · rw [hf] at hf1
    obtain rfl := Option.some.inj hf1
    rcases hcond with hcond | hcond
    · exact absurd hlt (not_lt.mpr hcond)
    · rw [ha] at hcond; simp at hcond

/-- Witness of C4 (amended): `New "d/test.log" 1` over a five-byte log file,
three bytes written. -/
theorem closed_write_resumes_witness :
    ((New "d/test.log" 1).Write (oneFileOS "d/test.log" ⟨[1, 2, 3, 4, 5], 0o600⟩) quietEnv
        [6, 7, 8]).2.1.size = 8 ∧
    ((New "d/test.log" 1).Write (oneFileOS "d/test.log" ⟨[1, 2, 3, 4, 5], 0o600⟩) quietEnv
        [6, 7, 8]).2.2.files "d/test.log" = some ⟨[1, 2, 3, 4, 5, 6, 7, 8], 0o600⟩ :=
  have h := closed_write_resumes (New "d/test.log" 1)
    (oneFileOS "d/test.log" ⟨[1, 2, 3, 4, 5], 0o600⟩) quietEnv [6, 7, 8] ⟨[1, 2, 3, 4, 5], 0o600⟩
    rfl (by decide) (by decide) rfl (by decide)
  ⟨h.2.2.1, h.2.2.2.1⟩

/-- C4 as stated fails: `New "d/test.log" 1` over a log file of 1048575 bytes
(under the capacity 1048576) and a one-byte write. The write succeeds, but the
existing file is rotated to the backup name, the log file contains only the new
byte, and the tracked size is 1, not 1048575 + 1. -/
theorem resume_under_capacity_counterexample :
    (New "d/test.log" 1).file = none ∧
    ((fillFile 1048575 0).content.length : Int) < (New "d/test.log" 1).maxSize ∧
    ((New "d/test.log" 1).Write (oneFileOS "d/test.log" (fillFile 1048575 0)) quietEnv [7]).1
      = (1, none) ∧
    ((New "d/test.log" 1).Write (oneFileOS "d/test.log" (fillFile 1048575 0)) quietEnv
      [7]).2.1.size = 1 ∧
    ((New "d/test.log" 1).Write (oneFileOS "d/test.log" (fillFile 1048575 0)) quietEnv
      [7]).2.1.size ≠ ((fillFile 1048575 0).content.length : Int) + ([7] : List Byte).length ∧
    ((New "d/test.log" 1).Write (oneFileOS "d/test.log" (fillFile 1048575 0)) quietEnv
      [7]).2.2.files "d/test.log" = some ⟨[7], 0o644⟩ ∧
    ((New "d/test.log" 1).Write (oneFileOS "d/test.log" (fillFile 1048575 0)) quietEnv
      [7]).2.2.files "d/test-2020-01-02T03:04:05Z.log" = some (fillFile 1048575 0) := by
  have h := Write_closed_full (New "d/test.log" 1)
    (oneFileOS "d/test.log" (fillFile 1048575 0)) quietEnv [7]
    (fillFile 1048575 0) rfl (by simp [oneFileOS, New])
    (by rw [fillFile_length]; decide)
    (Write_closed_succeeds _ _ _ _ rfl (by decide) (by decide) rfl rfl (fun _ => ⟨rfl, rfl⟩) rfl)
  have hb : backupName (New "d/test.log" 1).Filename quietEnv.now
      = "d/test-2020-01-02T03:04:05Z.log" := by decide
  obtain ⟨h1, -, h3, h4, -, h6, -, -⟩ := h
  have hmode : (fillFile 1048575 0).mode = 0o644 := rfl
  have hname : (New "d/test.log" 1).Filename = "d/test.log" := rfl
  have hlen : (([7] : List Byte).length, (none : Option Error)) = (1, none) := rfl
  rw [hmode, hname] at h4
  rw [hlen] at h1
  rw [hb] at h6
  rw [show (([7] : List Byte).length : Int) = 1 from rfl] at h3
  refine ⟨rfl, by rw [fillFile_length]; decide, h1, h3, ?_, h4, ?_⟩
  · rw [h3, fillFile_length]; decide
  · exact h6

/-- C5: on a closed logger, when a log file `f` exists and its size plus
`len(p)` reaches or exceeds the capacity (equality included), a `Write(p)` that
returns a nil error has rotated the file instead of resuming it: it returns
`len(p)`, the old file is at the backup name (a path other than the log path),
a `compressLogFile` goroutine was started on it, the log path holds a new file
containing exactly `p`, the tracked size is `len(p)`, and no other file
changed. -/
theorem closed_write_rotates_full_file (l : Logger) (os : OS) (e : Env) (p : List Byte)
    (f : File) (hfile : l.file = none) (hf : os.files l.Filename = some f)
    (hge : l.maxSize ≤ (f.content.length : Int) + p.length)
    (hok : (l.Write os e p).1.2 = none) :
    (l.Write os e p).1 = (p.length, none) ∧
    (l.Write os e p).2.1.file = some ⟨l.Filename⟩ ∧
    (l.Write os e p).2.1.size = p.length ∧
    (l.Write os e p).2.2.files l.Filename = some ⟨p, f.mode⟩ ∧
    backupName l.Filename e.now ≠ l.Filename ∧
    (l.Write os e p).2.2.files (backupName l.Filename e.now) = some f ∧
    (l.Write os e p).2.2.spawned = os.spawned ++ [backupName l.Filename e.now] ∧
    (∀ x, x ≠ l.Filename → x ≠ backupName l.Filename e.now →
      (l.Write os e p).2.2.files x = os.files x) :=
  Write_closed_full l os e p f hfile hf hge hok

/-- Witness of C5: `New "d/test.log" 1` over a log file of 1048575 bytes, one
byte written: 1048575 + 1 equals the capacity. -/
theorem closed_write_rotates_full_file_witness :
    ((New "d/test.log" 1).Write (oneFileOS "d/test.log" (fillFile 1048575 0)) quietEnv [7]).1
      = (([7] : List Byte).length, none) ∧
    ((New "d/test.log" 1).Write (oneFileOS "d/test.log" (fillFile 1048575 0))
        quietEnv [7]).2.2.files (New "d/test.log" 1).Filename = some ⟨[7], (fillFile 1048575 0).mode⟩ :=
  have h := closed_write_rotates_full_file (New "d/test.log" 1)
    (oneFileOS "d/test.log" (fillFile 1048575 0)) quietEnv [7]
    (fillFile 1048575 0) rfl (by simp [oneFileOS, New])
    (by rw [fillFile_length]; decide)
    (Write_closed_succeeds _ _ _ _ rfl (by decide) (by decide) rfl rfl (fun _ => ⟨rfl, rfl⟩) rfl)
  ⟨h.1, h.2.2.2.1⟩

/-- C6: on an open logger whose tracked size plus `len(p)` is within the
capacity, `Write(p)` performs no rotation whatever the environment does (no
goroutine started, no file other than the log file changed), and when the
underlying write is not cut short it returns `(len(p), nil)`, `p` is appended
to the log file and the tracked size grows by `len(p)`. In particular, writing
as many bytes as the capacity one at a time to a fresh logger leaves the log
file, of exactly the capacity, as the only file of its directory, and the
capacity for `MaxSize = 1` is 1048576. -/
theorem open_write_no_rotation (l : Logger) (os : OS) (e : Env) (p : List Byte)
    (hopen : l.file ≠ none) (hc : Consistent l os)
    (hroom : l.size + (p.length : Int) ≤ l.maxSize) :
    (∃ f, os.files l.Filename = some f ∧
      (l.Write os e p).2.2.spawned = os.spawned ∧
      (∀ x, x ≠ l.Filename → (l.Write os e p).2.2.files x = os.files x) ∧
      (e.writeCut = none →
        (l.Write os e p).1 = (p.length, none) ∧
        (l.Write os e p).2.2.files l.Filename = some ⟨f.content ++ p, f.mode⟩ ∧
        (l.Write os e p).2.1 = { l with size := l.size + (p.length : Int) })) ∧
    (∀ (filename : String) (maxSize : Int) (os0 : OS) (bs : List (Env × Byte)),
      (∀ x, Dir x = Dir filename → os0.files x = none) →
      os0.denied filename = false →
      (mkdirAll os0 (Dir filename) false).isSome = true →
      (∀ s ∈ bs, s.1.mkdirErr = false ∧ s.1.openNewErr = false ∧ s.1.writeCut = none) →
      bs ≠ [] → (bs.length : Int) = (New filename maxSize).maxSize →
      (writeAll (New filename maxSize) os0 (bs.map (fun s => (s.1, [s.2])))).1
        = bs.map (fun _ => (1, none)) ∧
      (writeAll (New filename maxSize) os0 (bs.map (fun s => (s.1, [s.2])))).2.2.files filename
        = some ⟨bs.map (fun s => s.2), 0o644⟩ ∧
      (((bs.map (fun s => s.2)).length : Nat) : Int) = (New filename maxSize).maxSize ∧
      (writeAll (New filename maxSize) os0 (bs.map (fun s => (s.1, [s.2])))).2.2.spawned
        = os0.spawned ∧
      (∀ x, Dir x = Dir filename →
        ((writeAll (New filename maxSize) os0 (bs.map (fun s => (s.1, [s.2])))).2.2.files x ≠ none
          ↔ x = filename))) ∧
    (∀ filename : String, (New filename 1).maxSize = 1048576) := by
  refine ⟨?_, writeAll_bytewise,
    fun _ => show wrap64 ((1 : Int) * (1024 * 1024)) = 1048576 by decide⟩
  obtain ⟨h0, hfile⟩ := Option.ne_none_iff_exists'.mp hopen
  obtain ⟨hn, f, hf, hsz⟩ := hc h0 hfile
  have hh : l.file = some ⟨l.Filename⟩ := by rw [hfile, ← hn]
  have hw := Write_open_room l os e p f hh hf (by rw [← hsz]; positivity) hroom
  refine ⟨f, hf, by rw [hw], fun x hx => by rw [hw]; simp [setAt, hx], fun hcut => ?_⟩
  rw [hw]
  simp [hcut, setAt]

/-- Witness of C6: an open logger with 5 of 1048576 bytes used takes 3 more
bytes without rotating, and the 1048576 one-byte writes of the rotation test
leave `d/test.log` as the only file of `d`. -/
theorem open_write_no_rotation_witness :
    ((⟨"d/test.log", 1, some ⟨"d/test.log"⟩, 5⟩ : Logger).Write
        (oneFileOS "d/test.log" ⟨[1, 2, 3, 4, 5], 0o644⟩) quietEnv [6, 7, 8]).1
      = (([6, 7, 8] : List Byte).length, none) ∧
    (∀ x, Dir x = Dir "d/test.log" →
      ((writeAll (New "d/test.log" 1) emptyOS
          (megabyteOfOnes.map (fun s => (s.1, [s.2])))).2.2.files x ≠ none
        ↔ x = "d/test.log")) :=
  have h := open_write_no_rotation ⟨"d/test.log", 1, some ⟨"d/test.log"⟩, 5⟩
    (oneFileOS "d/test.log" ⟨[1, 2, 3, 4, 5], 0o644⟩) quietEnv [6, 7, 8] (by decide)
    (fun h hh => ⟨by cases hh; rfl, ⟨[1, 2, 3, 4, 5], 0o644⟩, by decide, by decide⟩)
    (by decide)
  ⟨Exists.elim h.1 (fun _ hf => (hf.2.2.2 rfl).1),
    (h.2.1 "d/test.log" 1 emptyOS megabyteOfOnes (fun _ _ => rfl) rfl (by decide)
      megabyteOfOnes_quiet megabyteOfOnes_ne_nil
      (by rw [megabyteOfOnes_length]; decide)).2.2.2.2⟩

/-- C7: on an open logger whose tracked size plus `len(p)` exceeds the
capacity, a `Write(p)` that returns a nil error has rotated before writing. The
old handle was closed without error and `rotate` succeeded, leaving the old
file `f` at the backup name, a `compressLogFile` goroutine started on it, a new
empty file at the log path and a tracked size of 0. After the call `len(p)` is
returned, the log file contains exactly `p`, the tracked size is `len(p)`, and
the log file and the backup are two different files of the same directory. -/
theorem open_write_rotates (l : Logger) (os : OS) (e : Env) (p : List Byte)
    (hopen : l.file ≠ none) (hc : Consistent l os)
    (hgt : l.maxSize < l.size + (p.length : Int))
    (hok : (l.Write os e p).1.2 = none) :
    ∃ f, os.files l.Filename = some f ∧ (f.content.length : Int) = l.size ∧
      e.closeErr = false ∧ (l.rotate os e).2.2 = none ∧
      (l.rotate os e).1.file = some ⟨l.Filename⟩ ∧ (l.rotate os e).1.size = 0 ∧
      (l.rotate os e).2.1.files l.Filename = some ⟨[], f.mode⟩ ∧
      (l.rotate os e).2.1.files (backupName l.Filename e.now) = some f ∧
      (l.rotate os e).2.1.spawned = os.spawned ++ [backupName l.Filename e.now] ∧
      (l.Write os e p).1 = (p.length, none) ∧
      (l.Write os e p).2.1.file = some ⟨l.Filename⟩ ∧
      (l.Write os e p).2.1.size = p.length ∧
      (l.Write os e p).2.2.files l.Filename = some ⟨p, f.mode⟩ ∧
      (l.Write os e p).2.2.files (backupName l.Filename e.now) = some f ∧
      (l.Write os e p).2.2.spawned = os.spawned ++ [backupName l.Filename e.now] ∧
      backupName l.Filename e.now ≠ l.Filename ∧
      Dir (backupName l.Filename e.now) = Dir l.Filename :=
  Write_open_full l os e p hopen hc hgt hok

/-- Witness of C7: the second scenario of the rotation test, one more byte
written to a log file that is exactly as large as the capacity. -/
theorem open_write_rotates_witness :
    ∃ f, (oneFileOS "d/test.log" (fillFile 1048576 1)).files
        (⟨"d/test.log", 1, some ⟨"d/test.log"⟩, 1048576⟩ : Logger).Filename = some f ∧
      ((⟨"d/test.log", 1, some ⟨"d/test.log"⟩, 1048576⟩ : Logger).Write
        (oneFileOS "d/test.log" (fillFile 1048576 1)) quietEnv [2]).2.2.files
          (⟨"d/test.log", 1, some ⟨"d/test.log"⟩, 1048576⟩ : Logger).Filename = some ⟨[2], f.mode⟩ :=
  have h := open_write_rotates ⟨"d/test.log", 1, some ⟨"d/test.log"⟩, 1048576⟩
    (oneFileOS "d/test.log" (fillFile 1048576 1)) quietEnv [2] (by simp) fullLogger_consistent
    (by decide)
    (Write_rotate_succeeds _ _ _ _ (by simp) (by decide) (by decide) rfl (by decide) rfl rfl
      (fun _ => ⟨rfl, rfl⟩) rfl)
  h.elim fun f hf => ⟨f, hf.1, hf.2.2.2.2.2.2.2.2.2.2.2.2.1⟩

/-- C8: whatever a call of `Write` does and returns, if it made a backup (it
started a `compressLogFile` goroutine) then exactly one goroutine was started,
on the backup name, which is a path other than the log path, and the file at
the backup name is the file the log path held when the call began, content and
mode: the rotation moves the log file without changing a byte. -/
theorem rotation_backup_identical (l : Logger) (os : OS) (e : Env) (p : List Byte)
    (h : (l.Write os e p).2.2.spawned ≠ os.spawned) :
    ∃ f, os.files l.Filename = some f ∧
      (l.Write os e p).2.2.spawned = os.spawned ++ [backupName l.Filename e.now] ∧
      (l.Write os e p).2.2.files (backupName l.Filename e.now) = some f ∧
      backupName l.Filename e.now ≠ l.Filename := by
  rcases Write_backedUp l os e p with hb | ⟨f, h1, h2, h3⟩
  · exact absurd hb h
  · exact ⟨f, h1, h2, h3, backupName_ne _ _⟩

/-- Witness of C8: a closed logger over a log file of 1048575 bytes and a
one-byte write, which rotates; the backup holds the 1048575 bytes. -/
theorem rotation_backup_identical_witness :
    ∃ f, (oneFileOS "d/test.log" (fillFile 1048575 0)).files (New "d/test.log" 1).Filename
        = some f ∧
      ((New "d/test.log" 1).Write (oneFileOS "d/test.log" (fillFile 1048575 0)) quietEnv
        [7]).2.2.files (backupName (New "d/test.log" 1).Filename quietEnv.now) = some f :=
  have hw := Write_closed_full (New "d/test.log" 1)
    (oneFileOS "d/test.log" (fillFile 1048575 0)) quietEnv [7]
    (fillFile 1048575 0) rfl (by simp [oneFileOS, New])
    (by rw [fillFile_length]; decide)
    (Write_closed_succeeds _ _ _ _ rfl (by decide) (by decide) rfl rfl (fun _ => ⟨rfl, rfl⟩) rfl)
  have h := rotation_backup_identical (New "d/test.log" 1)
    (oneFileOS "d/test.log" (fillFile 1048575 0)) quietEnv [7]
    (by rw [hw.2.2.2.2.2.2.1]; simp [oneFileOS])
  Exists.elim h (fun f hf => ⟨f, hf.1, hf.2.2.1⟩)

/-- C9: a logger made by `New` over a path with no log file, which is
accessible and whose directory can be made, receives the writes
`p1, p2, .., pk` with no failing system call and a total length within the
capacity. Every `Write(pi)` returns `(len(pi), nil)`; the first write makes the
directory of the log path with all its ancestors and creates the log file
holding `p1`; after the last write the log file holds
`p1 ++ p2 ++ .. ++ pk`, the tracked size is the total length, the logger is
open on the log path, and no goroutine was started. -/
theorem fresh_writes_in_order (filename : String) (maxSize : Int) (os : OS) (e1 : Env)
    (p1 : List Byte) (rest : List (Env × List Byte))
    (hnofile : os.files filename = none) (hacc : os.denied filename = false)
    (hdir : (mkdirAll os (Dir filename) false).isSome = true)
    (hquiet : ∀ s ∈ (e1, p1) :: rest,
      s.1.mkdirErr = false ∧ s.1.openNewErr = false ∧ s.1.writeCut = none)
    (hfit : (totalLength ((e1, p1) :: rest) : Int) ≤ (New filename maxSize).maxSize) :
    (writeAll (New filename maxSize) os ((e1, p1) :: rest)).1
      = ((e1, p1) :: rest).map (fun s => (s.2.length, none)) ∧
    (∀ a ∈ ancestors (Dir filename).length (Dir filename),
      ((New filename maxSize).Write os e1 p1).2.2.dirs a = true) ∧
    ((New filename maxSize).Write os e1 p1).2.2.dirs (Dir filename) = true ∧
    ((New filename maxSize).Write os e1 p1).2.2.files filename = some ⟨p1, 0o644⟩ ∧
    (writeAll (New filename maxSize) os ((e1, p1) :: rest)).2.2.files filename
      = some ⟨allBytes ((e1, p1) :: rest), 0o644⟩ ∧
    (writeAll (New filename maxSize) os ((e1, p1) :: rest)).2.1
      = (⟨filename, maxSize, some ⟨filename⟩, (totalLength ((e1, p1) :: rest) : Int)⟩ : Logger) ∧
    (writeAll (New filename maxSize) os ((e1, p1) :: rest)).2.2.spawned = os.spawned := by
  obtain ⟨h1, hc, h3, h4, -, h6⟩ :=
    writeAll_fresh filename maxSize os e1 p1 rest hnofile hacc hdir hquiet hfit
  obtain ⟨-, -, -, c4, c5⟩ := hc
  refine ⟨h1, fun a ha => ?_, ?_, ?_, h4, h3, h6⟩
  · rw [c4]; simp [ha]
  · rw [c4]; simp [mem_ancestors_self]
  · simp [c5 filename]

/-- Witness of C9: `hello` then `world` written to `a/b/test.log` over an empty
file system: both writes return 5 and the file holds the ten bytes in order. -/
theorem fresh_writes_in_order_witness :
    (writeAll (New "a/b/test.log" 1) emptyOS
        [(quietEnv, [104, 101, 108, 108, 111]), (quietEnv, [119, 111, 114, 108, 100])]).1
      = [(5, none), (5, none)] ∧
    ((New "a/b/test.log" 1).Write emptyOS quietEnv [104, 101, 108, 108, 111]).2.2.dirs "a/b"
      = true ∧
    (writeAll (New "a/b/test.log" 1) emptyOS
        [(quietEnv, [104, 101, 108, 108, 111]), (quietEnv, [119, 111, 114, 108, 100])]).2.2.files
        "a/b/test.log"
      = some ⟨[104, 101, 108, 108, 111, 119, 111, 114, 108, 100], 0o644⟩ :=
  have h := fresh_writes_in_order "a/b/test.log" 1 emptyOS quietEnv [104, 101, 108, 108, 111]
    [(quietEnv, [119, 111, 114, 108, 100])] rfl rfl (by decide) (by decide) (by decide)
  ⟨h.1, h.2.2.1, h.2.2.2.2.1⟩

/-- C10: in every state a logger built by `New` can reach, an open logger has
its handle on the log path, the log file exists and the tracked size is the
size of the file on disk. Each call of `Write` that leaves the logger open
leaves a tracked size equal to the size the handle started the call with (the
old tracked size for a handle kept, 0 for a new or rotated file, the size found
by `stat` for a resumed file) plus the count `n` the call returns, with
`n <= len(p)`. When the underlying write is cut after `k < len(p)` bytes, the
call returns `(k, error)` and the tracked size grows by `k`, not by `len(p)`. -/
theorem tracked_size_is_disk_size (filename : String) (maxSize : Int) (l : Logger) (os : OS)
    (hr : Reachable filename maxSize l os) (e : Env) (p : List Byte) :
    (∀ h, l.file = some h → h.name = filename ∧
      ∃ f, os.files filename = some f ∧ (f.content.length : Int) = l.size) ∧
    ((l.Write os e p).2.1.file ≠ none →
      (l.Write os e p).1.1 ≤ p.length ∧
      ((l.file ≠ none ∧ (l.Write os e p).2.1.size = l.size + ((l.Write os e p).1.1 : Int)) ∨
       (l.Write os e p).2.1.size = 0 + ((l.Write os e p).1.1 : Int) ∨
       (l.file = none ∧ ∃ f, os.files filename = some f ∧
          (l.Write os e p).2.1.size = (f.content.length : Int) + ((l.Write os e p).1.1 : Int)))) ∧
    (∀ k, l.file ≠ none → l.size + (p.length : Int) ≤ l.maxSize → e.writeCut = some k →
      k < p.length →
      (l.Write os e p).1 = (k, some Error.write) ∧
      (l.Write os e p).2.1.size = l.size + (k : Int) ∧
      (l.Write os e p).2.1.size ≠ l.size + (p.length : Int)) := by
  obtain ⟨hc, hF, -⟩ := consistent_of_reachable hr
  refine ⟨fun h hh => ?_, fun hafter => ?_, fun k hopen hroom hcut hk => ?_⟩
  · have := hc h hh
    rw [hF] at this
    exact this
  · have := Write_size l os e p hc hafter
    rw [hF] at this
    exact this
  · obtain ⟨h0, hfile⟩ := Option.ne_none_iff_exists'.mp hopen
    obtain ⟨hn, f, hf, hsz⟩ := hc h0 hfile
    have hh : l.file = some ⟨l.Filename⟩ := by rw [hfile, ← hn]
    have hw := Write_open_room l os e p f hh hf (by rw [← hsz]; positivity) hroom
    have hmin : min k p.length = k := Nat.min_eq_left (le_of_lt hk)
    rw [hw]
    simp only [hcut, hmin, Option.isSome_some, if_true]
    refine ⟨trivial, trivial, ?_⟩
    have : (k : Int) < (p.length : Int) := by exact_mod_cast hk
    omega

/-- Witness of C10: after one byte written by `New "d/test.log" 1`, a write of
three bytes that is cut after one byte returns `(1, error)` and the tracked
size grows by 1. -/
theorem tracked_size_is_disk_size_witness :
    (((New "d/test.log" 1).Write emptyOS quietEnv [9]).2.1.Write
        ((New "d/test.log" 1).Write emptyOS quietEnv [9]).2.2 (cutEnv 1) [1, 2, 3]).1
      = (1, some Error.write) ∧
    (((New "d/test.log" 1).Write emptyOS quietEnv [9]).2.1.Write
        ((New "d/test.log" 1).Write emptyOS quietEnv [9]).2.2 (cutEnv 1) [1, 2, 3]).2.1.size
      = ((New "d/test.log" 1).Write emptyOS quietEnv [9]).2.1.size + ((1 : Nat) : Int) :=
  have h := (tracked_size_is_disk_size "d/test.log" 1 _ _
    (Reachable.write quietEnv [9] (Reachable.init emptyOS)) (cutEnv 1) [1, 2, 3]).2.2 1
    (by decide) (by decide) rfl (by decide)
  ⟨h.1, h.2.1⟩

/-- Counterexample of C11: the first write of three bytes to a new log file,
when the underlying `file.Write` stops after two bytes, returns a non-nil error
together with the count 2. -/
theorem short_write_counterexample :
    ((New "d/test.log" 1).Write emptyOS (cutEnv 2) [1, 2, 3]).1 = (2, some Error.write) := by
  decide

/-- C11 (amended): a call of `Write` that returns the error of any step before
the underlying file write (capacity check, `Stat`, `MkdirAll`, `Rename`,
opening the new file, closing the old one) returns the count zero. When the
error is that of the underlying `file.Write`, the count is the one
`file.Write` returned: zero, or the number of bytes written before it stopped.
The count never exceeds `len(p)`. -/
theorem write_error_count (l : Logger) (os : OS) (e : Env) (p : List Byte) :
    (∀ err, (l.Write os e p).1.2 = some err → err ≠ Error.write → (l.Write os e p).1.1 = 0) ∧
    ((l.Write os e p).1.2 = some Error.write →
      (l.Write os e p).1.1 = 0 ∨
        ∃ k, e.writeCut = some k ∧ (l.Write os e p).1.1 = min k p.length) ∧
    (l.Write os e p).1.1 ≤ p.length := by
  rcases Write_result_cases l os e p with ⟨er, h1, h2⟩ | h | h
  · rw [h2]
    exact ⟨fun _ _ _ => rfl, fun _ => Or.inl rfl, Nat.zero_le _⟩
  · rw [h]
    exact ⟨fun _ _ _ => rfl, fun _ => Or.inl rfl, Nat.zero_le _⟩
  · rw [h]
    cases hc : e.writeCut with
    | none =>
      refine ⟨fun err he _ => ?_, fun he => ?_, le_refl _⟩
      · simp at he
      · simp at he
    | some k =>
      refine ⟨fun err he hne => ?_, fun _ => Or.inr ⟨k, rfl, rfl⟩, Nat.min_le_right _ _⟩
      simp only [Option.isSome_some, if_true, Option.some.injEq] at he
      exact absurd he.symm hne

/-- Witness of C11: `MkdirAll` failing on the first write gives `(0, error)`. -/
theorem write_error_count_witness :
    ((New "d/test.log" 1).Write emptyOS { quietEnv with mkdirErr := true } [1, 2, 3]).1.1 = 0 :=
  (write_error_count (New "d/test.log" 1) emptyOS { quietEnv with mkdirErr := true }
    [1, 2, 3]).1 Error.mkdir (by decide) (by decide)

/-- Counterexample of C12: `d/test.log` holds one byte and cannot be opened in
append mode. `Write` of three bytes reports no error: it returns `(3, nil)`,
having moved the existing file to the backup name and written the three bytes
to a new file. -/
theorem append_open_failure_counterexample :
    ((New "d/test.log" 1).Write (oneFileOS "d/test.log" ⟨[7], 0o644⟩)
        { quietEnv with openAppendErr := true } [1, 2, 3]).1 = (3, none) ∧
    ((New "d/test.log" 1).Write (oneFileOS "d/test.log" ⟨[7], 0o644⟩)
        { quietEnv with openAppendErr := true } [1, 2, 3]).2.2.files
          "d/test-2020-01-02T03:04:05Z.log" = some ⟨[7], 0o644⟩ ∧
    ((New "d/test.log" 1).Write (oneFileOS "d/test.log" ⟨[7], 0o644⟩)
        { quietEnv with openAppendErr := true } [1, 2, 3]).2.2.files
          "d/test.log" = some ⟨[1, 2, 3], 0o644⟩ := by
  decide

/-- C12 (amended): when a call of `Write` gets to `openNew` (fresh open, a full
file found on resume, an open file that would overflow, or an existing file
that cannot be opened in append mode), a failure of `MkdirAll`, of `Rename` or
of opening the new file makes the call return zero and the error of that step;
the operating system is left as the failing step found it, so nothing further
was attempted, and the logger has no handle. A failure to open the existing log
file in append mode is not reported: the call goes on with `openNew`, and when
that succeeds it goes on as a call on the newly opened logger. -/
theorem open_failures_reported (l : Logger) (os : OS) (e : Env) (p : List Byte)
    (hp : (p.length : Int) ≤ l.maxSize)
    (hreach : (l.file = none ∧ (stat os l.Filename = StatResult.notExist ∨
        ∃ size mode, stat os l.Filename = StatResult.ok size mode ∧
          (size + (p.length : Int) ≥ l.maxSize ∨
            openAppend os l.Filename e.openAppendErr = none))) ∨
      (l.file ≠ none ∧ l.maxSize < l.size + (p.length : Int) ∧ e.closeErr = false)) :
    (mkdirAll os (Dir l.Filename) e.mkdirErr = none →
      l.Write os e p = ((0, some Error.mkdir), { l with file := none }, os)) ∧
    (∀ os1 size mode, mkdirAll os (Dir l.Filename) e.mkdirErr = some os1 →
      stat os1 l.Filename = StatResult.ok size mode →
      rename os1 l.Filename (backupName l.Filename e.now) e.renameErr = none →
      l.Write os e p = ((0, some Error.rename), { l with file := none }, os1)) ∧
    (∀ os1 size mode os2, mkdirAll os (Dir l.Filename) e.mkdirErr = some os1 →
      stat os1 l.Filename = StatResult.ok size mode →
      rename os1 l.Filename (backupName l.Filename e.now) e.renameErr = some os2 →
      openCreateTrunc { os2 with spawned := os2.spawned ++ [backupName l.Filename e.now] }
        l.Filename mode e.openNewErr = none →
      l.Write os e p = ((0, some Error.openNew), { l with file := none },
        { os2 with spawned := os2.spawned ++ [backupName l.Filename e.now] })) ∧
    (∀ os1, mkdirAll os (Dir l.Filename) e.mkdirErr = some os1 →
      (∀ size mode, stat os1 l.Filename ≠ StatResult.ok size mode) →
      openCreateTrunc os1 l.Filename 0o644 e.openNewErr = none →
      l.Write os e p = ((0, some Error.openNew), { l with file := none }, os1)) ∧
    (l.file = none → (l.openNew os e).2.2 = none →
      l.Write os e p = (l.openNew os e).1.Write (l.openNew os e).2.1 e p) := by
  refine ⟨fun h => ?_, fun os1 size mode h hs hr => ?_, fun os1 size mode os2 h hs hr ho => ?_,
    fun os1 h hs ho => ?_, fun hfile hok => ?_⟩
  · exact Write_openNew_fail l os os e p _ hp hreach (openNew_mkdir_fail _ os e h)
  · exact Write_openNew_fail l os os1 e p _ hp hreach
      (openNew_rename_fail _ os os1 e size mode h hs hr)
  · exact Write_openNew_fail l os _ e p _ hp hreach
      (openNew_open_fail_renamed _ os os1 os2 e size mode h hs hr ho)
  · exact Write_openNew_fail l os os1 e p _ hp hreach (openNew_open_fail_fresh _ os os1 e h hs ho)
  · rcases hreach with ⟨-, hst⟩ | ⟨hopen, -⟩
    · have ho := openExistingOrNew_eq_openNew l os e p.length hfile hst
      rw [Write_closed_eq l os e p hfile hp (by rw [ho]; exact hok), ho]
    · exact absurd hfile hopen

/-- Witness of C12: `d/test.log` holds one byte and cannot be opened in append
mode, and `MkdirAll` fails: `Write` returns zero and the error of `MkdirAll`, and
the operating system is unchanged. -/
theorem open_failures_reported_witness :
    (New "d/test.log" 1).Write (oneFileOS "d/test.log" ⟨[7], 0o644⟩)
        { quietEnv with openAppendErr := true, mkdirErr := true } [1, 2, 3]
      = ((0, some Error.mkdir), { New "d/test.log" 1 with file := none },
          oneFileOS "d/test.log" ⟨[7], 0o644⟩) :=
  (open_failures_reported (New "d/test.log" 1) (oneFileOS "d/test.log" ⟨[7], 0o644⟩)
    { quietEnv with openAppendErr := true, mkdirErr := true } [1, 2, 3] (by decide)
    (Or.inl ⟨rfl, Or.inr ⟨1, 0o644, by decide, Or.inr (by decide)⟩⟩)).1 rfl

/-- Counterexample of C13: a logger open on the full file `d/test.log` (1 MiB,
`MaxSize = 1`) gets one more byte and has to rotate; the log file is moved to
the backup name, then opening the new file fails. `Write` returns the error and
leaves the logger without a handle, with its old tracked size, and with no
file at the log path: neither rotated nor as before the call. -/
theorem failed_rotation_counterexample :
    ((⟨"d/test.log", 1, some ⟨"d/test.log"⟩, 1048576⟩ : Logger).Write
        (oneFileOS "d/test.log" (fillFile 1048576 1))
        { quietEnv with openNewErr := true } [2]).1 = (0, some Error.openNew) ∧
    ((⟨"d/test.log", 1, some ⟨"d/test.log"⟩, 1048576⟩ : Logger).Write
        (oneFileOS "d/test.log" (fillFile 1048576 1))
        { quietEnv with openNewErr := true } [2]).2.1
      = ⟨"d/test.log", 1, none, 1048576⟩ ∧
    ((⟨"d/test.log", 1, some ⟨"d/test.log"⟩, 1048576⟩ : Logger).Write
        (oneFileOS "d/test.log" (fillFile 1048576 1))
        { quietEnv with openNewErr := true } [2]).2.2.files "d/test.log" = none ∧
    ((⟨"d/test.log", 1, some ⟨"d/test.log"⟩, 1048576⟩ : Logger).Write
        (oneFileOS "d/test.log" (fillFile 1048576 1))
        { quietEnv with openNewErr := true } [2]).2.2.files "d/test-2020-01-02T03:04:05Z.log"
      = some (fillFile 1048576 1) := by
  have hw := Write_openNew_fail (⟨"d/test.log", 1, some ⟨"d/test.log"⟩, 1048576⟩ : Logger)
    (oneFileOS "d/test.log" (fillFile 1048576 1)) _
    { quietEnv with openNewErr := true } [2] Error.openNew (by decide)
    (Or.inr ⟨by simp, by decide, rfl⟩)
    (openNew_open_fail_renamed (⟨"d/test.log", 1, none, 1048576⟩ : Logger)
      (oneFileOS "d/test.log" (fillFile 1048576 1))
      { oneFileOS "d/test.log" (fillFile 1048576 1) with
        dirs := fun x => (oneFileOS "d/test.log" (fillFile 1048576 1)).dirs x ||
          decide (x ∈ ancestors (Dir "d/test.log").length (Dir "d/test.log")) }
      { oneFileOS "d/test.log" (fillFile 1048576 1) with
        dirs := fun x => (oneFileOS "d/test.log" (fillFile 1048576 1)).dirs x ||
          decide (x ∈ ancestors (Dir "d/test.log").length (Dir "d/test.log")),
        files := setAt (setAt (oneFileOS "d/test.log" (fillFile 1048576 1)).files
          "d/test.log" none) (backupName "d/test.log" demoTime) (some (fillFile 1048576 1)) }
      { quietEnv with openNewErr := true }
      ((fillFile 1048576 1).content.length : Int) (fillFile 1048576 1).mode rfl rfl rfl rfl)
  rw [hw]
  refine ⟨rfl, rfl, ?_, ?_⟩
  · show setAt (setAt (oneFileOS "d/test.log" (fillFile 1048576 1)).files "d/test.log" none)
      (backupName "d/test.log" demoTime) (some (fillFile 1048576 1)) "d/test.log" = none
    rw [setAt_other _ _ _ _ (by decide), setAt_same]
  · show setAt (setAt (oneFileOS "d/test.log" (fillFile 1048576 1)).files "d/test.log" none)
      (backupName "d/test.log" demoTime) (some (fillFile 1048576 1))
      "d/test-2020-01-02T03:04:05Z.log" = some (fillFile 1048576 1)
    have hb : backupName "d/test.log" demoTime = "d/test-2020-01-02T03:04:05Z.log" := by decide
    rw [hb, setAt_same]

/-- C13 (amended): when a call of `Write` on an open logger has to rotate and
returns an error of the rotation (closing the old handle, `MkdirAll`, `Rename`
or opening the new file failed), it returns zero, and the logger is left
without a handle, its tracked size and configuration as before the call: it
never holds a closed handle, and never a new one. On disk, either every file is
as before the call (the old log file is still at the log path), or, when opening
the new file failed after the rename, the old log file is at the backup name,
its compression has been started, and there is no file at the log path. -/
theorem rotation_failure_state (l : Logger) (os : OS) (e : Env) (p : List Byte) (f : File)
    (err : Error) (hopen : l.file ≠ none) (hf : os.files l.Filename = some f)
    (hp : (p.length : Int) ≤ l.maxSize) (hgt : l.maxSize < l.size + (p.length : Int))
    (herr : (l.Write os e p).1.2 = some err) (hne : err ≠ Error.write) :
    (l.Write os e p).1 = (0, some err) ∧
    (l.Write os e p).2.1 = { l with file := none } ∧
    (((l.Write os e p).2.2.files = os.files ∧ (l.Write os e p).2.2.spawned = os.spawned) ∨
      (err = Error.openNew ∧
        (l.Write os e p).2.2.files l.Filename = none ∧
        (l.Write os e p).2.2.files (backupName l.Filename e.now) = some f ∧
        (∀ x, x ≠ l.Filename → x ≠ backupName l.Filename e.now →
          (l.Write os e p).2.2.files x = os.files x) ∧
        (l.Write os e p).2.2.spawned = os.spawned ++ [backupName l.Filename e.now])) := by
  have hrot := Write_rotation_failed l os e p err hopen hp hgt herr hne
  obtain ⟨h1, h2⟩ := rotate_fail_state l os e f err hopen hf hrot
  rw [Write_rotate_fail l os e p hopen hp hgt err hrot]
  refine ⟨rfl, h1, ?_⟩
  rcases h2 with h2 | ⟨a, b, c⟩
  · exact Or.inl h2
  · refine Or.inr ⟨a, ?_, ?_, fun x hx hb => ?_, c⟩
    · show (l.rotate os e).2.1.files l.Filename = none
      rw [b, setAt_other _ _ _ _ (backupName_ne l.Filename e.now).symm, setAt_same]
    · show (l.rotate os e).2.1.files (backupName l.Filename e.now) = some f
      rw [b, setAt_same]
    · show (l.rotate os e).2.1.files x = os.files x
      rw [b, setAt_other _ _ _ _ hb, setAt_other _ _ _ _ hx]

/-- Witness of C13: the full log file `d/test.log` of a logger with
`MaxSize = 1` cannot be renamed; `Write` of one more byte returns the error of
`Rename` and leaves the logger without a handle. -/
theorem rotation_failure_state_witness :
    ((⟨"d/test.log", 1, some ⟨"d/test.log"⟩, 1048576⟩ : Logger).Write
        (oneFileOS "d/test.log" (fillFile 1048576 1))
        { quietEnv with renameErr := true } [2]).1 = (0, some Error.rename) ∧
    ((⟨"d/test.log", 1, some ⟨"d/test.log"⟩, 1048576⟩ : Logger).Write
        (oneFileOS "d/test.log" (fillFile 1048576 1))
        { quietEnv with renameErr := true } [2]).2.1 = ⟨"d/test.log", 1, none, 1048576⟩ :=
  have hw := Write_openNew_fail (⟨"d/test.log", 1, some ⟨"d/test.log"⟩, 1048576⟩ : Logger)
    (oneFileOS "d/test.log" (fillFile 1048576 1)) _
    { quietEnv with renameErr := true } [2] Error.rename (by decide)
    (Or.inr ⟨by simp, by decide, rfl⟩)
    (openNew_rename_fail (⟨"d/test.log", 1, none, 1048576⟩ : Logger)
      (oneFileOS "d/test.log" (fillFile 1048576 1))
      { oneFileOS "d/test.log" (fillFile 1048576 1) with
        dirs := fun x => (oneFileOS "d/test.log" (fillFile 1048576 1)).dirs x ||
          decide (x ∈ ancestors (Dir "d/test.log").length (Dir "d/test.log")) }
      { quietEnv with renameErr := true }
      ((fillFile 1048576 1).content.length : Int) (fillFile 1048576 1).mode rfl rfl rfl)
  have h := rotation_failure_state (⟨"d/test.log", 1, some ⟨"d/test.log"⟩, 1048576⟩ : Logger)
    (oneFileOS "d/test.log" (fillFile 1048576 1)) { quietEnv with renameErr := true } [2]
    (fillFile 1048576 1) Error.rename (by simp) rfl (by decide) (by decide)
    (by rw [hw]) (by decide)
  ⟨h.1, h.2.1⟩

/-- C14: `close` is idempotent. On a logger with no open handle it returns nil
and the logger unchanged; after any `close`, whether or not the underlying
`file.Close()` reported an error, the handle is nil and nothing else of the
logger has changed; a second `close` returns nil, whatever its environment,
and leaves the state the first one left. -/
theorem close_idempotent (l : Logger) (e e2 : Env) :
    ({ l with file := none } : Logger).close e = ({ l with file := none }, none) ∧
    (l.close e).1 = { l with file := none } ∧
    ((l.close e).1.close e2).2 = none ∧
    ((l.close e).1.close e2).1 = (l.close e).1 ∧
    (l.close e).2 = (if l.file.isSome && e.closeErr then some Error.close else none) := by
  cases l with
  | mk fn ms file size =>
    cases file with
    | none => simp [Logger.close]
    | some h => simp [Logger.close]

/-- C15: for every path and instant, the backup name is
`Join(Dir(path), stem + "-" + RFC3339(now) + ext)`, where `ext` is the
extension of the base filename and `stem ++ ext` is the base filename; it lies
in the directory of the path. `logs/test.log` at 2020-01-02T03:04:05Z gives
`logs/test-2020-01-02T03:04:05Z.log`. -/
theorem backupName_formula (name : String) (now : Time) :
    (∃ stem ext, ext = extChars (baseChars name.data) ∧ stem ++ ext = baseChars name.data ∧
      backupName name now
        = String.mk (joinChars (Dir name).data (stem ++ ['-'] ++ rfc3339 now ++ ext))) ∧
    Dir (backupName name now) = Dir name ∧
    String.mk (rfc3339 demoTime) = "2020-01-02T03:04:05Z" ∧
    backupName "logs/test.log" demoTime = "logs/test-2020-01-02T03:04:05Z.log" := by
  refine ⟨⟨_, _, rfl, extChars_split (baseChars name.data), ?_⟩, Dir_backupName name now,
    by decide, by decide⟩
  unfold backupName Dir
  simp

/-- Counterexample of C16: two different instants within one second give the
same backup name. -/
theorem same_second_names_counterexample :
    (⟨2020, 1, 2, 3, 4, 5, 0⟩ : Time) ≠ ⟨2020, 1, 2, 3, 4, 5, 500000000⟩ ∧
    backupName "d/test.log" ⟨2020, 1, 2, 3, 4, 5, 0⟩
      = backupName "d/test.log" ⟨2020, 1, 2, 3, 4, 5, 500000000⟩ := by
  decide

/-- C16 (amended): for two instants with four-digit years, the backup names of
one log path are equal exactly when the instants agree in year, month, day,
hour, minute and second; rotations begun in different seconds get different
backup names. -/
theorem backupName_distinct_seconds (name : String) (t1 t2 : Time)
    (h1 : t1.InRange) (h2 : t2.InRange) :
    backupName name t1 = backupName name t2 ↔
      (t1.year = t2.year ∧ t1.month = t2.month ∧ t1.day = t2.day ∧ t1.hour = t2.hour ∧
        t1.minute = t2.minute ∧ t1.second = t2.second) := by
  constructor
  · intro h
    exact rfc3339_inj t1 t2 h1 h2 (backupName_inj name t1 t2 h)
  · rintro ⟨a, b, c, d, f, g⟩
    unfold backupName rfc3339
    rw [a, b, c, d, f, g]

/-- Witness of C16: rotations of `d/test.log` at 03:04:05 and at 03:04:06 of
the same day get different backup names. -/
theorem backupName_distinct_seconds_witness :
    backupName "d/test.log" ⟨2020, 1, 2, 3, 4, 5, 0⟩
      ≠ backupName "d/test.log" ⟨2020, 1, 2, 3, 4, 6, 0⟩ :=
  fun h => absurd ((backupName_distinct_seconds "d/test.log" ⟨2020, 1, 2, 3, 4, 5, 0⟩
    ⟨2020, 1, 2, 3, 4, 6, 0⟩ (by decide) (by decide)).mp h).2.2.2.2.2 (by decide)

/-- C18: for every existing readable file at `name`, when no step of
`compressLogFile` fails, nothing is reported, afterwards there is no file at
`name`, there is a file at `name + ".gz"`, every other path holds what it held
before, and directories, access rights and started goroutines are unchanged. -/
theorem compress_effect (g : Gzip) (os : OS) (ce : CompressEnv) (name : String) (f : File)
    (hf : os.files name = some f) (hd : os.denied name = false)
    (hdg : os.denied (name ++ ".gz") = false) (hdir : os.dirs (Dir (name ++ ".gz")) = true)
    (ho : ce.openErr = false) (hc : ce.createErr = false) (hcp : ce.copyErr = none)
    (hr : ce.removeErr = false) (hcl : ce.closeCut = none) :
    (compressLogFile g os ce name).2 = none ∧
    (compressLogFile g os ce name).1.files name = none ∧
    (∃ z, (compressLogFile g os ce name).1.files (name ++ ".gz") = some z) ∧
    (∀ x, x ≠ name → x ≠ name ++ ".gz" →
      (compressLogFile g os ce name).1.files x = os.files x) ∧
    (compressLogFile g os ce name).1.dirs = os.dirs ∧
    (compressLogFile g os ce name).1.denied = os.denied ∧
    (compressLogFile g os ce name).1.spawned = os.spawned := by
  obtain ⟨h1, h2, h3⟩ := compressLogFile_ok g os ce name f hf hd hdg hdir ho hc hcp hr
    (g.stream f.content) (by rw [hcl]; rfl)
  obtain ⟨f1, f2, f3, f4⟩ := compressLogFile_frame g os ce name
  exact ⟨h1, h2, ⟨_, h3⟩, f4, f1, f2, f3⟩

/-- Witness of C18: after `compressLogFile` on `d/test.log` holding "ABC", with
`d/other.log` beside it, `d/test.log` is gone, `d/test.log.gz` is there, and
`d/other.log` holds what it held. -/
theorem compress_effect_witness :
    (compressLogFile demoGzip
      { oneFileOS "d/test.log" ⟨[65, 66, 67], 0o644⟩ with
        files := fun x => if x = "d/test.log" then some ⟨[65, 66, 67], 0o644⟩
          else if x = "d/other.log" then some ⟨[1], 0o600⟩ else none }
      quietCompress "d/test.log").1.files "d/test.log" = none ∧
    (∃ z, (compressLogFile demoGzip
      { oneFileOS "d/test.log" ⟨[65, 66, 67], 0o644⟩ with
        files := fun x => if x = "d/test.log" then some ⟨[65, 66, 67], 0o644⟩
          else if x = "d/other.log" then some ⟨[1], 0o600⟩ else none }
      quietCompress "d/test.log").1.files "d/test.log.gz" = some z) ∧
    (compressLogFile demoGzip
      { oneFileOS "d/test.log" ⟨[65, 66, 67], 0o644⟩ with
        files := fun x => if x = "d/test.log" then some ⟨[65, 66, 67], 0o644⟩
          else if x = "d/other.log" then some ⟨[1], 0o600⟩ else none }
      quietCompress "d/test.log").1.files "d/other.log" = some ⟨[1], 0o600⟩ :=
  have h := compress_effect demoGzip
    { oneFileOS "d/test.log" ⟨[65, 66, 67], 0o644⟩ with
      files := fun x => if x = "d/test.log" then some ⟨[65, 66, 67], 0o644⟩
        else if x = "d/other.log" then some ⟨[1], 0o600⟩ else none }
    quietCompress "d/test.log" ⟨[65, 66, 67], 0o644⟩ (by decide) rfl rfl (by decide) rfl rfl rfl
    rfl rfl
  ⟨h.2.1, h.2.2.1, (h.2.2.2.1 "d/other.log" (by decide) (by decide)).trans (by decide)⟩

/-- C19: whatever happens in the dispatched `compressLogFile` (every codec and
every outcome `ce` of its steps, failures included), a call of `Write` whose
goroutine runs to completion at the `go` statement returns the same count and
error, and leaves the same handle and tracked size, as the call whose goroutine
has not run; the file system it leaves is the one the goroutine makes of the
other when run afterwards. `compressLogFile` starts no goroutine, so nothing
is tried again; it prints at most one message, and the messages of its first
two steps are printed before anything has been changed. -/
theorem compress_failure_not_surfaced (g : Gzip) (ce : CompressEnv) (l : Logger) (os : OS)
    (e : Env) (p : List Byte) :
    (l.WriteGo (fun o b => (compressLogFile g o ce b).1) os e p).1 = (l.Write os e p).1 ∧
    (l.WriteGo (fun o b => (compressLogFile g o ce b).1) os e p).2.1 = (l.Write os e p).2.1 ∧
    ((l.WriteGo (fun o b => (compressLogFile g o ce b).1) os e p).2.2 = (l.Write os e p).2.2 ∨
      (l.WriteGo (fun o b => (compressLogFile g o ce b).1) os e p).2.2
        = (compressLogFile g (l.Write os e p).2.2 ce (backupName l.Filename e.now)).1) ∧
    (∀ o b, (compressLogFile g o ce b).1.spawned = o.spawned) ∧
    (∀ o b, ((compressLogFile g o ce b).2 = some Diagnostic.openLog ∨
        (compressLogFile g o ce b).2 = some Diagnostic.createGz) →
      (compressLogFile g o ce b).1 = o) := by
  have hb := backupName_ne l.Filename e.now
  have hgz := backupName_gz_ne l.Filename e.now
  have h := WriteGo_sim (fun o b => (compressLogFile g o ce b).1) l os e p
    (fun o v => by
      simp only [compressLogFile_setAt g o ce l.Filename (backupName l.Filename e.now) v hb hgz])
    (fun o => by
      obtain ⟨f1, f2, -, f4⟩ := compressLogFile_frame g o ce (backupName l.Filename e.now)
      exact ⟨f4 _ hb.symm hgz.symm, f1, f2⟩)
  exact ⟨h.1, h.2.1, h.2.2, fun o b => (compressLogFile_frame g o ce b).2.2.1,
    fun o b hd => compressLogFile_early g o ce b hd⟩

/-- Counterexample of C20: with `MaxSize = 2^43` the product `2^43 * 1048576 = 2^63`
does not fit an `int64`: `maxSize()` is `-2^63`, not the exact product. -/
theorem maxSize_wraps_counterexample :
    (New "test.log" 8796093022208).maxSize = -9223372036854775808 ∧
    (New "test.log" 8796093022208).maxSize ≠ 8796093022208 * 1048576 := by
  decide

/-- C20: `maxSize()` is the exact product `MaxSize * 1048576` exactly when
`-2^43 <= MaxSize < 2^43`, the range in which the product fits an `int64`; in
particular 1 gives 1048576 and 10 gives 10485760. -/
theorem maxSize_exact (l : Logger) :
    (l.maxSize = l.MaxSize * 1048576 ↔ -8796093022208 ≤ l.MaxSize ∧ l.MaxSize < 8796093022208) ∧
    (New "test.log" 1).maxSize = 1048576 ∧ (New "test.log" 10).maxSize = 10485760 := by
  refine ⟨?_, by decide, by decide⟩
  unfold Logger.maxSize wrap64
  dsimp only
  constructor
  · intro h
    constructor <;> omega
  · rintro ⟨h1, h2⟩
    omega

/-- C21: `New` returns a logger with no handle, tracked size 0 and the given
`Filename` and `MaxSize`. In every state a logger built by `New` can reach,
a call of `Write` that returns a nil error leaves the logger with a handle on
the log path and the log file present (also when the call rotated); `close`
leaves it without a handle; and a later call of `Write` that returns a nil
error leaves it with a handle on the log path and the log file present again. -/
theorem closed_open_cycle (filename : String) (maxSize : Int) (l : Logger) (os : OS)
    (hr : Reachable filename maxSize l os) (e e2 : Env) (p : List Byte) :
    New filename maxSize = ⟨filename, maxSize, none, 0⟩ ∧
    ((l.Write os e p).1.2 = none →
      (l.Write os e p).2.1.file = some ⟨filename⟩ ∧
      ∃ f, (l.Write os e p).2.2.files filename = some f) ∧
    (l.close e).1.file = none ∧
    (((l.close e).1.Write os e2 p).1.2 = none →
      ((l.close e).1.Write os e2 p).2.1.file = some ⟨filename⟩ ∧
      ∃ f, ((l.close e).1.Write os e2 p).2.2.files filename = some f) := by
  obtain ⟨hc, hF, -⟩ := consistent_of_reachable hr
  have hclosed : (l.close e).1.file = none := by
    unfold Logger.close
    cases hf : l.file with
    | none => exact hf
    | some h0 => rfl
  have hFc : (l.close e).1.Filename = l.Filename := by
    unfold Logger.close
    cases l.file <;> rfl
  have key : ∀ (l1 : Logger) (e1 : Env), l1.Filename = filename → Consistent l1 os →
      (l1.Write os e1 p).1.2 = none →
      (l1.Write os e1 p).2.1.file = some ⟨filename⟩ ∧
      ∃ f, (l1.Write os e1 p).2.2.files filename = some f := by
    intro l1 e1 h1 hc1 hok
    obtain ⟨hF1, -, hc2, hopen⟩ := Write_post l1 os e1 p hc1
    obtain ⟨-, hfile, -⟩ := hopen hok
    rw [h1] at hfile hF1
    obtain ⟨-, f, hf, -⟩ := hc2 _ hfile
    rw [hF1] at hf
    exact ⟨hfile, f, hf⟩
  refine ⟨rfl, key l e hF hc, hclosed, key _ e2 (hFc.trans hF) ?_⟩
  intro h hh
  rw [hclosed] at hh
  exact absurd hh (by simp)

/-- Witness of C21: the first write of `New "d/test.log" 1` opens the log file. -/
theorem closed_open_cycle_witness :
    ((New "d/test.log" 1).Write emptyOS quietEnv [9]).2.1.file = some ⟨"d/test.log"⟩ :=
  ((closed_open_cycle "d/test.log" 1 _ _ (Reachable.init emptyOS) quietEnv quietEnv [9]).2.1
    (by decide)).1

/-- C23: `compressLogFile` removes the file before the gzip writer is closed.
When every step up to `os.Remove` succeeds and the deferred `gz.Close()` then
fails after passing on `k` bytes, fewer than it had to, nothing is printed, the
file is gone, and the new `.gz` file holds only what had been written until
then, which is shorter than the gzip stream of the content. -/
theorem remove_before_close (g : Gzip) (os : OS) (ce : CompressEnv) (name : String)
    (f : File) (k : Nat)
    (hf : os.files name = some f) (hd : os.denied name = false)
    (hdg : os.denied (name ++ ".gz") = false) (hdir : os.dirs (Dir (name ++ ".gz")) = true)
    (ho : ce.openErr = false) (hc : ce.createErr = false) (hcp : ce.copyErr = none)
    (hr : ce.removeErr = false) (hcl : ce.closeCut = some k)
    (hk : k < (g.closed f.content).length) (hnew : os.files (name ++ ".gz") = none) :
    (compressLogFile g os ce name).2 = none ∧
    (compressLogFile g os ce name).1.files name = none ∧
    (compressLogFile g os ce name).1.files (name ++ ".gz")
      = some ⟨g.copied f.content ++ (g.closed f.content).take k, 0o644⟩ ∧
    (g.copied f.content ++ (g.closed f.content).take k).length
      < (g.stream f.content).length := by
  obtain ⟨h1, h2, h3⟩ := compressLogFile_ok g os ce name f hf hd hdg hdir ho hc hcp hr
    (g.copied f.content ++ (g.closed f.content).take k) (by rw [hcl])
  refine ⟨h1, h2, ?_, ?_⟩
  · rw [h3, hnew]
    simp
  · simp only [Gzip.stream, List.length_append, List.length_take]
    omega

/-- Witness of C23: `d/test.log` holds "ABC" and `gz.Close()` fails before it
has written anything: `d/test.log` is gone, nothing is printed, and
`d/test.log.gz` holds a stream without its end, which cannot be read back. -/
theorem remove_before_close_witness :
    (compressLogFile demoGzip (oneFileOS "d/test.log" ⟨[65, 66, 67], 0o644⟩)
        { quietCompress with closeCut := some 0 } "d/test.log").2 = none ∧
    (compressLogFile demoGzip (oneFileOS "d/test.log" ⟨[65, 66, 67], 0o644⟩)
        { quietCompress with closeCut := some 0 } "d/test.log").1.files "d/test.log" = none ∧
    (compressLogFile demoGzip (oneFileOS "d/test.log" ⟨[65, 66, 67], 0o644⟩)
        { quietCompress with closeCut := some 0 } "d/test.log").1.files "d/test.log.gz"
      = some ⟨[31, 139, 65, 66, 67], 0o644⟩ ∧
    demoGzip.gunzip [31, 139, 65, 66, 67] = none :=
  have h := remove_before_close demoGzip (oneFileOS "d/test.log" ⟨[65, 66, 67], 0o644⟩)
    { quietCompress with closeCut := some 0 } "d/test.log" ⟨[65, 66, 67], 0o644⟩ 0
    (by decide) rfl rfl (by decide) rfl rfl rfl rfl rfl (by decide) (by decide)
  ⟨h.1, h.2.1, h.2.2.1, by decide⟩

/-- C24: every call of `Write` starts at most one compression, and then on the
backup name of the instant of the call, to which the log file was renamed.
When the resume step of a closed logger has succeeded (whether it resumed,
created or rotated), the capacity check that follows does not fire, because
the tracked size is then 0 or leaves room for `p` and `len(p)` is within the
capacity: the call starts exactly the goroutines the resume step started. -/
theorem one_rotation_per_write (l : Logger) (os : OS) (e : Env) (p : List Byte) :
    ((l.Write os e p).2.2.spawned = os.spawned ∨
      ∃ f, os.files l.Filename = some f ∧
        (l.Write os e p).2.2.spawned = os.spawned ++ [backupName l.Filename e.now] ∧
        (l.Write os e p).2.2.files (backupName l.Filename e.now) = some f) ∧
    (l.file = none → (p.length : Int) ≤ l.maxSize →
      (l.openExistingOrNew os e p.length).2.2 = none →
      ¬ ((l.openExistingOrNew os e p.length).1.maxSize
          < (l.openExistingOrNew os e p.length).1.size + (p.length : Int)) ∧
      (l.Write os e p).2.2.spawned = (l.openExistingOrNew os e p.length).2.1.spawned) := by
  refine ⟨Write_backedUp l os e p, fun hfile hp ho => ?_⟩
  obtain ⟨hF, hM, hok, -⟩ := openExistingOrNew_summary l os e p.length hfile
  obtain ⟨h1, ⟨f, hf, hsz⟩, h3⟩ := hok ho
  have hroom : (l.openExistingOrNew os e p.length).1.size + (p.length : Int)
      ≤ (l.openExistingOrNew os e p.length).1.maxSize := by
    rw [maxSize_congr hM]
    rcases h3 with h3 | h3
    · rw [h3]; simpa using hp
    · exact le_of_lt h3
  refine ⟨not_lt.mpr hroom, ?_⟩
  rw [Write_closed_eq l os e p hfile hp ho,
    Write_open_room (l.openExistingOrNew os e p.length).1 (l.openExistingOrNew os e p.length).2.1
      e p f (by rw [h1, hF]) (by rw [hF]; exact hf) (by rw [← hsz]; positivity) hroom]

/-- Witness of C24: `d/test.log` cannot be opened in append mode, so the resume
step moves it to the backup name and starts its compression; the write that
follows starts nothing more. -/
theorem one_rotation_per_write_witness :
    ((New "d/test.log" 1).Write (oneFileOS "d/test.log" ⟨[7], 0o644⟩)
        { quietEnv with openAppendErr := true } [1, 2, 3]).2.2.spawned
      = ((New "d/test.log" 1).openExistingOrNew (oneFileOS "d/test.log" ⟨[7], 0o644⟩)
        { quietEnv with openAppendErr := true } 3).2.1.spawned :=
  ((one_rotation_per_write (New "d/test.log" 1) (oneFileOS "d/test.log" ⟨[7], 0o644⟩)
    { quietEnv with openAppendErr := true } [1, 2, 3]).2 rfl (by decide) (by decide)).2

/-- Counterexample of C25: two closed loggers on `d/test.log` that differ only
in the tracked size (0 and 5) make the same failing call of `Write`
(`MkdirAll` fails). Both return the same error, and the tracked sizes
afterwards are 0 and 5: the resulting tracked size is the one left there
before. -/
theorem stale_size_kept_counterexample :
    ((⟨"d/test.log", 1, none, 0⟩ : Logger).Write emptyOS
        { quietEnv with mkdirErr := true } [1]).1 = (0, some Error.mkdir) ∧
    ((⟨"d/test.log", 1, none, 5⟩ : Logger).Write emptyOS
        { quietEnv with mkdirErr := true } [1]).1 = (0, some Error.mkdir) ∧
    ((⟨"d/test.log", 1, none, 0⟩ : Logger).Write emptyOS
        { quietEnv with mkdirErr := true } [1]).2.1.size = 0 ∧
    ((⟨"d/test.log", 1, none, 5⟩ : Logger).Write emptyOS
        { quietEnv with mkdirErr := true } [1]).2.1.size = 5 := by
  decide

/-- C25 (amended): for a logger without a handle, the value returned by
`Write`, the operating system it leaves and the handle it leaves do not depend
on the tracked size the logger had. When the call leaves the logger open, the
tracked size it leaves does not depend on it either; when the call leaves the
logger without a handle, the tracked size is still the one it had. -/
theorem stale_size_not_read (l : Logger) (os : OS) (e : Env) (p : List Byte) (s : Int)
    (hfile : l.file = none) :
    (({ l with size := s } : Logger).Write os e p).1 = (l.Write os e p).1 ∧
    (({ l with size := s } : Logger).Write os e p).2.2 = (l.Write os e p).2.2 ∧
    (({ l with size := s } : Logger).Write os e p).2.1.file = (l.Write os e p).2.1.file ∧
    ((l.Write os e p).2.1.file ≠ none →
      (({ l with size := s } : Logger).Write os e p).2.1 = (l.Write os e p).2.1) ∧
    ((l.Write os e p).2.1.file = none →
      (({ l with size := s } : Logger).Write os e p).2.1
        = { (l.Write os e p).2.1 with size := s } ∧
      (l.Write os e p).2.1.size = l.size) := by
  have hfile2 : ({ l with size := s } : Logger).file = none := hfile
  by_cases hp : (p.length : Int) ≤ l.maxSize
  · obtain ⟨o1, o2⟩ := openExistingOrNew_size l os e p.length s hfile
    obtain ⟨hF, hM, hok, hfail⟩ := openExistingOrNew_summary l os e p.length hfile
    cases herr : (l.openExistingOrNew os e p.length).2.2 with
    | some err =>
      have herr2 : (({ l with size := s } : Logger).openExistingOrNew os e p.length).2.2
          = some err := by rw [o1, herr]
      have hun := openExistingOrNew_fail_logger l os e p.length hfile (by rw [herr]; simp)
      rw [Write_closed_fail _ os e p hfile2 hp err herr2,
        Write_closed_fail l os e p hfile hp err herr, o1, o2, herr, hun]
      simp only [reduceCtorEq, if_false]
      exact ⟨trivial, trivial, trivial, fun h => absurd hfile h, fun _ => ⟨trivial, trivial⟩⟩
    | none =>
      have herr2 : (({ l with size := s } : Logger).openExistingOrNew os e p.length).2.2
          = none := by rw [o1, herr]
      have heq : ({ l with size := s } : Logger).Write os e p = l.Write os e p := by
        rw [Write_closed_eq _ os e p hfile2 hp herr2, Write_closed_eq l os e p hfile hp herr,
          o1, o2, herr]
        simp only [if_true]
      rw [heq]
      refine ⟨rfl, rfl, rfl, fun _ => rfl, fun h => ?_⟩
      exfalso
      obtain ⟨h1, ⟨f, hf, hsz⟩, h3⟩ := hok herr
      have hroom : (l.openExistingOrNew os e p.length).1.size + (p.length : Int)
          ≤ (l.openExistingOrNew os e p.length).1.maxSize := by
        rw [maxSize_congr hM]
        rcases h3 with h3 | h3
        · rw [h3]; simpa using hp
        · exact le_of_lt h3
      rw [Write_closed_eq l os e p hfile hp herr,
        Write_open_room (l.openExistingOrNew os e p.length).1
          (l.openExistingOrNew os e p.length).2.1 e p f (by rw [h1, hF]) (by rw [hF]; exact hf)
          (by rw [← hsz]; positivity) hroom] at h
      simp only at h
      rw [h1] at h
      exact absurd h (by simp)
  · have hgt : l.maxSize < (p.length : Int) := not_le.mp hp
    have hgt2 : ({ l with size := s } : Logger).maxSize < (p.length : Int) := hgt
    rw [Write_too_large _ os e p hgt2, Write_too_large l os e p hgt]
    exact ⟨rfl, rfl, rfl, fun h => absurd hfile h, fun _ => ⟨rfl, rfl⟩⟩

/-- Witness of C25: with `d/test.log` absent, a closed logger whose tracked size
is 5 and one whose tracked size is 0 return the same from `Write` of one byte
and are left in the same state. -/
theorem stale_size_not_read_witness :
    ((⟨"d/test.log", 1, none, 5⟩ : Logger).Write emptyOS quietEnv [1]).1
      = ((⟨"d/test.log", 1, none, 0⟩ : Logger).Write emptyOS quietEnv [1]).1 ∧
    ((⟨"d/test.log", 1, none, 5⟩ : Logger).Write emptyOS quietEnv [1]).2.1
      = ((⟨"d/test.log", 1, none, 0⟩ : Logger).Write emptyOS quietEnv [1]).2.1 :=
  have h := stale_size_not_read ⟨"d/test.log", 1, none, 0⟩ emptyOS quietEnv [1] 5 rfl
  ⟨h.1, h.2.2.2.1 (by decide)⟩

/-- C26: the `.gz` file is opened without truncation. When no step of
`compressLogFile` fails and there is an earlier `.gz` file longer than the gzip
stream of the content, the `.gz` file afterwards holds the stream followed by
the end of the earlier content, which is not empty. -/
theorem gz_keeps_old_tail (g : Gzip) (os : OS) (ce : CompressEnv) (name : String)
    (f old : File)
    (hf : os.files name = some f) (hd : os.denied name = false)
    (hdg : os.denied (name ++ ".gz") = false) (hdir : os.dirs (Dir (name ++ ".gz")) = true)
    (ho : ce.openErr = false) (hc : ce.createErr = false) (hcp : ce.copyErr = none)
    (hr : ce.removeErr = false) (hcl : ce.closeCut = none)
    (hold : os.files (name ++ ".gz") = some old)
    (hlong : (g.stream f.content).length < old.content.length) :
    (compressLogFile g os ce name).2 = none ∧
    (compressLogFile g os ce name).1.files (name ++ ".gz")
      = some ⟨g.stream f.content ++ old.content.drop (g.stream f.content).length, old.mode⟩ ∧
    old.content.drop (g.stream f.content).length ≠ [] ∧
    g.stream f.content ++ old.content.drop (g.stream f.content).length
      ≠ g.stream f.content := by
  obtain ⟨h1, -, h3⟩ := compressLogFile_ok g os ce name f hf hd hdg hdir ho hc hcp hr
    (g.stream f.content) (by rw [hcl]; rfl)
  have hne : old.content.drop (g.stream f.content).length ≠ [] := by
    intro h
    have := congrArg List.length h
    simp only [List.length_drop, List.length_nil] at this
    omega
  refine ⟨h1, ?_, hne, ?_⟩
  · rw [h3, hold]
    rfl
  · intro h
    exact hne (List.append_right_eq_self.mp h)

/-- Witness of C26: `d/test.log` holds "ABC" and there is an earlier
`d/test.log.gz` of 40 bytes of value 9. Afterwards `d/test.log.gz` holds the
stream followed by the bytes of value 9 that lay beyond it: it still has 40
bytes and ends with bytes of the earlier file. -/
theorem gz_keeps_old_tail_witness :
    (compressLogFile demoGzip staleGzOS quietCompress "d/test.log").2 = none ∧
    (compressLogFile demoGzip staleGzOS quietCompress "d/test.log").1.files "d/test.log.gz"
      = some ⟨demoGzip.stream [65, 66, 67] ++
          (List.replicate 40 9).drop (demoGzip.stream [65, 66, 67]).length, 0o644⟩ ∧
    (demoGzip.stream [65, 66, 67] ++
        (List.replicate 40 9).drop (demoGzip.stream [65, 66, 67]).length).length = 40 ∧
    (List.replicate 40 (9 : Byte)).drop (demoGzip.stream [65, 66, 67]).length ≠ [] :=
  have h := gz_keeps_old_tail demoGzip staleGzOS quietCompress "d/test.log"
    ⟨[65, 66, 67], 0o644⟩ ⟨List.replicate 40 9, 0o644⟩
    (by decide) rfl rfl (by decide) rfl rfl rfl rfl rfl (by decide) (by decide)
  ⟨h.1, h.2.1, by decide, h.2.2.1⟩

/-- C27: for every log path and instant, the backup name differs from the log
path as written and from the cleaned log path, and lies in the directory of the
log path. So in a successful `openNew` that finds a log file, the rename does
not put the file onto itself, and after the new file has been created and
truncated at the log path the backup holds the whole content found. -/
theorem backupName_safe (name : String) (now : Time) :
    backupName name now ≠ name ∧
    (backupName name now).data ≠ cleanChars name.data ∧
    Dir (backupName name now) = Dir name ∧
    (∀ (l : Logger) (os : OS) (e : Env) (f : File), l.Filename = name → e.now = now →
      os.files name = some f → (l.openNew os e).2.2 = none →
      (l.openNew os e).2.1.files (backupName name now) = some f ∧
      (l.openNew os e).2.1.files name = some ⟨[], f.mode⟩) := by
  refine ⟨backupName_ne name now, backupName_ne_clean name now, Dir_backupName name now,
    fun l os e f hl he hf hok => ?_⟩
  subst hl he
  obtain ⟨-, -, -, -, -, -, hcase⟩ := openNew_ok l os e hok
  rcases hcase with ⟨hnone, -⟩ | ⟨f1, hf1, -, -, -, hfiles⟩
  · rw [hf] at hnone
    exact absurd hnone (by simp)
  · rw [hf] at hf1
    obtain rfl := Option.some.inj hf1
    refine ⟨?_, ?_⟩
    · rw [hfiles, if_neg (backupName_ne l.Filename e.now), if_pos rfl]
    · rw [hfiles, if_pos rfl]

/-- Witness of C27: `openNew` on `d/test.log` holding one byte leaves that byte
at the backup name and an empty file at `d/test.log`. -/
theorem backupName_safe_witness :
    ((New "d/test.log" 1).openNew (oneFileOS "d/test.log" ⟨[7], 0o644⟩) quietEnv).2.1.files
        (backupName "d/test.log" demoTime) = some ⟨[7], 0o644⟩ ∧
    ((New "d/test.log" 1).openNew (oneFileOS "d/test.log" ⟨[7], 0o644⟩) quietEnv).2.1.files
        "d/test.log" = some ⟨[], 0o644⟩ :=
  (backupName_safe "d/test.log" demoTime).2.2.2 (New "d/test.log" 1)
    (oneFileOS "d/test.log" ⟨[7], 0o644⟩) quietEnv ⟨[7], 0o644⟩ rfl rfl (by decide) (by decide)

/-- C28: when `compressLogFile` fails to open the file, to create the `.gz`
file, or while copying into the gzip writer, it prints the message of that step
and the file it was given is afterwards what it was before: it has not been
removed and its content is unchanged. -/
theorem compress_failure_keeps_original (g : Gzip) (os : OS) (ce : CompressEnv)
    (name : String) :
    (((compressLogFile g os ce name).2 = some Diagnostic.openLog ∨
        (compressLogFile g os ce name).2 = some Diagnostic.createGz ∨
        (compressLogFile g os ce name).2 = some Diagnostic.compress) →
      (compressLogFile g os ce name).1.files name = os.files name) ∧
    (openRead os name ce.openErr = none →
      (compressLogFile g os ce name).2 = some Diagnostic.openLog) ∧
    (∀ f, openRead os name ce.openErr = some f →
      openCreate os (name ++ ".gz") 0o644 ce.createErr = none →
      (compressLogFile g os ce name).2 = some Diagnostic.createGz) ∧
    (∀ f r reached, openRead os name ce.openErr = some f →
      openCreate os (name ++ ".gz") 0o644 ce.createErr = some r →
      ce.copyErr = some reached →
      (compressLogFile g os ce name).2 = some Diagnostic.compress) := by
  refine ⟨fun h => compressLogFile_reported g os ce name ?_, compressLogFile_messages g os ce name⟩
  rcases h with h | h | h <;> rw [h] <;> simp

/-- Witness of C28: copying `d/test.log` into the gzip writer fails after two
bytes have reached `d/test.log.gz`; `d/test.log` still holds "ABC". -/
theorem compress_failure_keeps_original_witness :
    (compressLogFile demoGzip (oneFileOS "d/test.log" ⟨[65, 66, 67], 0o644⟩)
        { quietCompress with copyErr := some [31, 139] } "d/test.log").1.files "d/test.log"
      = some ⟨[65, 66, 67], 0o644⟩ :=
  ((compress_failure_keeps_original demoGzip (oneFileOS "d/test.log" ⟨[65, 66, 67], 0o644⟩)
    { quietCompress with copyErr := some [31, 139] } "d/test.log").1
    (Or.inr (Or.inr (by decide)))).trans (by decide)

end Creek

namespace Todos

/-- C29: for every `GetParams` with `Completed` set and `Created` nil, building
the query dereferences the nil `Created` pointer and panics. When both are set,
the value bound to the `completed=?` placeholder is the value of `Created`, not
that of `Completed`. Whenever the query is built, the number of `?`
placeholders is the number of bound values. -/
theorem get_completed_binds_created (params : GetParams) :
    (params.Completed ≠ none → params.Created = none →
      Get params = Except.error Panic.nilDereference) ∧
    (∀ t, params.Created = some t → params.Completed ≠ none →
      ∃ fields values, Get params
        = Except.ok (fields, values ++ [Value.time t, Value.time t])) ∧
    (∀ fields values, Get params = Except.ok (fields, values) →
      placeholders fields = values.length) := by
  obtain ⟨id, mid, cr, co, off, lim⟩ := params
  refine ⟨fun hc hn => ?_, fun t ht hc => ?_, fun fields values h => ?_⟩
  · simp only at hc hn
    subst hn
    cases co with
    | none => exact absurd rfl hc
    | some b => rfl
  · simp only at hc ht
    subst ht
    cases co with
    | none => exact absurd rfl hc
    | some b =>
      cases id <;> cases mid
      · exact ⟨_, [], rfl⟩
      · exact ⟨_, [_], rfl⟩
      · exact ⟨_, [_], rfl⟩
      · exact ⟨_, [_, _], rfl⟩
  · cases id <;> cases mid <;> cases cr <;> cases co <;>
      simp only [Get, Except.ok.injEq, Prod.mk.injEq, reduceCtorEq] at h <;>
      obtain ⟨rfl, rfl⟩ := h <;> rfl

/-- Witness of C29: `Get` with only `Completed` set panics. -/
theorem get_completed_binds_created_witness :
    Get ⟨none, none, none, some true, 0, 10⟩ = Except.error Panic.nilDereference :=
  (get_completed_binds_created ⟨none, none, none, some true, 0, 10⟩).1 (by decide) rfl

end Todos
